import Mathlib

/-!
# dago-node-planner: refinement loop, JSON extractor and retry policy

A shallow embedding of the planner core of `aescanero/dago-node-planner`
(`internal/planner/{extractor,prompter,iterator,generator}.go` and
`internal/llm/{retries,client}.go`) together with theorems about it.

Conventions of the embedding

* A Go `string` is a list of runes (`Str`).  The sources only compare byte
  offsets with `0` and slice at offsets of ASCII runes, so rune positions
  stand for byte offsets; inputs are taken to be valid UTF-8.
* A Go `error` value is a `GoError`, `nil` is `none`.
* Collaborators that live outside the repository (the standard library's
  `encoding/json`, the schema validator, the model port, the context) are
  parameters of the definitions.
* Loops bounded by a counter are recursions on the number of iterations
  that remain; every function is total.
-/

namespace DagoPlanner

/-! ## Strings and errors -/

/-- A Go string, as its sequence of runes. -/
abbrev Str := List Char

/-- Error values.  `leaf` is an error known by its message only, `wrap pre e`
is `fmt.Errorf(pre + "%w", e)` for a non-nil `e`, and `wrapNil pre` is the same
call with a nil operand. -/
inductive GoError where
  | leaf (msg : Str)
  | wrap (pre : Str) (inner : GoError)
  | wrapNil (pre : Str)
  deriving DecidableEq, Repr

/-- The text of `err.Error()`. -/
def GoError.Error : GoError → Str
  | .leaf msg => msg
  | .wrap pre inner => pre ++ inner.Error
  | .wrapNil pre => pre ++ "%!w(<nil>)".toList

/-- The error `errors.Unwrap` gives. -/
def GoError.Unwrap : GoError → Option GoError
  | .wrap _ inner => some inner
  | _ => none

/-- The call `fmt.Errorf(pre + "%w", e)` where `e` may be nil. -/
def errorfW (pre : Str) : Option GoError → GoError
  | some e => .wrap pre e
  | none => .wrapNil pre

/-- The verb `%d` applied to an `int`. -/
def fmtInt (n : Int) : Str := (toString n).toList

/-- The result of calling a Go function that returns an `error`: it returns
nil, returns an error, or panics. -/
inductive CallResult where
  | nil
  | err (e : GoError)
  | panic (msg : Str)
  deriving DecidableEq, Repr

/-! ## The regular expressions of `extractor.go`

Every pattern of the file is a sequence of single-rune items, each taken once,
greedily zero or more times, or greedily one or more times, with at most one
capture group, which encloses a single `+` item.  `matchAtoms` is the
backtracking search whose first result Go's `regexp` returns (leftmost-first
matching). -/

/-- One item of a pattern. -/
inductive Atom where
  | one (p : Char → Bool)
  | star (p : Char → Bool)
  | plus (p : Char → Bool)
  | plusCap (p : Char → Bool)

/-- The greedy loop of `p*` followed by the rest of the pattern `k`: take one
more rune when possible, and fall back to the rest of the pattern when the
longer attempt fails.  A result is (matched text, captured text). -/
def starGo (p : Char → Bool) (cap : Bool) (k : Str → Option (Str × Str)) :
    Str → Option (Str × Str)
  | [] => k []
  | c :: t =>
    if p c then
      match starGo p cap k t with
      | some mg => some (c :: mg.1, if cap then c :: mg.2 else mg.2)
      | none => k (c :: t)
    else k (c :: t)

/-- Match a pattern at the start of the text. -/
def matchAtoms : List Atom → Str → Option (Str × Str)
  | [] => fun _ => some ([], [])
  | .one p :: r => fun s =>
    match s with
    | c :: t => if p c then (matchAtoms r t).map (fun mg => (c :: mg.1, mg.2)) else none
    | [] => none
  | .star p :: r => starGo p false (matchAtoms r)
  | .plus p :: r => fun s =>
    match s with
    | c :: t =>
      if p c then (starGo p false (matchAtoms r) t).map (fun mg => (c :: mg.1, mg.2))
      else none
    | [] => none
  | .plusCap p :: r => fun s =>
    match s with
    | c :: t =>
      if p c then (starGo p true (matchAtoms r) t).map (fun mg => (c :: mg.1, c :: mg.2))
      else none
    | [] => none

/-- The method `re.FindStringSubmatch`: the match at the leftmost position
that has one, as (`matches[0]`, `matches[1]`), or `none` for a nil result. -/
def FindStringSubmatch (re : List Atom) : Str → Option (Str × Str)
  | [] => matchAtoms re []
  | c :: t =>
    match matchAtoms re (c :: t) with
    | some mg => some mg
    | none => FindStringSubmatch re t

/-- A literal rune of a pattern. -/
def lit (c : Char) : Atom := .one (fun x => x == c)

/-- The literal runes of a pattern. -/
def lits (s : String) : List Atom := s.toList.map lit

/-- The backtick. -/
def backtick : Char := Char.ofNat 96

/-- The class `\s` of Go's `regexp`: tab, newline, form feed, carriage return, space. -/
def reSpace (c : Char) : Bool :=
  c == '\t' || c == '\n' || c == Char.ofNat 12 || c == '\r' || c == ' '

/-- A fence pattern, "```" followed by `label` and then "\\s*\\n([^`]+)```". -/
def fencePattern (label : Str) : List Atom :=
  lit backtick :: lit backtick :: lit backtick ::
    (label.map lit ++ [.star reSpace, lit '\n', .plusCap (fun c => c != backtick),
      lit backtick, lit backtick, lit backtick])

/-- The pattern "```json\\s*\\n([^`]+)```". -/
def reFenceJson : List Atom := fencePattern "json".toList

/-- The pattern "```\\s*\\n([^`]+)```". -/
def reFencePlain : List Atom := fencePattern []

/-- The pattern `(?s)\{[^}]*"nodes"[^}]*\}`. -/
def reNodes : List Atom :=
  [lit '{', .star (fun c => c != '}')] ++ lits "\"nodes\"" ++ [.star (fun c => c != '}'), lit '}']

/-- The pattern `(?s)reasoning["\s:]+([^{]+)`. -/
def reReasoningLower : List Atom :=
  lits "reasoning" ++
    [.plus (fun c => c == '"' || reSpace c || c == ':'), .plusCap (fun c => c != '{')]

/-- The pattern `(?s)Reasoning[:\s]+([^{]+)`. -/
def reReasoningUpper : List Atom :=
  lits "Reasoning" ++ [.plus (fun c => c == ':' || reSpace c), .plusCap (fun c => c != '{')]

/-- The pattern `(?s)## Reasoning\s+([^#]+)`. -/
def reReasoningHeading : List Atom :=
  lits "## Reasoning" ++ [.plus reSpace, .plusCap (fun c => c != '#')]

/-! ## `strings.TrimSpace` and `strings.Trim` -/

/-- The predicate `unicode.IsSpace`. -/
def isSpace (c : Char) : Bool :=
  let n := c.toNat
  (9 ≤ n && n ≤ 13) || n == 32 || n == 0x85 || n == 0xA0 || n == 0x1680 ||
    (0x2000 ≤ n && n ≤ 0x200a) || n == 0x2028 || n == 0x2029 || n == 0x202f ||
    n == 0x205f || n == 0x3000

/-- Drop the trailing runes that satisfy `p`. -/
def trimRight (p : Char → Bool) (s : Str) : Str := (s.reverse.dropWhile p).reverse

/-- The function `strings.TrimSpace`. -/
def TrimSpace (s : Str) : Str := trimRight isSpace (s.dropWhile isSpace)

/-- The function `strings.Trim`. -/
def Trim (s : Str) (cutset : Str) : Str :=
  trimRight (fun c => cutset.contains c) (s.dropWhile (fun c => cutset.contains c))

/-! ## `extractor.go` -/

/-- The function `isValidJSON`; `unmarshal` is `json.Unmarshal` into an
`interface{}`, giving the error it returns. -/
def isValidJSON (unmarshal : Str → Option GoError) (s : Str) : Bool :=
  (unmarshal s).isNone

/-- The list `codeBlockPatterns` of `extractJSON`. -/
def codeBlockPatterns : List (List Atom) := [reFenceJson, reFencePlain]

/-- The first loop of `extractJSON`: for each fence pattern in turn, the
trimmed capture of its first match when that is valid JSON. -/
def tryCodeBlocks (unmarshal : Str → Option GoError) (content : Str) :
    List (List Atom) → Option Str
  | [] => none
  | pattern :: rest =>
    match FindStringSubmatch pattern content with
    | some mg =>
      let jsonStr := TrimSpace mg.2
      if isValidJSON unmarshal jsonStr then some jsonStr
      else tryCodeBlocks unmarshal content rest
    | none => tryCodeBlocks unmarshal content rest

/-- The second step of `extractJSON`: the first match of the "nodes" pattern
when it is valid JSON. -/
def tryNodes (unmarshal : Str → Option GoError) (content : Str) : Option Str :=
  match FindStringSubmatch reNodes content with
  | some mg => if isValidJSON unmarshal mg.1 then some mg.1 else none
  | none => none

/-- The variables of the last loop of `extractJSON`. -/
structure ScanState where
  depth : Int
  start : Nat
  inString : Bool
  escape : Bool
  deriving DecidableEq, Repr

/-- The slice `content[start : stop]`. -/
def slice (content : Str) (start stop : Nat) : Str :=
  (content.drop start).take (stop - start)

/-- The last loop of `extractJSON`, over the runes that remain; `i` is the
position of the first of them in `content`.  The result is the string the
function returns, `""` when the loop runs to its end. -/
def scanLoop (unmarshal : Str → Option GoError) (content : Str) :
    Str → Nat → ScanState → Str
  | [], _, _ => []
  | ch :: rest, i, st =>
    if st.escape then
      scanLoop unmarshal content rest (i + 1) { st with escape := false }
    else if ch == '\\' then
      scanLoop unmarshal content rest (i + 1) { st with escape := true }
    else if ch == '"' then
      scanLoop unmarshal content rest (i + 1) { st with inString := !st.inString }
    else if st.inString then
      scanLoop unmarshal content rest (i + 1) st
    else if ch == '{' then
      let st1 := if st.depth == 0 then { st with start := i } else st
      scanLoop unmarshal content rest (i + 1) { st1 with depth := st1.depth + 1 }
    else if ch == '}' then
      let st1 := { st with depth := st.depth - 1 }
      if st1.depth == 0 && decide (st1.start > 0) then
        let jsonStr := slice content st1.start (i + 1)
        if isValidJSON unmarshal jsonStr then jsonStr
        else scanLoop unmarshal content rest (i + 1) st1
      else scanLoop unmarshal content rest (i + 1) st1
    else scanLoop unmarshal content rest (i + 1) st

/-- The function `extractJSON`. -/
def extractJSON (unmarshal : Str → Option GoError) (content : Str) : Str :=
  match tryCodeBlocks unmarshal content codeBlockPatterns with
  | some jsonStr => jsonStr
  | none =>
    match tryNodes unmarshal content with
    | some jsonStr => jsonStr
    | none => scanLoop unmarshal content content 0 ⟨0, 0, false, false⟩

/-- The list `patterns` of `extractReasoning`. -/
def reasoningPatterns : List (List Atom) :=
  [reReasoningLower, reReasoningUpper, reReasoningHeading]

/-- The loop of `extractReasoning`. -/
def tryReasoning (content : Str) : List (List Atom) → Str
  | [] => []
  | pattern :: rest =>
    match FindStringSubmatch pattern content with
    | some mg => Trim (TrimSpace mg.2) "\"'".toList
    | none => tryReasoning content rest

/-- The method `Extractor.extractReasoning`. -/
def extractReasoning (content : Str) : Str := tryReasoning content reasoningPatterns

/-- The method `Extractor.Extract`, as (`graphJSON`, `reasoning`) or the error. -/
def Extract (unmarshal : Str → Option GoError) (content : Str) : Except GoError (Str × Str) :=
  let reasoning := extractReasoning content
  let graphJSON := extractJSON unmarshal content
  if graphJSON == [] then .error (.leaf "no JSON found in response".toList)
  else
    match unmarshal graphJSON with
    | some err => .error (.wrap "invalid JSON: ".toList err)
    | none => .ok (graphJSON, reasoning)

/-- The method `Extractor.ParseGraph`: `unmarshalMap` is `json.Unmarshal` into
a `map[string]any`; the parsed map itself is not modelled. -/
def ParseGraph (unmarshalMap : Str → Option GoError) (graphJSON : Str) : Option GoError :=
  match unmarshalMap graphJSON with
  | some err => some (.wrap "failed to parse graph JSON: ".toList err)
  | none => none

/-! ## `prompter.go` -/

/-- The function `strings.ReplaceAll` for a non-empty `old`; `skip` counts the
runes of a replaced occurrence that are still to be passed over. -/
def replaceAux (old new : Str) : Nat → Str → Str
  | _, [] => []
  | skip + 1, _ :: t => replaceAux old new skip t
  | 0, c :: t =>
    if old.isPrefixOf (c :: t) then new ++ replaceAux old new (old.length - 1) t
    else c :: replaceAux old new 0 t

/-- The call `strings.ReplaceAll(s, old, new)` with a non-empty `old`. -/
def ReplaceAll (s old new : Str) : Str := replaceAux old new 0 s

/-- The verb `%t`. -/
def fmtBool (b : Bool) : Str := if b then "true".toList else "false".toList

/-- The verb `%v` applied to a `[]string`. -/
def fmtStrings (xs : List Str) : Str := '[' :: (" ".toList.intercalate xs) ++ [']']

/-- The fields of `models.TaskAnalysis` that the planner reads. -/
structure TaskAnalysis where
  TaskID : Str
  Complexity : Str
  RequiresTools : Bool
  RequiresRouting : Bool
  SuggestedNodeTypes : List Str
  KeyEntities : List Str
  Intent : Str
  Reasoning : Str
  deriving DecidableEq, Repr

/-- The struct `models.Constraints`. -/
structure Constraints where
  MaxNodes : Int
  PreferredModes : List Str
  AvailableTools : List Str
  MaxIterations : Int
  RequireValidation : Bool
  deriving DecidableEq, Repr

/-- The constant `defaultSystemPrompt`. -/
def defaultSystemPrompt : Str :=
  ("You are an expert graph planning assistant for the DA Orchestrator workflow system.\n\n" ++
   "Your role is to convert natural language task descriptions into valid execution graphs.\n\n" ++
   "A graph consists of:\n" ++
   "1. Executor nodes: Perform actions using LLMs, tools, or both\n" ++
   "2. Router nodes: Make routing decisions (deterministic or LLM-based)\n" ++
   "3. Edges: Connect nodes to define execution flow\n\n" ++
   "You must respond with a valid JSON graph that conforms to the graph schema.\n\n" ++
   "Always include:\n" ++
   "- A clear \"reasoning\" field explaining your graph design\n" ++
   "- Proper node IDs and edge connections\n" ++
   "- Valid node configurations for each node type\n\n" ++
   "Be concise and focus on creating minimal, effective graphs.").toList

/-- The constant `defaultPlanningTemplate`. -/
def defaultPlanningTemplate : Str :=
  ("Generate an execution graph for the following task:\n\n" ++
   "\x7b\x7bTASK\x7d\x7d\n\n" ++
   "\x7b\x7bANALYSIS\x7d\x7d\n\n" ++
   "\x7b\x7bCONSTRAINTS\x7d\x7d\n\n" ++
   "\x7b\x7bSCHEMAS\x7d\x7d\n\n" ++
   "Respond with:\n" ++
   "1. A \"reasoning\" section explaining your graph design\n" ++
   "2. A \"graph\" section containing the complete JSON graph\n\n" ++
   "The graph must conform to the graph schema and be executable.").toList

/-- The constant `defaultErrorFixingTemplate`. -/
def defaultErrorFixingTemplate : Str :=
  ("The previous graph had validation errors. Please fix them.\n\n" ++
   "Original Task: \x7b\x7bTASK\x7d\x7d\n\n" ++
   "Previous Graph (attempt \x7b\x7bATTEMPT\x7d\x7d):\n" ++
   "\x7b\x7bPREVIOUS_GRAPH\x7d\x7d\n\n" ++
   "Validation Errors:\n" ++
   "\x7b\x7bVALIDATION_ERRORS\x7d\x7d\n\n" ++
   "Generate a corrected graph that fixes these validation errors while maintaining the intent of the original task.\n\n" ++
   "Respond with:\n" ++
   "1. A \"reasoning\" section explaining your fixes\n" ++
   "2. A \"graph\" section containing the corrected JSON graph").toList

/-- The struct `Prompter`, once its templates are loaded. -/
structure Prompter where
  promptPath : Str
  systemPrompt : Str
  planningTemplate : Str
  errorFixingTemplate : Str
  deriving DecidableEq, Repr

/-- The method `Prompter.loadPromptFile`; `readFile` is `os.ReadFile` on the
named file of the prompt directory, `none` when it fails. -/
def loadPromptFile (promptPath : Str) (readFile : Str → Option Str)
    (filename defaultContent : Str) : Str :=
  if promptPath == [] then defaultContent
  else
    match readFile filename with
    | none => defaultContent
    | some content => content

/-- The function `NewPrompter` with `loadPrompts`. -/
def NewPrompter (promptPath : Str) (readFile : Str → Option Str) : Prompter :=
  if promptPath != [] then
    { promptPath := promptPath
      systemPrompt := loadPromptFile promptPath readFile "system-prompt.txt".toList defaultSystemPrompt
      planningTemplate :=
        loadPromptFile promptPath readFile "task-planning.txt".toList defaultPlanningTemplate
      errorFixingTemplate :=
        loadPromptFile promptPath readFile "error-fixing.txt".toList defaultErrorFixingTemplate }
  else
    { promptPath := promptPath
      systemPrompt := defaultSystemPrompt
      planningTemplate := defaultPlanningTemplate
      errorFixingTemplate := defaultErrorFixingTemplate }

/-- The method `Prompter.GetSystemPrompt`. -/
def Prompter.GetSystemPrompt (p : Prompter) : Str := p.systemPrompt

/-- The text `analysisStr` of `BuildPlanningPrompt`. -/
def analysisStr : Option TaskAnalysis → Str
  | none => []
  | some a =>
    "\nTask Analysis:\n- Complexity: ".toList ++ a.Complexity ++
    "\n- Requires Tools: ".toList ++ fmtBool a.RequiresTools ++
    "\n- Requires Routing: ".toList ++ fmtBool a.RequiresRouting ++
    "\n- Suggested Node Types: ".toList ++ fmtStrings a.SuggestedNodeTypes ++
    "\n- Intent: ".toList ++ a.Intent ++ "\n".toList

/-- The text `constraintsStr` of `BuildPlanningPrompt`. -/
def constraintsStr : Option Constraints → Str
  | none => []
  | some c =>
    "\nConstraints:\n- Max Nodes: ".toList ++ fmtInt c.MaxNodes ++
    "\n- Preferred Modes: ".toList ++ fmtStrings c.PreferredModes ++
    "\n- Available Tools: ".toList ++ fmtStrings c.AvailableTools ++ "\n".toList

/-- The text `schemasStr` of `BuildPlanningPrompt`. -/
def schemasStr : Str :=
  "See the graph schema documentation for the full schema specification.".toList

/-- The method `Prompter.BuildPlanningPrompt`, as (prompt, error); the
`schemas` argument is not read by the method. -/
def Prompter.BuildPlanningPrompt (p : Prompter) (task : Str) (analysis : Option TaskAnalysis)
    (constraints : Option Constraints) : Str × Option GoError :=
  let prompt := p.planningTemplate
  let prompt := ReplaceAll prompt "\x7b\x7bTASK\x7d\x7d".toList task
  let prompt := ReplaceAll prompt "\x7b\x7bANALYSIS\x7d\x7d".toList (analysisStr analysis)
  let prompt := ReplaceAll prompt "\x7b\x7bCONSTRAINTS\x7d\x7d".toList (constraintsStr constraints)
  let prompt := ReplaceAll prompt "\x7b\x7bSCHEMAS\x7d\x7d".toList schemasStr
  (prompt, none)

/-- The loop of `BuildErrorFixingPrompt` that numbers the messages; `i` is
the index of the first of them. -/
def errorsStr : Nat → List Str → Str
  | _, [] => []
  | i, e :: rest => fmtInt (i + 1) ++ ". ".toList ++ e ++ "\n".toList ++ errorsStr (i + 1) rest

/-- The method `Prompter.BuildErrorFixingPrompt`, as (prompt, error). -/
def Prompter.BuildErrorFixingPrompt (p : Prompter) (task previousGraph : Str)
    (validationErrors : List Str) (attempt : Int) : Str × Option GoError :=
  let prompt := p.errorFixingTemplate
  let prompt := ReplaceAll prompt "\x7b\x7bTASK\x7d\x7d".toList task
  let prompt := ReplaceAll prompt "\x7b\x7bPREVIOUS_GRAPH\x7d\x7d".toList previousGraph
  let prompt := ReplaceAll prompt "\x7b\x7bATTEMPT\x7d\x7d".toList (fmtInt attempt)
  let prompt :=
    ReplaceAll prompt "\x7b\x7bVALIDATION_ERRORS\x7d\x7d".toList (errorsStr 0 validationErrors)
  (prompt, none)

/-! ## `retries.go` -/

/-- The struct `Retrier`.  Durations are `time.Duration` values, in
nanoseconds.  The `float64` multiplier is the fraction
`multiplierNum / multiplierDen`, and the product `float64(delay) * multiplier`
is computed exactly and truncated, which is what the conversion gives whenever
the operands and the product are exact in `float64` (as they are for whole
multipliers and delays below `2^53`).  For a multiplier that is not exact in
`float64` (1.15, say) the rounded product may truncate to one nanosecond
less, and a product beyond the range of `int64` is outside this embedding;
the theorems below evaluate delays at the multiplier 2.0 only, or carry them
as they come. -/
structure Retrier where
  maxAttempts : Int
  initialDelay : Int
  maxDelay : Int
  multiplierNum : Int
  multiplierDen : Nat
  deriving DecidableEq, Repr

/-- What `Retrier.Do` does, in order: a call of the operation (numbered from
1), a wait that ran its full duration, a wait that the context cut short. -/
inductive RetryEvent where
  | call (attempt : Nat)
  | wait (d : Int)
  | interrupted (d : Int)
  deriving DecidableEq, Repr

/-- The outcome of `Retrier.Do`: the error it returns, the state the
operation left, and the calls and waits it performed. -/
structure DoRun (σ : Type) where
  err : Option GoError
  state : σ
  events : List RetryEvent

/-- The method `Retrier.shouldRetry`. -/
def Retrier.shouldRetry (_r : Retrier) (_err : GoError) : Bool := true

/-- The expression `time.Duration(float64(delay) * r.multiplier)`, capped as
in the `select` branch of `Do`. -/
def Retrier.nextDelay (r : Retrier) (delay : Int) : Int :=
  let d := Int.tdiv (delay * r.multiplierNum) r.multiplierDen
  if d > r.maxDelay then r.maxDelay else d

/-- The text of the error `Do` returns after its loop. -/
def Retrier.exceeded (r : Retrier) (lastErr : Option GoError) : GoError :=
  errorfW ("max retry attempts (".toList ++ fmtInt r.maxAttempts ++ ") exceeded: ".toList) lastErr

/-- The loop of `Retrier.Do`.  `rem` is the number of values of `attempt`
that are still within `maxAttempts`, so `rem = 0` is the loop's exit.
`ctxWait a` tells how the `select` after attempt `a` ends: `some e` when
`ctx.Done()` fires first, with `e = ctx.Err()`, and `none` when the timer
does.  The operation `fn` acts on a state of its own. -/
def Retrier.loop {σ : Type} (r : Retrier) (ctxWait : Nat → Option GoError)
    (fn : σ → σ × Option GoError) :
    Nat → Nat → Int → Option GoError → σ → List RetryEvent → DoRun σ
  | 0, _, _, lastErr, s, ev => ⟨some (r.exceeded lastErr), s, ev⟩
  | rem + 1, attempt, delay, _, s, ev =>
    match fn s with
    | (s1, none) => ⟨none, s1, ev ++ [.call attempt]⟩
    | (s1, some err) =>
      if !r.shouldRetry err then ⟨some err, s1, ev ++ [.call attempt]⟩
      else if (attempt : Int) ≥ r.maxAttempts then
        ⟨some (r.exceeded (some err)), s1, ev ++ [.call attempt]⟩
      else
        match ctxWait attempt with
        | some ctxErr => ⟨some ctxErr, s1, ev ++ [.call attempt, .interrupted delay]⟩
        | none =>
          Retrier.loop r ctxWait fn rem (attempt + 1) (r.nextDelay delay) (some err) s1
            (ev ++ [.call attempt, .wait delay])

/-- The method `Retrier.Do`. -/
def Retrier.Do {σ : Type} (r : Retrier) (ctxWait : Nat → Option GoError)
    (fn : σ → σ × Option GoError) (s : σ) : DoRun σ :=
  Retrier.loop r ctxWait fn r.maxAttempts.toNat 1 r.initialDelay none s []

/-! ## `models.go` and `client.go` of package `llm` -/

/-- The struct `llm.CompletionRequest`; the temperature is a fraction. -/
structure CompletionRequest where
  SystemPrompt : Str
  UserPrompt : Str
  MaxTokens : Int
  Temperature : Rat
  StopSequences : List Str
  deriving DecidableEq

/-- The struct `llm.CompletionResponse`, without its unused `Error` field. -/
structure CompletionResponse where
  Content : Str
  Model : Str
  TokensUsed : Int
  FinishReason : Str
  deriving DecidableEq, Repr

/-- The struct `llm.UsageStats`. -/
structure UsageStats where
  TotalTokens : Int
  TotalCalls : Int
  SuccessfulCalls : Int
  FailedCalls : Int
  deriving DecidableEq, Repr

/-- The method `UsageStats.AddCall`. -/
def UsageStats.AddCall (u : UsageStats) (tokensUsed : Int) (success : Bool) : UsageStats :=
  let u := { u with TotalCalls := u.TotalCalls + 1, TotalTokens := u.TotalTokens + tokensUsed }
  if success then { u with SuccessfulCalls := u.SuccessfulCalls + 1 }
  else { u with FailedCalls := u.FailedCalls + 1 }

/-- The struct `ports.Message`, as `doComplete` fills it. -/
structure Message where
  Role : Str
  Content : Str
  deriving DecidableEq, Repr

/-- The struct `ports.CompletionRequest`, as `doComplete` fills it. -/
structure PortRequest where
  Model : Str
  Messages : List Message
  MaxTokens : Int
  Temperature : Rat
  Stop : List Str
  deriving DecidableEq

/-- The fields of `ports.CompletionResponse` that `doComplete` reads. -/
structure PortResponse where
  Content : Str
  Model : Str
  TotalTokens : Int
  FinishReason : Str
  deriving DecidableEq, Repr

/-- The collaborators outside the repository.
* `unmarshal`: `json.Unmarshal` into an `interface{}`; `none` is success.
* `unmarshalMap`: `json.Unmarshal` into a `map[string]any`.
* `ValidateGraph`: the schema validator of `dago-libs`.
* `llm n`: the `n`-th call (from 1) of `ports.LLMClient.Complete`.
* `ctxErr a`: the context as the check that opens iteration `a` sees it,
  `some e` when it is done with `ctx.Err() = e`.
* `ctxWait n`: how the wait that follows the `n`-th call of the port ends,
  `some e` when the context is done before the timer fires. -/
structure Env where
  unmarshal : Str → Option GoError
  unmarshalMap : Str → Option GoError
  ValidateGraph : Str → Option GoError
  llm : Nat → PortRequest → Except GoError PortResponse
  ctxErr : Nat → Option GoError
  ctxWait : Nat → Option GoError

/-- The struct `llm.Client`: the configured model name, its retrier, its
statistics, and the number of calls its port has received. -/
structure Client where
  model : Str
  retrier : Retrier
  stats : UsageStats
  portCalls : Nat
  deriving DecidableEq, Repr

/-- A value, an error, or a panic. -/
inductive Res (α : Type) where
  | ok (a : α)
  | error (e : GoError)
  | panic (msg : Str)

/-- The method `Client.doComplete`, as the `n`-th call of the port. -/
def Client.doComplete (c : Client) (env : Env) (req : CompletionRequest) (n : Nat) :
    Except GoError CompletionResponse :=
  let messages : List Message :=
    if req.SystemPrompt != [] then [⟨"system".toList, req.SystemPrompt⟩] else []
  let messages := messages ++ [⟨"user".toList, req.UserPrompt⟩]
  let llmReq : PortRequest :=
    { Model := c.model, Messages := messages, MaxTokens := req.MaxTokens,
      Temperature := req.Temperature, Stop := req.StopSequences }
  match env.llm n llmReq with
  | .error err => .error (.wrap "LLM request failed: ".toList err)
  | .ok llmResp =>
    .ok { Content := llmResp.Content, Model := llmResp.Model,
          TokensUsed := llmResp.TotalTokens, FinishReason := llmResp.FinishReason }

/-- The variables the closure of `Client.Complete` writes: `resp`, and the
number of calls the port has received. -/
structure CompleteVars where
  resp : Option CompletionResponse
  portCalls : Nat

/-- The closure `Client.Complete` hands to `Retrier.Do`. -/
def Client.completeFn (c : Client) (env : Env) (req : CompletionRequest) (v : CompleteVars) :
    CompleteVars × Option GoError :=
  match c.doComplete env req (v.portCalls + 1) with
  | .ok resp => (⟨some resp, v.portCalls + 1⟩, none)
  | .error err => (⟨none, v.portCalls + 1⟩, some err)

/-- The method `Client.Complete`: the client afterwards, the result, and the
calls and waits of its retrier. -/
def Client.Complete (c : Client) (env : Env) (req : CompletionRequest) :
    Client × Res CompletionResponse × List RetryEvent :=
  let run := c.retrier.Do (fun a => env.ctxWait (c.portCalls + a)) (c.completeFn env req)
    ⟨none, c.portCalls⟩
  let c1 := { c with portCalls := run.state.portCalls }
  match run.err with
  | some err => ({ c1 with stats := c1.stats.AddCall 0 false }, .error err, run.events)
  | none =>
    match run.state.resp with
    | none => (c1, .panic "invalid memory address or nil pointer dereference".toList, run.events)
    | some resp =>
      ({ c1 with stats := c1.stats.AddCall resp.TokensUsed true }, .ok resp, run.events)

/-! ## `iterator.go` -/

/-- The struct `Iterator`. -/
structure Iterator where
  maxIterations : Int
  deriving DecidableEq, Repr

/-- The outcome of `Iterator.Iterate`: what it returns, the state the
iteration function left, and the attempt numbers the function was called
with, in order. -/
structure IterRun (σ : Type) where
  result : CallResult
  state : σ
  calls : List Nat

/-- The text of the error `Iterate` returns after its loop. -/
def Iterator.exceeded (it : Iterator) (lastErr : Option GoError) : GoError :=
  errorfW ("max iterations (".toList ++ fmtInt it.maxIterations ++ ") exceeded: ".toList) lastErr

/-- The loop of `Iterator.Iterate`.  `rem` is the number of values of
`attempt` that are still within `maxIterations`, so `rem = 0` is the loop's
exit.  `ctxErr a` is what the check at the top of iteration `a` sees.  The
iteration function `fn` acts on a state of its own and may panic. -/
def Iterator.loop {σ : Type} (it : Iterator) (ctxErr : Nat → Option GoError)
    (fn : Nat → σ → σ × CallResult) :
    Nat → Nat → Option GoError → σ → List Nat → IterRun σ
  | 0, _, lastErr, s, calls => ⟨.err (it.exceeded lastErr), s, calls⟩
  | rem + 1, attempt, _, s, calls =>
    match ctxErr attempt with
    | some e => ⟨.err e, s, calls⟩
    | none =>
      match fn attempt s with
      | (s1, .nil) => ⟨.nil, s1, calls ++ [attempt]⟩
      | (s1, .panic msg) => ⟨.panic msg, s1, calls ++ [attempt]⟩
      | (s1, .err err) =>
        if (attempt : Int) ≥ it.maxIterations then
          ⟨.err (it.exceeded (some err)), s1, calls ++ [attempt]⟩
        else Iterator.loop it ctxErr fn rem (attempt + 1) (some err) s1 (calls ++ [attempt])

/-- The method `Iterator.Iterate`. -/
def Iterator.Iterate {σ : Type} (it : Iterator) (ctxErr : Nat → Option GoError)
    (fn : Nat → σ → σ × CallResult) (s : σ) : IterRun σ :=
  Iterator.loop it ctxErr fn it.maxIterations.toNat 1 none s []

/-! ## `generator.go` -/

/-- The struct `GenerateRequest`; its `Context` map is not read. -/
structure GenerateRequest where
  Task : Str
  Analysis : Option TaskAnalysis
  Constraints : Option Constraints
  deriving DecidableEq, Repr

/-- The struct `GenerateResponse`, without the parsed `Graph`. -/
structure GenerateResponse where
  GraphJSON : Str
  Reasoning : Str
  Iterations : Int
  ValidationLogs : List Str
  deriving DecidableEq, Repr

/-- The struct `Generator`: its prompter and its iterator.  Its client is
part of the state, its extractor and validator are in `Env`. -/
structure Generator where
  prompter : Prompter
  iterator : Iterator
  deriving DecidableEq, Repr

/-- What the iteration closure of `Generate` does that others can see: a
call of `BuildErrorFixingPrompt` with its arguments, a call of
`Client.Complete` with its request, the content of a response, and a call of
`ValidateGraph` with its argument, each with the attempt it belongs to. -/
inductive GenEvent where
  | fixPrompt (attempt : Nat) (previousGraph : Str) (validationErrors : List Str)
  | complete (attempt : Nat) (req : CompletionRequest)
  | response (attempt : Nat) (content : Str)
  | validate (attempt : Nat) (graphJSON : Str)
  deriving DecidableEq

/-- The variables the iteration closure of `Generate` captures, the client it
calls, and the record of what it did (`trace`, `retries`). -/
structure GenVars where
  graphJSON : Str
  reasoning : Str
  validationLogs : List Str
  iteration : Int
  client : Client
  trace : List GenEvent
  retries : List RetryEvent

/-- The request the closure sends: the planning prompt on attempt 1, an
error-fixing prompt built from the last log entry afterwards.  Indexing an
empty log panics. -/
def Generator.buildRequest (g : Generator) (req : GenerateRequest) (prompt : Str)
    (attempt : Nat) (v : GenVars) : GenVars × Res CompletionRequest :=
  if attempt == 1 then
    (v, .ok { SystemPrompt := g.prompter.GetSystemPrompt, UserPrompt := prompt,
              MaxTokens := 4096, Temperature := 0, StopSequences := [] })
  else
    match v.validationLogs.getLast? with
    | none => (v, .panic "index out of range [-1]".toList)
    | some validationErrs =>
      let v1 := { v with trace := v.trace ++ [GenEvent.fixPrompt attempt v.graphJSON [validationErrs]] }
      match g.prompter.BuildErrorFixingPrompt req.Task v.graphJSON [validationErrs] attempt with
      | (_, some err) => (v1, .error (.wrap "failed to build error-fixing prompt: ".toList err))
      | (fixPrompt, none) =>
        (v1, .ok { SystemPrompt := g.prompter.GetSystemPrompt, UserPrompt := fixPrompt,
                   MaxTokens := 4096, Temperature := 0, StopSequences := [] })

/-- The last part of the closure of `Generate`: extract the graph from the
content of the response and validate it, logging the outcome. -/
def Generator.handleResponse (env : Env) (attempt : Nat) (v : GenVars) (content : Str) :
    GenVars × CallResult :=
  let v3 := { v with trace := v.trace ++ [GenEvent.response attempt content] }
  match Extract env.unmarshal content with
  | .error err =>
    ({ v3 with validationLogs :=
        v3.validationLogs ++ ["Extraction error: ".toList ++ err.Error] }, .err err)
  | .ok (extractedJSON, extractedReasoning) =>
    let v4 := { v3 with graphJSON := extractedJSON, reasoning := extractedReasoning,
                        trace := v3.trace ++ [GenEvent.validate attempt extractedJSON] }
    match env.ValidateGraph v4.graphJSON with
    | some err =>
      ({ v4 with validationLogs :=
          v4.validationLogs ++ ["Validation failed: ".toList ++ err.Error] }, .err err)
    | none =>
      ({ v4 with validationLogs :=
          v4.validationLogs ++ ["Validation successful".toList] }, .nil)

/-- The middle part of the closure of `Generate`: send the request through
`Client.Complete` and, when it answers, go on with the response. -/
def Generator.callModel (env : Env) (attempt : Nat) (v : GenVars) (creq : CompletionRequest) :
    GenVars × CallResult :=
  let out := v.client.Complete env creq
  let v2 := { v with client := out.1, trace := v.trace ++ [GenEvent.complete attempt creq],
                     retries := v.retries ++ out.2.2 }
  match out.2.1 with
  | .panic msg => (v2, .panic msg)
  | .error llmErr => (v2, .err (.wrap "LLM request failed: ".toList llmErr))
  | .ok llmResp => Generator.handleResponse env attempt v2 llmResp.Content

/-- The closure `Generate` hands to `Iterator.Iterate`. -/
def Generator.attemptFn (g : Generator) (env : Env) (req : GenerateRequest) (prompt : Str)
    (attempt : Nat) (v0 : GenVars) : GenVars × CallResult :=
  let v := { v0 with iteration := attempt }
  match g.buildRequest req prompt attempt v with
  | (v1, .panic msg) => (v1, .panic msg)
  | (v1, .error err) => (v1, .err err)
  | (v1, .ok creq) => Generator.callModel env attempt v1 creq

/-- The outcome of `Generator.Generate`: what it returns, the final values
of the closure's variables, and the attempts the iterator ran. -/
structure GenerateRun where
  result : Res GenerateResponse
  vars : GenVars
  calls : List Nat

/-- The variables of `Generate` before the loop. -/
def GenVars.init (client : Client) : GenVars :=
  { graphJSON := [], reasoning := [], validationLogs := [], iteration := 0,
    client := client, trace := [], retries := [] }

/-- The method `Generator.Generate`; `client` is the state of `g.llmClient`
when it is called.  (`getSchemas` returns a constant map and no error.) -/
def Generator.Generate (g : Generator) (env : Env) (client : Client) (req : GenerateRequest) :
    GenerateRun :=
  match g.prompter.BuildPlanningPrompt req.Task req.Analysis req.Constraints with
  | (_, some err) =>
    ⟨.error (.wrap "failed to build planning prompt: ".toList err), GenVars.init client, []⟩
  | (prompt, none) =>
    let run := g.iterator.Iterate env.ctxErr (g.attemptFn env req prompt) (GenVars.init client)
    let v := run.state
    match run.result with
    | .panic msg => ⟨.panic msg, v, run.calls⟩
    | .err err =>
      ⟨.error (.wrap ("graph generation failed after ".toList ++ fmtInt v.iteration ++
          " iterations: ".toList) err), v, run.calls⟩
    | .nil =>
      match ParseGraph env.unmarshalMap v.graphJSON with
      | some err => ⟨.error (.wrap "failed to parse final graph: ".toList err), v, run.calls⟩
      | none =>
        ⟨.ok { GraphJSON := v.graphJSON, Reasoning := v.reasoning, Iterations := v.iteration,
               ValidationLogs := v.validationLogs }, v, run.calls⟩

/-! ## `analyzer.go` -/

/-- The method `Analyzer.buildSystemPrompt`. -/
def Analyzer.buildSystemPrompt : Str :=
  ("You are a task analysis expert for a graph-based workflow orchestration system.\n\n" ++
   "Your role is to analyze natural language task descriptions and extract:\n" ++
   "1. Task complexity (simple, moderate, complex)\n" ++
   "2. Whether the task requires external tools\n" ++
   "3. Whether the task requires conditional routing/branching\n" ++
   "4. Suggested node types (executor nodes, router nodes)\n" ++
   "5. Key entities mentioned in the task\n" ++
   "6. Overall intent of the task\n\n" ++
   "Respond with a JSON object in this exact format:\n" ++
   "\x7b\n" ++
   "  \"complexity\": \"simple|moderate|complex\",\n" ++
   "  \"requires_tools\": true|false,\n" ++
   "  \"requires_routing\": true|false,\n" ++
   "  \"suggested_node_types\": [\"executor\", \"router\"],\n" ++
   "  \"key_entities\": [\"entity1\", \"entity2\"],\n" ++
   "  \"intent\": \"Brief description of task intent\",\n" ++
   "  \"reasoning\": \"Explanation of your analysis\"\n" ++
   "\x7d\n\n" ++
   "Be concise and accurate. Focus on extracting actionable insights for graph planning.").toList

/-- The method `Analyzer.buildUserPrompt`. -/
def Analyzer.buildUserPrompt (task : Str) : Str := "Analyze this task:\n\n".toList ++ task

/-- The anonymous struct `result` that `parseAnalysis` decodes into. -/
structure AnalysisResult where
  Complexity : Str
  RequiresTools : Bool
  RequiresRouting : Bool
  SuggestedNodeTypes : List Str
  KeyEntities : List Str
  Intent : Str
  Reasoning : Str
  deriving DecidableEq, Repr

/-- The method `Analyzer.parseAnalysis`.  `unmarshal` is `json.Unmarshal`
into an `interface{}` (inside `extractJSON`), `unmarshalResult` is
`json.Unmarshal` into the struct `result`, and `newUUID` is the string
`uuid.New()` gives; the time stamp `AnalyzedAt` is left out. -/
def Analyzer.parseAnalysis (unmarshal : Str → Option GoError)
    (unmarshalResult : Str → Except GoError AnalysisResult) (newUUID : Str)
    (content _task : Str) : Except GoError TaskAnalysis :=
  let jsonStr := extractJSON unmarshal content
  if jsonStr == [] then .error (.leaf "no JSON found in response".toList)
  else
    match unmarshalResult jsonStr with
    | .error err => .error (.wrap "failed to unmarshal JSON: ".toList err)
    | .ok result =>
      .ok { TaskID := newUUID
            Complexity := result.Complexity
            RequiresTools := result.RequiresTools
            RequiresRouting := result.RequiresRouting
            SuggestedNodeTypes := result.SuggestedNodeTypes
            KeyEntities := result.KeyEntities
            Intent := result.Intent
            Reasoning := result.Reasoning }

/-- The method `Analyzer.Analyze`: the client afterwards and the result. -/
def Analyzer.Analyze (env : Env) (unmarshalResult : Str → Except GoError AnalysisResult)
    (newUUID : Str) (client : Client) (task : Str) : Client × Res TaskAnalysis :=
  let systemPrompt := Analyzer.buildSystemPrompt
  let userPrompt := Analyzer.buildUserPrompt task
  let out := client.Complete env
    { SystemPrompt := systemPrompt, UserPrompt := userPrompt, MaxTokens := 1024,
      Temperature := 0, StopSequences := [] }
  match out.2.1 with
  | .panic msg => (out.1, .panic msg)
  | .error err => (out.1, .error (.wrap "LLM analysis failed: ".toList err))
  | .ok resp =>
    match Analyzer.parseAnalysis env.unmarshal unmarshalResult newUUID resp.Content task with
    | .error err => (out.1, .error (.wrap "failed to parse analysis: ".toList err))
    | .ok analysis => (out.1, .ok analysis)

/-! ## `config.go`, `plan.go` and `service.go` -/

/-- The struct `config.PlanningConfig`; the threshold is a fraction. -/
structure PlanningConfig where
  MaxIterations : Int
  MaxNodes : Int
  PromptPath : Str
  EnableValidation : Bool
  EnableAnalysis : Bool
  ConfidenceThreshold : Rat
  deriving DecidableEq

/-- The struct `models.PlanRequest`; its `Context` map is not read. -/
structure PlanRequest where
  Task : Str
  Constraints : Option Constraints
  SkipAnalysis : Bool
  deriving DecidableEq, Repr

/-- The struct `models.PlanMetadata`, without its `Duration`. -/
structure PlanMetadata where
  LLMProvider : Str
  LLMModel : Str
  TokensUsed : Int
  ConfidenceScore : Rat
  Success : Bool
  ErrorMessage : Str
  deriving DecidableEq

/-- The struct `models.PlanResponse`, without the parsed `Graph` and the
time stamp `CreatedAt`. -/
structure PlanResponse where
  PlanID : Str
  GraphJSON : Str
  Reasoning : Str
  Analysis : Option TaskAnalysis
  Iterations : Int
  ValidationLogs : List Str
  Metadata : PlanMetadata
  deriving DecidableEq

/-- The struct `Service`: its generator and its configuration.  Its client
is part of the state, its validator is in `Env`. -/
structure Service where
  generator : Generator
  config : PlanningConfig
  deriving DecidableEq

/-- The function `NewIterator`. -/
def NewIterator (maxIterations : Int) : Iterator := { maxIterations := maxIterations }

/-- The function `NewService`; `readFile` is `os.ReadFile` in the prompt
directory. -/
def NewService (cfg : PlanningConfig) (readFile : Str → Option Str) : Service :=
  { generator := { prompter := NewPrompter cfg.PromptPath readFile,
                   iterator := NewIterator cfg.MaxIterations }
    config := cfg }

/-- The outcome of `Service.Plan`: what it returns, the client afterwards,
and the run of `Generate` it made, if it got there. -/
structure PlanRun where
  result : Res PlanResponse
  client : Client
  generate : Option GenerateRun

/-- The method `Service.Plan`; `planID` and `analysisID` are the strings the
two calls of `uuid.New()` give, `client` is the state of `s.llmClient` when
it is called. -/
def Service.Plan (s : Service) (env : Env)
    (unmarshalResult : Str → Except GoError AnalysisResult) (planID analysisID : Str)
    (client : Client) (req : PlanRequest) : PlanRun :=
  let step1 : Client × Res (Option TaskAnalysis) :=
    if !req.SkipAnalysis && s.config.EnableAnalysis then
      match Analyzer.Analyze env unmarshalResult analysisID client req.Task with
      | (c1, .panic msg) => (c1, .panic msg)
      | (c1, .error _) => (c1, .ok none)
      | (c1, .ok analysis) => (c1, .ok (some analysis))
    else (client, .ok none)
  match step1 with
  | (c1, .panic msg) => ⟨.panic msg, c1, none⟩
  | (c1, .error err) => ⟨.error err, c1, none⟩
  | (c1, .ok analysis) =>
    let genReq : GenerateRequest :=
      { Task := req.Task, Analysis := analysis, Constraints := req.Constraints }
    let run := s.generator.Generate env c1 genReq
    let c2 := run.vars.client
    match run.result with
    | .panic msg => ⟨.panic msg, c2, some run⟩
    | .error err => ⟨.error (.wrap "graph generation failed: ".toList err), c2, some run⟩
    | .ok genResp =>
      let stats := c2.stats
      ⟨.ok { PlanID := planID
             GraphJSON := genResp.GraphJSON
             Reasoning := genResp.Reasoning
             Analysis := analysis
             Iterations := genResp.Iterations
             ValidationLogs := genResp.ValidationLogs
             Metadata :=
               { LLMProvider := "anthropic".toList, LLMModel := "unknown".toList,
                 TokensUsed := stats.TotalTokens, ConfidenceScore := 0, Success := true,
                 ErrorMessage := [] } }, c2, some run⟩

/-! ## Specification-level notions used by the theorems -/

/-- The language of a pattern: `Den re m g` says that `m` is a text the
pattern `re` matches in full, with `g` the text of its capture group. -/
def Den : List Atom → Str → Str → Prop
  | [], m, g => m = [] ∧ g = []
  | .one p :: r, m, g => ∃ c m1, m = c :: m1 ∧ p c = true ∧ Den r m1 g
  | .star p :: r, m, g => ∃ w m1, m = w ++ m1 ∧ (∀ c ∈ w, p c = true) ∧ Den r m1 g
  | .plus p :: r, m, g =>
    ∃ w m1, m = w ++ m1 ∧ w ≠ [] ∧ (∀ c ∈ w, p c = true) ∧ Den r m1 g
  | .plusCap p :: r, m, g =>
    ∃ w m1 g1, m = w ++ m1 ∧ g = w ++ g1 ∧ w ≠ [] ∧ (∀ c ∈ w, p c = true) ∧ Den r m1 g1

/-- A stand-in for `json.Unmarshal` that accepts exactly the listed
documents, for evaluating the extractor on concrete texts. -/
def acceptOnly (docs : List Str) (s : Str) : Option GoError :=
  if docs.contains s then none else some (.leaf "invalid character".toList)

/-- The object of the string-literal scenario, `{"note": "a { b } c"}`. -/
def noteObject : Str := "\x7b\"note\": \"a \x7b b \x7d c\"\x7d".toList

/-- A rune of plain prose: no brace, double quote, backslash or backtick. -/
def plainRune (c : Char) : Bool :=
  c != '{' && c != '}' && c != '"' && c != '\\' && c != backtick

/-- The text of a fenced block: the fence and its label, white space, a
newline, the body, the closing fence. -/
def fenced (label W B : Str) : Str :=
  [backtick, backtick, backtick] ++ (label ++ (W ++ ('\n' :: (B ++
    [backtick, backtick, backtick]))))

/-- The state of an operation after `i` calls of it. -/
def stateAfter {σ : Type} (fn : σ → σ × Option GoError) : Nat → σ → σ
  | 0, s => s
  | i + 1, s => stateAfter fn i (fn s).1

/-- What call number `i + 1` of an operation returns. -/
def outcomeAt {σ : Type} (fn : σ → σ × Option GoError) (i : Nat) (s : σ) : Option GoError :=
  (fn (stateAfter fn i s)).2

/-- The delay in force after `n` completed waits. -/
def Retrier.delayAt (r : Retrier) : Nat → Int → Int
  | 0, d => d
  | n + 1, d => Retrier.delayAt r n (r.nextDelay d)

/-- The record of `j` rounds of `Do`, each a failed call followed by a
completed wait, from attempt `a` and delay `d` on. -/
def failedRounds (r : Retrier) : Nat → Nat → Int → List RetryEvent
  | 0, _, _ => []
  | j + 1, a, d => .call a :: .wait d :: failedRounds r j (a + 1) (r.nextDelay d)

/-- The number of calls of the operation in a record. -/
def callCount (ev : List RetryEvent) : Nat :=
  ev.countP (fun e => match e with | .call _ => true | _ => false)

/-- The durations of the completed waits of a record, in order. -/
def waitsOf (ev : List RetryEvent) : List Int :=
  ev.filterMap (fun e => match e with | .wait d => some d | _ => none)

/-- One second, as a `time.Duration`. -/
def second : Int := 1000000000

/-- The retrier of the backoff scenario: initial delay 1s, multiplier 2.0,
ceiling 10s, and the given number of attempts. -/
def backoffRetrier (maxAttempts : Int) : Retrier :=
  { maxAttempts := maxAttempts, initialDelay := second, maxDelay := 10 * second,
    multiplierNum := 2, multiplierDen := 1 }

/-- An operation without state that fails on every call. -/
def alwaysFail (s : Unit) : Unit × Option GoError := (s, some (.leaf "unavailable".toList))

/-- An operation whose state counts its calls and which fails until its
third call. -/
def succeedOnThird (n : Nat) : Nat × Option GoError :=
  (n + 1, if n + 1 < 3 then some (.leaf "unavailable".toList) else none)

/-- The state of an iteration function after `j` calls of it, made with the
attempt numbers `a`, `a + 1`, ... -/
def iterState {σ : Type} (fn : Nat → σ → σ × CallResult) : Nat → Nat → σ → σ
  | 0, _, s => s
  | j + 1, a, s => iterState fn j (a + 1) (fn a s).1

/-- What call number `j + 1` of an iteration function returns, the calls
being made with the attempt numbers `a`, `a + 1`, ... -/
def iterOutcome {σ : Type} (fn : Nat → σ → σ × CallResult) (j a : Nat) (s : σ) : CallResult :=
  (fn (a + j) (iterState fn j a s)).2

/-- Whether a call returned an error (and neither nil nor a panic). -/
def CallResult.isErr : CallResult → Bool
  | .err _ => true
  | _ => false

/-- The attempt an event of the closure of `Generate` belongs to. -/
def GenEvent.attempt : GenEvent → Nat
  | .fixPrompt a _ _ => a
  | .complete a _ => a
  | .response a _ => a
  | .validate a _ => a

/-! ### A concrete session: the end-to-end scenario -/

/-- The graph of the second response of the scenario, `{"nodes": []}`. -/
def scenarioGraph2 : Str := "\x7b\"nodes\": []\x7d".toList

/-- The graph of the third response, `{"nodes": [], "edges": []}`. -/
def scenarioGraph3 : Str := "\x7b\"nodes\": [], \"edges\": []\x7d".toList

/-- The first response of the scenario: prose and a graph cut short. -/
def scenarioReply1 : PortResponse :=
  { Content := "Sure, here is the plan: \x7b\"nodes\": [".toList, Model := "model".toList,
    TotalTokens := 10, FinishReason := "stop".toList }

/-- The second response: a graph without edges. -/
def scenarioReply2 : PortResponse :=
  { Content := "Corrected: ".toList ++ scenarioGraph2, Model := "model".toList,
    TotalTokens := 10, FinishReason := "stop".toList }

/-- The third response: a graph with nodes and edges. -/
def scenarioReply3 : PortResponse :=
  { Content := "Here it is: ".toList ++ scenarioGraph3, Model := "model".toList,
    TotalTokens := 10, FinishReason := "stop".toList }

/-- The collaborators of the scenario: the port gives the three responses
in turn, the validator accepts the third graph only and otherwise reports
"edges is required", and the context is never done. -/
def scenarioEnv : Env :=
  { unmarshal := acceptOnly [scenarioGraph2, scenarioGraph3]
    unmarshalMap := acceptOnly [scenarioGraph2, scenarioGraph3]
    ValidateGraph := fun s =>
      if s = scenarioGraph3 then none else some (.leaf "edges is required".toList)
    llm := fun n _ =>
      if n = 1 then .ok scenarioReply1 else if n = 2 then .ok scenarioReply2
      else .ok scenarioReply3
    ctxErr := fun _ => none
    ctxWait := fun _ => none }

/-- The generator of the scenario: default prompts, three iterations. -/
def scenarioGenerator : Generator :=
  { prompter := NewPrompter [] (fun _ => none), iterator := { maxIterations := 3 } }

/-- The client of the scenario, before its first call. -/
def scenarioClient : Client :=
  { model := "model".toList, retrier := backoffRetrier 5,
    stats := { TotalTokens := 0, TotalCalls := 0, SuccessfulCalls := 0, FailedCalls := 0 },
    portCalls := 0 }

/-- The request of the scenario. -/
def scenarioRequest : GenerateRequest :=
  { Task := "route support tickets by sentiment".toList, Analysis := none, Constraints := none }

/-! ### A concrete session with an outage of the model -/

/-- The collaborators of the outage: the port answers its first call with a
graph the validator rejects, fails its second and third calls, and answers
its fourth call with a graph the validator accepts. -/
def outageEnv : Env :=
  { scenarioEnv with
    llm := fun n _ =>
      if n = 1 then .ok scenarioReply2 else if n = 4 then .ok scenarioReply3
      else .error (.leaf "connection refused".toList) }

/-- The client of the outage: a retrier that makes two attempts. -/
def outageClient : Client := { scenarioClient with retrier := backoffRetrier 2 }

/-- The error `Client.Complete` returns during the outage. -/
def outageError : GoError :=
  .wrap "max retry attempts (2) exceeded: ".toList
    (.wrap "LLM request failed: ".toList (.leaf "connection refused".toList))

/-! ### Sessions that use up the budget -/

/-- The generator of the scenario with a budget of two iterations. -/
def shortGenerator : Generator := { scenarioGenerator with iterator := { maxIterations := 2 } }

/-- An iteration function that counts its calls and fails every time with
the number of the attempt as its message. -/
def failWithAttempt (a : Nat) (s : Nat) : Nat × CallResult :=
  (s + 1, .err (.leaf (fmtInt a)))

/-- A planning configuration with a budget of two iterations and the default
prompts. -/
def scenarioConfig : PlanningConfig :=
  { MaxIterations := 2, MaxNodes := 50, PromptPath := [], EnableValidation := true,
    EnableAnalysis := true, ConfidenceThreshold := 4 / 5 }

/-- The service that `NewService` builds from `scenarioConfig`. -/
def scenarioService : Service := NewService scenarioConfig (fun _ => none)

/-- The request of the scenario as a plan request that skips the analysis. -/
def scenarioPlanRequest : PlanRequest :=
  { Task := scenarioRequest.Task, Constraints := none, SkipAnalysis := true }

/-- A stand-in for `json.Unmarshal` into the struct of `parseAnalysis` that
decodes exactly the listed documents. -/
def decodeOnly (docs : List (Str × AnalysisResult)) (s : Str) : Except GoError AnalysisResult :=
  match docs.lookup s with
  | some r => .ok r
  | none => .error (.leaf "invalid character".toList)

/-! ### Sessions that end by cancellation -/

/-- The error `context.Canceled`. -/
def contextCanceled : GoError := .leaf "context canceled".toList

/-- A context that the check at the top of iteration `a` and of the later
ones finds done, cancelled. -/
def doneFrom (a : Nat) (attempt : Nat) : Option GoError :=
  if a ≤ attempt then some contextCanceled else none

/-- An iteration function that counts its calls, fails its first call on an
invalid graph, and from its second call on returns the cancellation error. -/
def cancelledInSecond (a : Nat) (s : Nat) : Nat × CallResult :=
  (s + 1, if a = 1 then .err (.leaf "invalid graph".toList) else .err contextCanceled)

/-! ### Responses for the extractor and the analyzer -/

/-- A response with a brace-delimited span that is not JSON:
`Result: {"nodes": [}`. -/
def brokenSpanReply : Str := "Result: \x7b\"nodes\": [\x7d".toList

/-! ### A session whose second response has no JSON -/

/-- The text of a placeholder, `{{NAME}}`. -/
def placeholder (name : Str) : Str := '{' :: '{' :: (name ++ ['}', '}'])

/-- A name without a brace in it. -/
def braceFree (name : Str) : Prop := ∀ c ∈ name, c ≠ '{' ∧ c ≠ '}'

/-- The enumeration "1. m1\n2. m2\n...k. mk\n" of a list of messages. -/
def numbered (msgs : List Str) : Str :=
  (msgs.enum.map
    (fun im => fmtInt ((im.1 + 1 : Nat) : Int) ++ ". ".toList ++ im.2 ++ "\n".toList)).flatten

/-- The names `BuildPlanningPrompt` substitutes. -/
def planningNames : List Str :=
  ["TASK".toList, "ANALYSIS".toList, "CONSTRAINTS".toList, "SCHEMAS".toList]

/-- The names `BuildErrorFixingPrompt` substitutes. -/
def fixingNames : List Str :=
  ["TASK".toList, "PREVIOUS_GRAPH".toList, "ATTEMPT".toList, "VALIDATION_ERRORS".toList]

/-- A prompter with templates of its own, each with a placeholder that the
prompter does not know: `Plan {{TASK}} for {{OWNER}}.` and
`Fix {{PREVIOUS_GRAPH}} ({{HINT}})`. -/
def customPrompter : Prompter :=
  { promptPath := "prompts".toList
    systemPrompt := defaultSystemPrompt
    planningTemplate := "Plan \x7b\x7bTASK\x7d\x7d for \x7b\x7bOWNER\x7d\x7d.".toList
    errorFixingTemplate := "Fix \x7b\x7bPREVIOUS_GRAPH\x7d\x7d (\x7b\x7bHINT\x7d\x7d)".toList }

/-! ### The analyzer: the constants of `models.ComplexityLevel` and responses -/

/-- The constant `ComplexitySimple`. -/
def ComplexitySimple : Str := "simple".toList

/-- The constant `ComplexityModerate`. -/
def ComplexityModerate : Str := "moderate".toList

/-- The constant `ComplexityComplex`. -/
def ComplexityComplex : Str := "complex".toList

/-- A response in the format the analyzer asks for, a JSON object and
nothing else. -/
def analysisObject : Str :=
  ("\x7b\"complexity\": \"simple\", \"requires_tools\": false, \"requires_routing\": true, " ++
   "\"suggested_node_types\": [\"executor\", \"router\"], \"key_entities\": [\"ticket\"], " ++
   "\"intent\": \"route tickets\", \"reasoning\": \"one decision\"\x7d").toList

/-- The values of `analysisObject`. -/
def analysisFields : AnalysisResult :=
  { Complexity := "simple".toList, RequiresTools := false, RequiresRouting := true,
    SuggestedNodeTypes := ["executor".toList, "router".toList],
    KeyEntities := ["ticket".toList], Intent := "route tickets".toList,
    Reasoning := "one decision".toList }

/-- An object whose complexity is none of the three levels,
`{"complexity": "banana"}`. -/
def oddObject : Str := "\x7b\"complexity\": \"banana\"\x7d".toList

/-- The values of `oddObject`: the fields it lacks keep their zero values. -/
def oddFields : AnalysisResult :=
  { Complexity := "banana".toList, RequiresTools := false, RequiresRouting := false,
    SuggestedNodeTypes := [], KeyEntities := [], Intent := [], Reasoning := [] }

/-! ### A retrier without attempts -/

/-- The client of the scenario with a retrier configured for no attempt. -/
def idleClient : Client := { scenarioClient with retrier := backoffRetrier 0 }
/-! ### `config.go`: the configuration and its validation -/

/-- The struct `config.ServerConfig`; durations in nanoseconds. -/
structure ServerConfig where
  Host : Str
  Port : Int
  ReadTimeout : Int
  WriteTimeout : Int
  deriving DecidableEq

/-- The struct `config.RetryConfig`; the multiplier is a fraction. -/
structure RetryConfig where
  MaxAttempts : Int
  InitialDelay : Int
  MaxDelay : Int
  Multiplier : Rat
  deriving DecidableEq

/-- The struct `config.LLMConfig`. -/
structure LLMConfig where
  Provider : Str
  APIKey : Str
  Model : Str
  MaxTokens : Int
  Temperature : Rat
  Timeout : Int
  RetryConfig : RetryConfig
  deriving DecidableEq

/-- The struct `config.LoggingConfig`. -/
structure LoggingConfig where
  Level : Str
  Format : Str
  OutputPath : Str
  deriving DecidableEq

/-- The struct `config.Config`. -/
structure Config where
  Server : ServerConfig
  LLM : LLMConfig
  Planning : PlanningConfig
  Logging : LoggingConfig
  deriving DecidableEq

/-- The keys of the map `validLogLevels` of `Validate`. -/
def validLogLevels : List Str :=
  ["debug".toList, "info".toList, "warn".toList, "error".toList]

/-- The method `Config.Validate`; `none` is a nil error. -/
def Config.Validate (c : Config) : Option GoError :=
  if c.Server.Port ≤ 0 || c.Server.Port > 65535 then
    some (.leaf ("invalid server port: ".toList ++ fmtInt c.Server.Port))
  else if c.LLM.Provider == [] then some (.leaf "LLM provider is required".toList)
  else if c.LLM.APIKey == [] then some (.leaf "LLM API key is required".toList)
  else if c.LLM.Model == [] then some (.leaf "LLM model is required".toList)
  else if c.Planning.MaxIterations ≤ 0 then
    some (.leaf "max iterations must be positive".toList)
  else if c.Planning.MaxNodes ≤ 0 then some (.leaf "max nodes must be positive".toList)
  else if !validLogLevels.contains c.Logging.Level then
    some (.leaf ("invalid log level: ".toList ++ c.Logging.Level))
  else none

/-- The conditions of a valid configuration, in the order of the checks, each
with the error that reports its violation. -/
def Config.conditions (c : Config) : List (Bool × GoError) :=
  [(decide (1 ≤ c.Server.Port ∧ c.Server.Port ≤ 65535),
      .leaf ("invalid server port: ".toList ++ fmtInt c.Server.Port)),
   (decide (c.LLM.Provider ≠ []), .leaf "LLM provider is required".toList),
   (decide (c.LLM.APIKey ≠ []), .leaf "LLM API key is required".toList),
   (decide (c.LLM.Model ≠ []), .leaf "LLM model is required".toList),
   (decide (c.Planning.MaxIterations > 0), .leaf "max iterations must be positive".toList),
   (decide (c.Planning.MaxNodes > 0), .leaf "max nodes must be positive".toList),
   (decide (c.Logging.Level ∈ validLogLevels),
      .leaf ("invalid log level: ".toList ++ c.Logging.Level))]

/-- The error of the first condition that does not hold, if there is one. -/
def firstViolation (conds : List (Bool × GoError)) : Option GoError :=
  (conds.find? (fun x => !x.1)).map (fun x => x.2)
/-! ### A session in which the model is down -/

/-- The collaborators when the model is down: every call of the port fails. -/
def downEnv : Env :=
  { scenarioEnv with llm := fun _ _ => .error (.leaf "connection refused".toList) }

/-! ### A retrier whose initial delay is above its ceiling -/

/-- A retrier with initial delay 20s, multiplier 2.0, ceiling 10s and three
attempts. -/
def steepRetrier : Retrier :=
  { maxAttempts := 3, initialDelay := 20 * second, maxDelay := 10 * second,
    multiplierNum := 2, multiplierDen := 1 }

/-! ### A request that limits the iterations -/

/-- A planning configuration with a budget of three iterations. -/
def threeConfig : PlanningConfig := { scenarioConfig with MaxIterations := 3 }

/-- The request of the scenario with `Constraints.MaxIterations = m`. -/
def limitedRequest (m : Int) : PlanRequest :=
  { Task := scenarioRequest.Task
    Constraints := some { MaxNodes := 10, PreferredModes := [], AvailableTools := [],
                          MaxIterations := m, RequireValidation := false }
    SkipAnalysis := true }

/-! ### A text with two fenced blocks -/

/-- Two json blocks, the first with a body that is not JSON and the second
with the body `[1, 2]`. -/
def twoBlocks : Str :=
  fenced "json".toList [] "\x7boops\x7d\n".toList ++
    ('\n' :: fenced "json".toList [] "[1, 2]\n".toList)

/-! ### Objects with braces in a string -/

/-- The object `{"note": "w"}` for a text `w`. -/
def noteWith (w : Str) : Str := "\x7b\"note\": \"".toList ++ (w ++ "\"\x7d".toList)

/-- A rune that may stand in a string literal without an escape and is not a
backtick; braces are among them. -/
def stringRune (c : Char) : Bool := c != '"' && c != '\\' && c != backtick

/-! # Theorems -/

/-! ## The iterator and the log of `Generate` -/

/-- The attempts `Iterator.loop` adds to its record are consecutive, start at
the current attempt, and number at most `rem`. -/
theorem Iterator.loop_calls {σ : Type} (it : Iterator) (ctxErr : Nat → Option GoError)
    (fn : Nat → σ → σ × CallResult) (rem : Nat) :
    ∀ (attempt : Nat) (lastErr : Option GoError) (s : σ) (calls : List Nat),
      ∃ k, k ≤ rem ∧
        (Iterator.loop it ctxErr fn rem attempt lastErr s calls).calls
          = calls ++ List.range' attempt k := by
  induction rem with
  | zero => intro attempt lastErr s calls; exact ⟨0, le_refl _, by simp [Iterator.loop]⟩
  | succ rem ih =>
    intro attempt lastErr s calls
    unfold Iterator.loop
    cases hc : ctxErr attempt with
    | some e => exact ⟨0, Nat.zero_le _, by simp⟩
    | none =>
      rcases hf : fn attempt s with ⟨s1, r⟩
      cases r with
      | nil => exact ⟨1, by omega, by simp⟩
      | panic msg => exact ⟨1, by omega, by simp⟩
      | err e =>
        by_cases hge : (attempt : Int) ≥ it.maxIterations
        · exact ⟨1, by omega, by simp [hge]⟩
        · obtain ⟨k, hk, hcalls⟩ := ih (attempt + 1) (some e) s1 (calls ++ [attempt])
          refine ⟨k + 1, by omega, ?_⟩
          simp only [hge, if_false]
          rw [hcalls]
          simp [List.range'_succ]

/-- A quantity that one call of the iteration function raises by at most one
is raised by `Iterator.loop` by at most the number of calls it makes. -/
theorem Iterator.loop_measure {σ : Type} (it : Iterator) (ctxErr : Nat → Option GoError)
    (fn : Nat → σ → σ × CallResult) (m : σ → Nat)
    (hm : ∀ a s, m (fn a s).1 ≤ m s + 1) (rem : Nat) :
    ∀ (attempt : Nat) (lastErr : Option GoError) (s : σ) (calls : List Nat),
      m (Iterator.loop it ctxErr fn rem attempt lastErr s calls).state + calls.length
        ≤ m s + (Iterator.loop it ctxErr fn rem attempt lastErr s calls).calls.length := by
  induction rem with
  | zero => intro attempt lastErr s calls; simp [Iterator.loop]
  | succ rem ih =>
    intro attempt lastErr s calls
    unfold Iterator.loop
    cases hc : ctxErr attempt with
    | some e => simp
    | none =>
      rcases hf : fn attempt s with ⟨s1, r⟩
      have h1 : m s1 ≤ m s + 1 := by
        have h := hm attempt s
        rw [hf] at h
        exact h
      cases r with
      | nil => simp; omega
      | panic msg => simp; omega
      | err e =>
        by_cases hge : (attempt : Int) ≥ it.maxIterations
        · simp [hge]; omega
        · have h2 := ih (attempt + 1) (some e) s1 (calls ++ [attempt])
          simp only [hge, if_false]
          simp at h2 ⊢
          omega

/-- Handling a response adds exactly one entry to the log. -/
theorem Generator.handleResponse_log_length (env : Env) (attempt : Nat) (v : GenVars)
    (content : Str) :
    (Generator.handleResponse env attempt v content).1.validationLogs.length
      = v.validationLogs.length + 1 := by
  unfold Generator.handleResponse
  dsimp only
  split
  · simp
  · split <;> simp

/-- Calling the model adds at most one entry to the log. -/
theorem Generator.callModel_log_le (env : Env) (attempt : Nat) (v : GenVars)
    (creq : CompletionRequest) :
    (Generator.callModel env attempt v creq).1.validationLogs.length
      ≤ v.validationLogs.length + 1 := by
  unfold Generator.callModel
  dsimp only
  split
  · simp
  · simp
  · simp [Generator.handleResponse_log_length]

/-- Building the request leaves the log as it is. -/
theorem Generator.buildRequest_log (g : Generator) (req : GenerateRequest) (prompt : Str)
    (attempt : Nat) (v : GenVars) :
    (g.buildRequest req prompt attempt v).1.validationLogs = v.validationLogs := by
  unfold Generator.buildRequest
  split
  · rfl
  · split
    · rfl
    · split <;> rfl

/-- One run of the closure of `Generate` adds at most one entry to the log. -/
theorem Generator.attemptFn_log_le (g : Generator) (env : Env) (req : GenerateRequest)
    (prompt : Str) (attempt : Nat) (v : GenVars) :
    (g.attemptFn env req prompt attempt v).1.validationLogs.length
      ≤ v.validationLogs.length + 1 := by
  have hb := g.buildRequest_log req prompt attempt { v with iteration := attempt }
  unfold Generator.attemptFn
  dsimp only
  split
  next v1 msg h => rw [h] at hb; simp at hb; simp [hb]
  next v1 err h => rw [h] at hb; simp at hb; simp [hb]
  next v1 creq h =>
    rw [h] at hb; simp at hb
    have := Generator.callModel_log_le env attempt v1 creq
    rw [hb] at this
    exact this

/-- The variables and the attempts that `Generate` reports are those of the
run of its iterator. -/
theorem Generator.Generate_vars (g : Generator) (env : Env) (client : Client)
    (req : GenerateRequest) :
    (g.Generate env client req).vars
        = (g.iterator.Iterate env.ctxErr
            (g.attemptFn env req (g.prompter.BuildPlanningPrompt req.Task req.Analysis
              req.Constraints).1) (GenVars.init client)).state ∧
    (g.Generate env client req).calls
        = (g.iterator.Iterate env.ctxErr
            (g.attemptFn env req (g.prompter.BuildPlanningPrompt req.Task req.Analysis
              req.Constraints).1) (GenVars.init client)).calls := by
  unfold Generator.Generate
  simp only [Prompter.BuildPlanningPrompt]
  split
  · exact ⟨rfl, rfl⟩
  · exact ⟨rfl, rfl⟩
  · split <;> exact ⟨rfl, rfl⟩

/-- A response that `Generate` returns carries the final values of the
closure's variables. -/
theorem Generator.Generate_ok (g : Generator) (env : Env) (client : Client)
    (req : GenerateRequest) (r : GenerateResponse)
    (h : (g.Generate env client req).result = .ok r) :
    r = { GraphJSON := (g.Generate env client req).vars.graphJSON,
          Reasoning := (g.Generate env client req).vars.reasoning,
          Iterations := (g.Generate env client req).vars.iteration,
          ValidationLogs := (g.Generate env client req).vars.validationLogs } := by
  revert h
  unfold Generator.Generate
  simp only [Prompter.BuildPlanningPrompt]
  split
  · intro h; cases h
  · intro h; cases h
  · split
    · intro h; cases h
    · intro h; cases h; rfl

/-- C1: for every budget `N` and every iteration function, `Iterate` calls the
function with the attempt numbers `1, 2, ..., k` for some `k ≤ N`, in that
order and each once; so the validation log that `Generate` builds, and the one
it returns, has at most `N` entries. -/
theorem C1_iterate_at_most_max (N : Nat) {σ : Type} (ctxErr : Nat → Option GoError)
    (fn : Nat → σ → σ × CallResult) (s : σ)
    (p : Prompter) (env : Env) (client : Client) (req : GenerateRequest) :
    (∃ k, k ≤ N ∧ (Iterator.Iterate ⟨N⟩ ctxErr fn s).calls = List.range' 1 k) ∧
    (Generator.Generate ⟨p, ⟨N⟩⟩ env client req).vars.validationLogs.length ≤ N ∧
    (∀ r, (Generator.Generate ⟨p, ⟨N⟩⟩ env client req).result = .ok r →
      r.ValidationLogs.length ≤ N) := by
  have hcalls : ∀ {τ : Type} (f : Nat → τ → τ × CallResult) (t : τ),
      ∃ k, k ≤ N ∧ (Iterator.Iterate ⟨N⟩ ctxErr f t).calls = List.range' 1 k := by
    intro τ f t
    obtain ⟨k, hk, h⟩ := Iterator.loop_calls ⟨N⟩ ctxErr f N 1 none t []
    exact ⟨k, hk, by simpa [Iterator.Iterate] using h⟩
  have hlog : (Generator.Generate ⟨p, ⟨N⟩⟩ env client req).vars.validationLogs.length ≤ N := by
    rw [(Generator.Generate_vars ⟨p, ⟨N⟩⟩ env client req).1]
    obtain ⟨k, hk, h⟩ := Iterator.loop_calls ⟨N⟩ env.ctxErr
      (Generator.attemptFn ⟨p, ⟨N⟩⟩ env req
        (p.BuildPlanningPrompt req.Task req.Analysis req.Constraints).1) N 1 none
      (GenVars.init client) []
    have hm := Iterator.loop_measure ⟨N⟩ env.ctxErr
      (Generator.attemptFn ⟨p, ⟨N⟩⟩ env req
        (p.BuildPlanningPrompt req.Task req.Analysis req.Constraints).1)
      (fun v => v.validationLogs.length)
      (fun a v => Generator.attemptFn_log_le _ env req _ a v) N 1 none (GenVars.init client) []
    rw [h] at hm
    have hinit : (GenVars.init client).validationLogs.length = 0 := rfl
    simp only [List.nil_append, List.length_range', List.length_nil, hinit] at hm
    simp only [Iterator.Iterate, Int.toNat_ofNat]
    omega
  refine ⟨hcalls fn s, hlog, ?_⟩
  intro r hr
  rw [Generator.Generate_ok _ env client req r hr]
  exact hlog

/-! ## The pattern matcher against the language of a pattern -/

/-- What `starGo` returns is a run of runes of the class followed by a
result of the rest of the pattern. -/
theorem starGo_sound (p : Char → Bool) (cap : Bool) (k : Str → Option (Str × Str))
    (P : Str → Str → Prop)
    (hk : ∀ s m g, k s = some (m, g) → P m g ∧ m <+: s) :
    ∀ s m g, starGo p cap k s = some (m, g) →
      ∃ w m1 g1, m = w ++ m1 ∧ g = (if cap then w ++ g1 else g1) ∧
        (∀ c ∈ w, p c = true) ∧ P m1 g1 ∧ m <+: s := by
  intro s
  induction s with
  | nil =>
    intro m g h
    simp only [starGo] at h
    obtain ⟨hP, hpre⟩ := hk [] m g h
    exact ⟨[], m, g, by simp, by simp, by simp, hP, hpre⟩
  | cons c t ih =>
    intro m g h
    simp only [starGo] at h
    by_cases hpc : p c = true
    · simp only [hpc, if_true] at h
      cases hin : starGo p cap k t with
      | some mg =>
        rw [hin] at h
        simp only [Option.some.injEq, Prod.mk.injEq] at h
        obtain ⟨w, m1, g1, hm, hg, hw, hP, hpre⟩ := ih mg.1 mg.2 hin
        refine ⟨c :: w, m1, g1, ?_, ?_, ?_, hP, ?_⟩
        · rw [← h.1, hm]; rfl
        · rw [← h.2, hg]; cases cap <;> simp
        · intro x hx
          rcases List.mem_cons.mp hx with rfl | hx
          · exact hpc
          · exact hw x hx
        · rw [← h.1]
          exact List.prefix_cons_inj c |>.mpr hpre
      | none =>
        rw [hin] at h
        obtain ⟨hP, hpre⟩ := hk (c :: t) m g h
        exact ⟨[], m, g, by simp, by simp, by simp, hP, hpre⟩
    · simp only [hpc] at h
      obtain ⟨hP, hpre⟩ := hk (c :: t) m g h
      exact ⟨[], m, g, by simp, by simp, by simp, hP, hpre⟩

/-- Soundness of `matchAtoms`: a result is a prefix of the text and belongs to
the language of the pattern. -/
theorem matchAtoms_sound (re : List Atom) :
    ∀ s m g, matchAtoms re s = some (m, g) → Den re m g ∧ m <+: s := by
  induction re with
  | nil =>
    intro s m g h
    simp only [matchAtoms, Option.some.injEq, Prod.mk.injEq] at h
    exact ⟨⟨h.1.symm, h.2.symm⟩, by rw [← h.1]; exact List.nil_prefix⟩
  | cons a r ih =>
    intro s m g h
    cases a with
    | one p =>
      cases s with
      | nil => simp [matchAtoms] at h
      | cons c t =>
        simp only [matchAtoms] at h
        by_cases hpc : p c = true
        · simp only [hpc, if_true, Option.map_eq_some', Prod.mk.injEq] at h
          obtain ⟨mg, hmg, hm, hg⟩ := h
          obtain ⟨hD, hpre⟩ := ih t mg.1 mg.2 hmg
          refine ⟨⟨c, mg.1, hm.symm, hpc, hg ▸ hD⟩, ?_⟩
          rw [← hm]
          exact (List.prefix_cons_inj c).mpr hpre
        · simp [hpc] at h
    | star p =>
      simp only [matchAtoms] at h
      obtain ⟨w, m1, g1, hm, hg, hw, hD, hpre⟩ :=
        starGo_sound p false (matchAtoms r) (Den r) ih s m g h
      simp only [Bool.false_eq_true, if_false] at hg
      exact ⟨⟨w, m1, hm, hw, hg ▸ hD⟩, hpre⟩
    | plus p =>
      cases s with
      | nil => simp [matchAtoms] at h
      | cons c t =>
        simp only [matchAtoms] at h
        by_cases hpc : p c = true
        · simp only [hpc, if_true, Option.map_eq_some', Prod.mk.injEq] at h
          obtain ⟨mg, hmg, hm, hg⟩ := h
          obtain ⟨w, m1, g1, hm1, hg1, hw, hD, hpre⟩ :=
            starGo_sound p false (matchAtoms r) (Den r) ih t mg.1 mg.2 hmg
          simp only [Bool.false_eq_true, if_false] at hg1
          refine ⟨⟨c :: w, m1, ?_, by simp, ?_, ?_⟩, ?_⟩
          · rw [← hm, hm1]; rfl
          · intro x hx
            rcases List.mem_cons.mp hx with rfl | hx
            · exact hpc
            · exact hw x hx
          · rw [← hg, hg1]; exact hD
          · rw [← hm]
            exact (List.prefix_cons_inj c).mpr hpre
        · simp [hpc] at h
    | plusCap p =>
      cases s with
      | nil => simp [matchAtoms] at h
      | cons c t =>
        simp only [matchAtoms] at h
        by_cases hpc : p c = true
        · simp only [hpc, if_true, Option.map_eq_some', Prod.mk.injEq] at h
          obtain ⟨mg, hmg, hm, hg⟩ := h
          obtain ⟨w, m1, g1, hm1, hg1, hw, hD, hpre⟩ :=
            starGo_sound p true (matchAtoms r) (Den r) ih t mg.1 mg.2 hmg
          simp only [if_true] at hg1
          refine ⟨⟨c :: w, m1, g1, ?_, ?_, by simp, ?_, hD⟩, ?_⟩
          · rw [← hm, hm1]; rfl
          · rw [← hg, hg1]; rfl
          · intro x hx
            rcases List.mem_cons.mp hx with rfl | hx
            · exact hpc
            · exact hw x hx
          · rw [← hm]
            exact (List.prefix_cons_inj c).mpr hpre
        · simp [hpc] at h

/-- When the rest of the pattern matches here, so does the greedy loop. -/
theorem starGo_isSome_of_rest (p : Char → Bool) (cap : Bool) (k : Str → Option (Str × Str))
    (s : Str) (h : (k s).isSome = true) : (starGo p cap k s).isSome = true := by
  cases s with
  | nil => simpa [starGo] using h
  | cons c t =>
    simp only [starGo]
    by_cases hpc : p c = true
    · simp only [hpc, if_true]
      cases hin : starGo p cap k t with
      | some mg => simp
      | none => simpa using h
    · simpa [hpc] using h

/-- The greedy loop finds a match whenever some run of the class followed by
the rest of the pattern is one. -/
theorem starGo_complete (p : Char → Bool) (cap : Bool) (k : Str → Option (Str × Str))
    (w s : Str) (hw : ∀ c ∈ w, p c = true) (h : (k s).isSome = true) :
    (starGo p cap k (w ++ s)).isSome = true := by
  induction w with
  | nil => exact starGo_isSome_of_rest p cap k s h
  | cons c w ih =>
    have hpc : p c = true := hw c (List.mem_cons_self c w)
    have hin := ih (fun x hx => hw x (List.mem_cons_of_mem c hx))
    simp only [List.cons_append, starGo, hpc, if_true]
    cases hs : starGo p cap k (w ++ s) with
    | some mg => simp
    | none => rw [hs] at hin; simp at hin

/-- Completeness of `matchAtoms`: it finds a match at the start of every
text that begins with a member of the pattern's language. -/
theorem matchAtoms_complete (re : List Atom) :
    ∀ m g rest, Den re m g → (matchAtoms re (m ++ rest)).isSome = true := by
  induction re with
  | nil => intro m g rest _; simp [matchAtoms]
  | cons a r ih =>
    intro m g rest hD
    cases a with
    | one p =>
      obtain ⟨c, m1, hm, hpc, hD1⟩ := hD
      subst hm
      simp only [List.cons_append, matchAtoms, hpc, if_true, Option.isSome_map']
      exact ih m1 g rest hD1
    | star p =>
      obtain ⟨w, m1, hm, hw, hD1⟩ := hD
      subst hm
      simp only [matchAtoms, List.append_assoc]
      exact starGo_complete p false (matchAtoms r) w (m1 ++ rest) hw (ih m1 g rest hD1)
    | plus p =>
      obtain ⟨w, m1, hm, hne, hw, hD1⟩ := hD
      subst hm
      cases w with
      | nil => exact absurd rfl hne
      | cons c w =>
        have hpc : p c = true := hw c (List.mem_cons_self c w)
        simp only [List.cons_append, matchAtoms, hpc, if_true, Option.isSome_map',
          List.append_assoc]
        exact starGo_complete p false (matchAtoms r) w (m1 ++ rest)
          (fun x hx => hw x (List.mem_cons_of_mem c hx)) (ih m1 g rest hD1)
    | plusCap p =>
      obtain ⟨w, m1, g1, hm, _, hne, hw, hD1⟩ := hD
      subst hm
      cases w with
      | nil => exact absurd rfl hne
      | cons c w =>
        have hpc : p c = true := hw c (List.mem_cons_self c w)
        simp only [List.cons_append, matchAtoms, hpc, if_true, Option.isSome_map',
          List.append_assoc]
        exact starGo_complete p true (matchAtoms r) w (m1 ++ rest)
          (fun x hx => hw x (List.mem_cons_of_mem c hx)) (ih m1 g1 rest hD1)

/-- A search skips a stretch of text in which the first, single-rune item
of the pattern matches nowhere. -/
theorem FindStringSubmatch_skip (p : Char → Bool) (r : List Atom) (a s : Str)
    (ha : ∀ c ∈ a, p c = false) :
    FindStringSubmatch (.one p :: r) (a ++ s) = FindStringSubmatch (.one p :: r) s := by
  induction a with
  | nil => rfl
  | cons c a ih =>
    have hpc : p c = false := ha c (List.mem_cons_self c a)
    simp only [List.cons_append, FindStringSubmatch, matchAtoms, hpc]
    exact ih (fun x hx => ha x (List.mem_cons_of_mem c hx))

/-- A search finds nothing in a text in which the first, single-rune item of
the pattern matches nowhere. -/
theorem FindStringSubmatch_none (p : Char → Bool) (r : List Atom) (s : Str)
    (hs : ∀ c ∈ s, p c = false) : FindStringSubmatch (.one p :: r) s = none := by
  have h := FindStringSubmatch_skip p r s [] hs
  rw [List.append_nil] at h
  rw [h]
  rfl

/-- Soundness of the search: a result is a piece of the text and belongs
to the language of the pattern. -/
theorem FindStringSubmatch_sound (re : List Atom) :
    ∀ s m g, FindStringSubmatch re s = some (m, g) →
      Den re m g ∧ ∃ pre rest, s = pre ++ m ++ rest := by
  intro s
  induction s with
  | nil =>
    intro m g h
    simp only [FindStringSubmatch] at h
    obtain ⟨hD, hpre⟩ := matchAtoms_sound re [] m g h
    obtain ⟨rest, hrest⟩ := hpre
    exact ⟨hD, [], rest, by simpa using hrest.symm⟩
  | cons c t ih =>
    intro m g h
    simp only [FindStringSubmatch] at h
    cases hm : matchAtoms re (c :: t) with
    | some mg =>
      rw [hm] at h
      simp only [Option.some.injEq] at h
      subst h
      obtain ⟨hD, hpre⟩ := matchAtoms_sound re (c :: t) m g hm
      obtain ⟨rest, hrest⟩ := hpre
      exact ⟨hD, [], rest, by simpa using hrest.symm⟩
    | none =>
      rw [hm] at h
      obtain ⟨hD, pre, rest, hs⟩ := ih m g h
      exact ⟨hD, c :: pre, rest, by simp [hs]⟩

/-! ## Extraction -/

/-- Neither fence pattern matches in a text without backticks. -/
theorem tryCodeBlocks_none_of_no_backtick (u : Str → Option GoError) (s : Str)
    (hs : ∀ c ∈ s, c ≠ backtick) : tryCodeBlocks u s codeBlockPatterns = none := by
  have h1 : FindStringSubmatch reFenceJson s = none := by
    apply FindStringSubmatch_none
    intro c hc
    simpa using hs c hc
  have h2 : FindStringSubmatch reFencePlain s = none := by
    apply FindStringSubmatch_none
    intro c hc
    simpa using hs c hc
  simp [codeBlockPatterns, tryCodeBlocks, h1, h2]

/-- The last loop of `extractJSON` passes over plain prose, outside a string,
without changing its variables. -/
theorem scanLoop_plain (u : Str → Option GoError) (content : Str) (P rest : Str)
    (hP : ∀ c ∈ P, plainRune c = true) :
    ∀ (i : Nat) (depth : Int) (start : Nat),
      scanLoop u content (P ++ rest) i ⟨depth, start, false, false⟩
        = scanLoop u content rest (i + P.length) ⟨depth, start, false, false⟩ := by
  induction P with
  | nil => intro i depth start; rfl
  | cons c P ih =>
    intro i depth start
    have hc := hP c (List.mem_cons_self c P)
    simp only [plainRune, Bool.and_eq_true, bne_iff_ne, ne_eq] at hc
    obtain ⟨⟨⟨⟨h1, h2⟩, h3⟩, h4⟩, _⟩ := hc
    simp only [List.cons_append, scanLoop, Bool.false_eq_true, if_false, beq_iff_eq, h1, h2, h3, h4,
      List.append_eq]
    rw [ih (fun x hx => hP x (List.mem_cons_of_mem c hx))]
    simp only [List.length_cons]
    congr 1
    omega

/-- The "nodes" pattern matches nowhere in the text of the scenario. -/
theorem tryNodes_note (u : Str → Option GoError) (P S : Str)
    (hP : ∀ c ∈ P, plainRune c = true) (hS : ∀ c ∈ S, plainRune c = true) :
    tryNodes u (P ++ noteObject ++ S) = none := by
  have hskip : FindStringSubmatch reNodes (P ++ (noteObject ++ S))
      = FindStringSubmatch reNodes (noteObject ++ S) := by
    apply FindStringSubmatch_skip
    intro c hc
    have := hP c hc
    simp only [plainRune, Bool.and_eq_true, bne_iff_ne, ne_eq] at this
    simp [this.1.1.1.1]
  have hS' : FindStringSubmatch reNodes S = none := by
    apply FindStringSubmatch_none
    intro c hc
    have := hS c hc
    simp only [plainRune, Bool.and_eq_true, bne_iff_ne, ne_eq] at this
    simp [this.1.1.1.1]
  have hobj : FindStringSubmatch reNodes (noteObject ++ S) = FindStringSubmatch reNodes S := by
    simp [noteObject, FindStringSubmatch, matchAtoms, starGo, reNodes, lits, lit]
  simp only [tryNodes, List.append_assoc, hskip, hobj, hS']

/-- The slice of a text that starts after `P` and has the length of `m` is
`m` when the text is `P ++ m ++ S`. -/
theorem slice_middle (P m S : Str) (stop : Nat) (hstop : stop = P.length + m.length) :
    slice (P ++ m ++ S) P.length stop = m := by
  subst hstop
  simp [slice, List.append_assoc]

/-- The last loop of `extractJSON` on the object of the scenario, met at depth
zero at a position `i > 0`: the span tested is the one that starts at `i`
and ends with the object's last brace. -/
theorem scanLoop_note (u : Str → Option GoError) (content S : Str) (i : Nat) (hi : 0 < i) :
    scanLoop u content (noteObject ++ S) i ⟨0, 0, false, false⟩
      = if isValidJSON u (slice content i (i + 21)) = true then slice content i (i + 21)
        else scanLoop u content S (i + 21) ⟨0, i, false, false⟩ := by
  simp [noteObject, scanLoop, hi, Nat.add_assoc]

/-- The language of a pattern that begins with literal runes. -/
theorem Den_lits_iff (cs : List Char) (r : List Atom) (m g : Str) :
    Den (cs.map lit ++ r) m g ↔ ∃ m1, m = cs ++ m1 ∧ Den r m1 g := by
  induction cs generalizing m with
  | nil => simp
  | cons c cs ih =>
    simp only [List.map_cons, List.cons_append, lit, Den, beq_iff_eq]
    constructor
    · rintro ⟨x, m1, rfl, rfl, hD⟩
      obtain ⟨m2, rfl, hD2⟩ := (ih m1).mp hD
      exact ⟨m2, rfl, hD2⟩
    · rintro ⟨m1, rfl, hD⟩
      exact ⟨c, cs ++ m1, rfl, rfl, (ih (cs ++ m1)).mpr ⟨m1, rfl, hD⟩⟩

/-- Two texts that agree up to the first occurrence of a rune, spelled out on
both sides, agree part by part. -/
theorem append_cons_inj_of_not_mem (x : Char) :
    ∀ (a b r1 r2 : Str), x ∉ a → x ∉ b → a ++ x :: r1 = b ++ x :: r2 → a = b ∧ r1 = r2 := by
  intro a
  induction a with
  | nil =>
    intro b r1 r2 _ hb h
    cases b with
    | nil => simpa using h
    | cons c b =>
      simp only [List.nil_append, List.cons_append, List.cons.injEq] at h
      exact absurd (h.1 ▸ List.mem_cons_self c b) hb
  | cons c a ih =>
    intro b r1 r2 ha hb h
    cases b with
    | nil =>
      simp only [List.nil_append, List.cons_append, List.cons.injEq] at h
      exact absurd (h.1 ▸ List.mem_cons_self c a) ha
    | cons d b =>
      simp only [List.cons_append, List.cons.injEq] at h
      obtain ⟨hab, hr⟩ := ih b r1 r2 (fun hx => ha (List.mem_cons_of_mem c hx))
        (fun hx => hb (List.mem_cons_of_mem d hx)) h.2
      exact ⟨by rw [h.1, hab], hr⟩

/-- The marker key of the "nodes" pattern, with its quotes. -/
theorem nodesKey_eq : "\"nodes\"".toList = ['"', 'n', 'o', 'd', 'e', 's', '"'] := rfl

/-- The language of the "nodes" pattern. -/
theorem Den_reNodes (m g : Str) :
    Den reNodes m g ↔
      ∃ w1 w2, m = '{' :: w1 ++ "\"nodes\"".toList ++ w2 ++ ['}'] ∧ g = [] ∧
        (∀ c ∈ w1, c ≠ '}') ∧ (∀ c ∈ w2, c ≠ '}') := by
  rw [nodesKey_eq]
  simp only [reNodes, lits, nodesKey_eq, List.map_cons, List.map_nil, List.cons_append,
    List.nil_append, lit, Den, beq_iff_eq, bne_iff_ne, ne_eq]
  constructor
  · rintro ⟨c, m1, rfl, rfl, w1, m2, rfl, hw1, c1, m3, rfl, rfl, c2, m4, rfl, rfl, c3, m5, rfl,
      rfl, c4, m6, rfl, rfl, c5, m7, rfl, rfl, c6, m8, rfl, rfl, c7, m9, rfl, rfl, w2, m10, rfl,
      hw2, c8, m11, rfl, rfl, rfl, rfl⟩
    exact ⟨w1, w2, by simp, rfl, hw1, hw2⟩
  · rintro ⟨w1, w2, rfl, rfl, hw1, hw2⟩
    exact ⟨'{', _, rfl, rfl, w1, _, by simp, hw1, '"', _, rfl, rfl, 'n', _, rfl, rfl,
      'o', _, rfl, rfl, 'd', _, rfl, rfl, 'e', _, rfl, rfl, 's', _, rfl, rfl, '"', _, rfl, rfl,
      w2, _, rfl, hw2, '}', [], rfl, rfl, rfl, rfl⟩

/-- Neither fence pattern matches in a text without three backticks in a row. -/
theorem tryCodeBlocks_none_of_no_fence (u : Str → Option GoError) (s : Str)
    (hs : ¬ ([backtick, backtick, backtick] <:+: s)) :
    tryCodeBlocks u s codeBlockPatterns = none := by
  have key : ∀ label : Str, FindStringSubmatch (fencePattern label) s = none := by
    intro label
    cases h : FindStringSubmatch (fencePattern label) s with
    | none => rfl
    | some mg =>
      exfalso
      obtain ⟨hD, pre, rest, hs'⟩ := FindStringSubmatch_sound (fencePattern label) s mg.1 mg.2 h
      simp only [fencePattern, lit, Den, beq_iff_eq] at hD
      obtain ⟨c1, m1, hm1, rfl, c2, m2, rfl, rfl, c3, m3, rfl, rfl, _⟩ := hD
      apply hs
      refine ⟨pre, m3 ++ rest, ?_⟩
      rw [hs', hm1]
      simp
  simp [codeBlockPatterns, tryCodeBlocks, reFenceJson, reFencePlain, key]

/-- A match at the very start of the text is the result of the search. -/
theorem FindStringSubmatch_of_match (re : List Atom) (s : Str) (mg : Str × Str)
    (h : matchAtoms re s = some mg) : FindStringSubmatch re s = some mg := by
  cases s with
  | nil => simpa [FindStringSubmatch] using h
  | cons c t => simp [FindStringSubmatch, h]

/-- On a flat object that holds the marker key, the "nodes" pattern matches
the whole object. -/
theorem FindStringSubmatch_reNodes_flat (body : Str) (hbrace : ∀ c ∈ body, c ≠ '}')
    (hnodes : "\"nodes\"".toList <:+: body) :
    ∃ g, FindStringSubmatch reNodes ('{' :: (body ++ ['}']))
      = some ('{' :: (body ++ ['}']), g) := by
  obtain ⟨w1, w2, hbody⟩ := hnodes
  have hw1 : ∀ c ∈ w1, c ≠ '}' := fun c hc => hbrace c (by rw [← hbody]; simp [hc])
  have hw2 : ∀ c ∈ w2, c ≠ '}' := fun c hc => hbrace c (by rw [← hbody]; simp [hc])
  have hD : Den reNodes ('{' :: (body ++ ['}'])) [] :=
    (Den_reNodes _ _).mpr ⟨w1, w2, by rw [← hbody]; simp, rfl, hw1, hw2⟩
  have hsome := matchAtoms_complete reNodes _ _ [] hD
  rw [List.append_nil] at hsome
  obtain ⟨mg, hmg⟩ := Option.isSome_iff_exists.mp hsome
  obtain ⟨hD', hpre⟩ := matchAtoms_sound reNodes _ mg.1 mg.2 hmg
  obtain ⟨v1, v2, hm, _, hv1, hv2⟩ := (Den_reNodes _ _).mp hD'
  obtain ⟨rest, hrest⟩ := hpre
  have hmem : ∀ c ∈ v1 ++ "\"nodes\"".toList ++ v2, c ≠ '}' := by
    intro c hc
    simp only [List.mem_append] at hc
    rcases hc with (hc | hc) | hc
    · exact hv1 c hc
    · intro hcc; subst hcc; revert hc; decide
    · exact hv2 c hc
  have heq : (v1 ++ "\"nodes\"".toList ++ v2) ++ '}' :: rest = body ++ '}' :: [] := by
    have h := hrest
    rw [hm] at h
    simpa using h
  obtain ⟨hv, hr⟩ := append_cons_inj_of_not_mem '}' _ _ _ _
    (fun h => hmem _ h rfl) (fun h => hbrace _ h rfl) heq
  refine ⟨mg.2, ?_⟩
  have hm' : mg.1 = '{' :: (body ++ ['}']) := by rw [hm, ← hv]; simp
  rw [FindStringSubmatch_of_match reNodes _ mg hmg, ← hm']

/-- C2 (as amended): a well-formed JSON object that holds the marker key
"nodes", has no closing brace before its last rune and no code fence, comes
back from `Extract` unchanged. -/
theorem C2_flat_nodes_object_unchanged (u : Str → Option GoError) (body : Str)
    (hbrace : ∀ c ∈ body, c ≠ '}')
    (hnodes : "\"nodes\"".toList <:+: body)
    (hfence : ¬ ([backtick, backtick, backtick] <:+: '{' :: (body ++ ['}'])))
    (hvalid : u ('{' :: (body ++ ['}'])) = none) :
    Extract u ('{' :: (body ++ ['}']))
      = .ok ('{' :: (body ++ ['}']), extractReasoning ('{' :: (body ++ ['}']))) := by
  obtain ⟨g, hfind⟩ := FindStringSubmatch_reNodes_flat body hbrace hnodes
  have hv : isValidJSON u ('{' :: (body ++ ['}'])) = true := by simp [isValidJSON, hvalid]
  have hjson : extractJSON u ('{' :: (body ++ ['}'])) = '{' :: (body ++ ['}']) := by
    simp only [extractJSON, tryCodeBlocks_none_of_no_fence u _ hfence, tryNodes, hfind, hv,
      if_true]
  have hne : (('{' :: (body ++ ['}'])) == ([] : Str)) = false := by
    simp
  simp only [Extract, hjson, hne, hvalid]
  rfl

/-- C2 at a concrete object: the hypotheses hold for `{"nodes":[],"edges":[]}`
and it comes back unchanged. -/
theorem C2_flat_nodes_object_unchanged_witness :
    ((∀ c ∈ "\"nodes\":[],\"edges\":[]".toList, c ≠ '}') ∧
      "\"nodes\"".toList <:+: "\"nodes\":[],\"edges\":[]".toList ∧
      ¬ ([backtick, backtick, backtick] <:+:
          '{' :: ("\"nodes\":[],\"edges\":[]".toList ++ ['}'])) ∧
      acceptOnly ["\x7b\"nodes\":[],\"edges\":[]\x7d".toList]
          ('{' :: ("\"nodes\":[],\"edges\":[]".toList ++ ['}'])) = none) ∧
    Extract (acceptOnly ["\x7b\"nodes\":[],\"edges\":[]\x7d".toList])
        ('{' :: ("\"nodes\":[],\"edges\":[]".toList ++ ['}']))
      = .ok ('{' :: ("\"nodes\":[],\"edges\":[]".toList ++ ['}']),
          extractReasoning ('{' :: ("\"nodes\":[],\"edges\":[]".toList ++ ['}']))) :=
  ⟨⟨by decide, by decide, by decide, by decide⟩,
   C2_flat_nodes_object_unchanged (acceptOnly ["\x7b\"nodes\":[],\"edges\":[]\x7d".toList])
    "\"nodes\":[],\"edges\":[]".toList (by decide) (by decide) (by decide) (by decide)⟩

/-- C2 fails as stated: the well-formed documents `{"a":1}`,
`{"nodes":[{"id":"n1"}]}` and `42`, given to `Extract` as they are, are not
returned; `Extract` reports that it found no JSON. -/
theorem C2_clean_json_not_returned :
    Extract (acceptOnly ["\x7b\"a\":1\x7d".toList]) "\x7b\"a\":1\x7d".toList
      = .error (.leaf "no JSON found in response".toList) ∧
    Extract (acceptOnly ["\x7b\"nodes\":[\x7b\"id\":\"n1\"\x7d]\x7d".toList])
        "\x7b\"nodes\":[\x7b\"id\":\"n1\"\x7d]\x7d".toList
      = .error (.leaf "no JSON found in response".toList) ∧
    Extract (acceptOnly ["42".toList]) "42".toList
      = .error (.leaf "no JSON found in response".toList) := by
  refine ⟨?_, ?_, ?_⟩ <;> rfl

/-- A fence pattern, laid out as literal runes around its three items. -/
theorem fencePattern_eq (label : Str) :
    fencePattern label = [backtick, backtick, backtick].map lit ++ (label.map lit ++
        (.star reSpace :: lit '\n' :: .plusCap (fun c => c != backtick) ::
          ([backtick, backtick, backtick].map lit ++ []))) := rfl

/-- The language of a fence pattern: the opening fence and its label,
whitespace, a newline, a non-empty body without backticks (the capture), and
the closing fence. -/
theorem Den_fencePattern (label : Str) (m g : Str) :
    Den (fencePattern label) m g ↔
      ∃ w, m = [backtick, backtick, backtick] ++ (label ++ (w ++ ('\n' :: (g ++
              [backtick, backtick, backtick])))) ∧
        (∀ c ∈ w, reSpace c = true) ∧ g ≠ [] ∧ (∀ c ∈ g, c ≠ backtick) := by
  rw [fencePattern_eq, Den_lits_iff]
  constructor
  · rintro ⟨m1, rfl, h1⟩
    rw [Den_lits_iff] at h1
    obtain ⟨m2, rfl, h2⟩ := h1
    obtain ⟨w, m3, rfl, hw, h3⟩ := h2
    obtain ⟨c, m4, rfl, hc, h4⟩ := h3
    obtain ⟨b, m5, g1, rfl, rfl, hb, hbc, h5⟩ := h4
    rw [Den_lits_iff] at h5
    obtain ⟨m6, rfl, rfl, rfl⟩ := h5
    simp only [beq_iff_eq] at hc
    subst hc
    refine ⟨w, by simp, hw, by simpa using hb, ?_⟩
    intro x hx
    simp only [List.append_nil] at hx
    simpa using hbc x hx
  · rintro ⟨w, rfl, hw, hg, hgc⟩
    refine ⟨_, rfl, ?_⟩
    rw [Den_lits_iff]
    refine ⟨_, rfl, ?_⟩
    refine ⟨w, _, rfl, hw, '\n', _, rfl, by simp, g, _, [], rfl, by simp, hg, ?_, ?_⟩
    · intro x hx; simpa using hgc x hx
    · rw [Den_lits_iff]
      exact ⟨[], by simp, rfl, rfl⟩

/-- The runes of the class `\s` are white space for `strings.TrimSpace`, and
none of them is a backtick. -/
theorem reSpace_isSpace (c : Char) (h : reSpace c = true) : isSpace c = true ∧ c ≠ backtick := by
  simp only [reSpace, Bool.or_eq_true, beq_iff_eq] at h
  rcases h with (((h | h) | h) | h) | h <;> subst h <;> decide

/-- Leading runes that satisfy `p` do not change what is left after
dropping those that do. -/
theorem dropWhile_append_of_all (p : Char → Bool) (x y : Str) (hx : ∀ c ∈ x, p c = true) :
    (x ++ y).dropWhile p = y.dropWhile p := by
  induction x with
  | nil => rfl
  | cons c x ih =>
    simp only [List.cons_append, List.dropWhile_cons, hx c (List.mem_cons_self c x), if_true]
    exact ih (fun d hd => hx d (List.mem_cons_of_mem c hd))

/-- Bodies that differ by leading white space have the same trimmed text. -/
theorem TrimSpace_eq_of_append_eq (x y g B : Str) (hx : ∀ c ∈ x, isSpace c = true)
    (hy : ∀ c ∈ y, isSpace c = true) (h : x ++ g = y ++ B) : TrimSpace g = TrimSpace B := by
  unfold TrimSpace
  rw [← dropWhile_append_of_all isSpace x g hx, ← dropWhile_append_of_all isSpace y B hy, h]

/-- On a text whose first backticks open a well-formed fenced block, the
fence pattern of that label captures the body up to leading white space. -/
theorem FindStringSubmatch_fenced (label A W B Z : Str)
    (hA : ∀ c ∈ A, c ≠ backtick) (hW : ∀ c ∈ W, reSpace c = true)
    (hB : ∀ c ∈ B, c ≠ backtick) (hBne : B ≠ []) :
    ∃ mg, FindStringSubmatch (fencePattern label) (A ++ (fenced label W B ++ Z)) = some mg ∧
      TrimSpace mg.2 = TrimSpace B := by
  have hskip : FindStringSubmatch (fencePattern label) (A ++ (fenced label W B ++ Z))
      = FindStringSubmatch (fencePattern label) (fenced label W B ++ Z) := by
    apply FindStringSubmatch_skip
    intro c hc
    simpa using hA c hc
  have hD : Den (fencePattern label) (fenced label W B) B :=
    (Den_fencePattern label _ _).mpr ⟨W, rfl, hW, hBne, hB⟩
  have hsome := matchAtoms_complete (fencePattern label) _ _ Z hD
  obtain ⟨mg, hmg⟩ := Option.isSome_iff_exists.mp hsome
  obtain ⟨hD', hpre⟩ := matchAtoms_sound (fencePattern label) _ mg.1 mg.2 hmg
  obtain ⟨w, hm, hw, _, hg⟩ := (Den_fencePattern label _ _).mp hD'
  obtain ⟨rest, hrest⟩ := hpre
  refine ⟨mg, ?_, ?_⟩
  · rw [hskip]
    exact FindStringSubmatch_of_match _ _ mg hmg
  · have h1 : (w ++ '\n' :: mg.2) ++ backtick :: (backtick :: backtick :: rest)
        = (W ++ '\n' :: B) ++ backtick :: (backtick :: backtick :: Z) := by
      have h := hrest
      rw [hm] at h
      simp only [fenced, List.append_assoc, List.cons_append, List.nil_append,
        List.cons.injEq, true_and] at h
      have h' := List.append_cancel_left h
      simpa using h'
    have hnotin1 : backtick ∉ w ++ '\n' :: mg.2 := by
      intro hmem
      simp only [List.mem_append, List.mem_cons] at hmem
      rcases hmem with hmem | hmem | hmem
      · exact (reSpace_isSpace _ (hw _ hmem)).2 rfl
      · revert hmem; decide
      · exact hg _ hmem rfl
    have hnotin2 : backtick ∉ W ++ '\n' :: B := by
      intro hmem
      simp only [List.mem_append, List.mem_cons] at hmem
      rcases hmem with hmem | hmem | hmem
      · exact (reSpace_isSpace _ (hW _ hmem)).2 rfl
      · revert hmem; decide
      · exact hB _ hmem rfl
    obtain ⟨heq, _⟩ := append_cons_inj_of_not_mem backtick _ _ _ _ hnotin1 hnotin2 h1
    have heq' : (w ++ ['\n']) ++ mg.2 = (W ++ ['\n']) ++ B := by simpa using heq
    refine TrimSpace_eq_of_append_eq (w ++ ['\n']) (W ++ ['\n']) mg.2 B ?_ ?_ heq'
    · intro c hc
      simp only [List.mem_append, List.mem_singleton] at hc
      rcases hc with hc | hc
      · exact (reSpace_isSpace _ (hw _ hc)).1
      · subst hc; decide
    · intro c hc
      simp only [List.mem_append, List.mem_singleton] at hc
      rcases hc with hc | hc
      · exact (reSpace_isSpace _ (hW _ hc)).1
      · subst hc; decide

/-- The "```json" pattern matches nowhere in a text whose only backticks are
those of one unlabelled fenced block. -/
theorem FindStringSubmatch_json_none_of_plain_fence (A W B Z : Str)
    (hA : ∀ c ∈ A, c ≠ backtick) (hW : ∀ c ∈ W, reSpace c = true)
    (hB : ∀ c ∈ B, c ≠ backtick) (hZ : ∀ c ∈ Z, c ≠ backtick) :
    FindStringSubmatch reFenceJson (A ++ (fenced [] W B ++ Z)) = none := by
  cases h : FindStringSubmatch reFenceJson (A ++ (fenced [] W B ++ Z)) with
  | none => rfl
  | some mg =>
    exfalso
    obtain ⟨hD, pre, rest, hs⟩ := FindStringSubmatch_sound _ _ mg.1 mg.2 h
    obtain ⟨w, hm, hw, _, hg⟩ := (Den_fencePattern "json".toList _ _).mp hD
    have cA : A.count backtick = 0 := List.count_eq_zero_of_not_mem (fun hx => hA _ hx rfl)
    have cB : B.count backtick = 0 := List.count_eq_zero_of_not_mem (fun hx => hB _ hx rfl)
    have cZ : Z.count backtick = 0 := List.count_eq_zero_of_not_mem (fun hx => hZ _ hx rfl)
    have cW : W.count backtick = 0 :=
      List.count_eq_zero_of_not_mem (fun hx => (reSpace_isSpace _ (hW _ hx)).2 rfl)
    have cw : w.count backtick = 0 :=
      List.count_eq_zero_of_not_mem (fun hx => (reSpace_isSpace _ (hw _ hx)).2 rfl)
    have cg : mg.2.count backtick = 0 := List.count_eq_zero_of_not_mem (fun hx => hg _ hx rfl)
    have hnl : ('\n' == backtick) = false := by decide
    have hjs : "json".toList.count backtick = 0 := by decide
    have hcount := congrArg (List.count backtick) hs
    rw [hm] at hcount
    simp only [fenced, List.count_append, List.count_cons, List.count_nil, cA, cB, cZ, cW, cw,
      cg, hnl, hjs, beq_self_eq_true, if_true, Bool.false_eq_true, if_false] at hcount
    have cpre : backtick ∉ pre := by
      intro hmem
      have := List.count_pos_iff.mpr hmem
      omega
    have h1 : pre ++ backtick :: (backtick :: backtick :: ("json".toList ++ (w ++ ('\n' ::
          (mg.2 ++ [backtick, backtick, backtick])))) ++ rest)
        = A ++ backtick :: (backtick :: backtick :: (W ++ ('\n' :: (B ++
          [backtick, backtick, backtick]))) ++ Z) := by
      have h2 := hs
      rw [hm] at h2
      simp only [fenced, List.append_assoc, List.cons_append, List.nil_append] at h2 ⊢
      exact h2.symm
    obtain ⟨_, htail⟩ := append_cons_inj_of_not_mem backtick _ _ _ _ cpre
      (fun hx => hA _ hx rfl) h1
    cases W with
    | nil => simp at htail
    | cons c W =>
      have hj : "json".toList = 'j' :: "son".toList := rfl
      rw [hj] at htail
      simp only [List.cons_append, List.cons.injEq, true_and] at htail
      have hc := hW c (List.mem_cons_self c W)
      rw [← htail.1] at hc
      revert hc
      decide

/-- C4 (as amended): when the first backticks of a text open a fenced block,
labelled `json` or unlabelled, that the scan recognises (the fence, optional
white space, a newline, a non-empty body without backticks, the closing
fence) and whose trimmed body is valid JSON, `extractJSON` returns that
trimmed body, whatever else the text holds before the block and, for a block
labelled `json`, after it; for an unlabelled block, provided no backtick
follows it. -/
theorem C4_first_fence_wins (u : Str → Option GoError) (A W B Z : Str)
    (hA : ∀ c ∈ A, c ≠ backtick) (hW : ∀ c ∈ W, reSpace c = true)
    (hB : ∀ c ∈ B, c ≠ backtick) (hBne : B ≠ [])
    (hvalid : u (TrimSpace B) = none) :
    extractJSON u (A ++ (fenced "json".toList W B ++ Z)) = TrimSpace B ∧
    ((∀ c ∈ Z, c ≠ backtick) →
      extractJSON u (A ++ (fenced [] W B ++ Z)) = TrimSpace B) := by
  have hv : isValidJSON u (TrimSpace B) = true := by simp [isValidJSON, hvalid]
  constructor
  · obtain ⟨mg, hfind, htrim⟩ := FindStringSubmatch_fenced "json".toList A W B Z hA hW hB hBne
    simp only [extractJSON, codeBlockPatterns, tryCodeBlocks, reFenceJson, hfind, htrim, hv,
      if_true]
  · intro hZ
    obtain ⟨mg, hfind, htrim⟩ := FindStringSubmatch_fenced [] A W B Z hA hW hB hBne
    have hnone := FindStringSubmatch_json_none_of_plain_fence A W B Z hA hW hB hZ
    simp only [extractJSON, codeBlockPatterns, tryCodeBlocks, hnone, reFencePlain, hfind, htrim,
      hv, if_true]

/-- C4 at a concrete text with a loose span before the block and another
after it: the hypotheses hold, and the trimmed body of the block is returned
for a `json` fence and for an unlabelled one. -/
theorem C4_first_fence_wins_witness :
    ((∀ c ∈ "see \x7b\"a\":1\x7d then ".toList, c ≠ backtick) ∧
      (∀ c ∈ " ".toList, reSpace c = true) ∧
      (∀ c ∈ "\x7b\"b\":2\x7d\n".toList, c ≠ backtick) ∧
      "\x7b\"b\":2\x7d\n".toList ≠ [] ∧
      acceptOnly ["\x7b\"a\":1\x7d".toList, "\x7b\"b\":2\x7d".toList]
        (TrimSpace "\x7b\"b\":2\x7d\n".toList) = none) ∧
    extractJSON (acceptOnly ["\x7b\"a\":1\x7d".toList, "\x7b\"b\":2\x7d".toList])
        ("see \x7b\"a\":1\x7d then ".toList ++
          (fenced "json".toList " ".toList "\x7b\"b\":2\x7d\n".toList ++
            " or \x7b\"a\":1\x7d".toList))
      = TrimSpace "\x7b\"b\":2\x7d\n".toList ∧
    extractJSON (acceptOnly ["\x7b\"a\":1\x7d".toList, "\x7b\"b\":2\x7d".toList])
        ("see \x7b\"a\":1\x7d then ".toList ++
          (fenced [] " ".toList "\x7b\"b\":2\x7d\n".toList ++ " or \x7b\"a\":1\x7d".toList))
      = TrimSpace "\x7b\"b\":2\x7d\n".toList :=
  ⟨⟨by decide, by decide, by decide, by decide, by decide⟩,
   (C4_first_fence_wins (acceptOnly ["\x7b\"a\":1\x7d".toList, "\x7b\"b\":2\x7d".toList])
      "see \x7b\"a\":1\x7d then ".toList " ".toList "\x7b\"b\":2\x7d\n".toList
      " or \x7b\"a\":1\x7d".toList (by decide) (by decide) (by decide) (by decide)
      (by decide)).1,
   (C4_first_fence_wins (acceptOnly ["\x7b\"a\":1\x7d".toList, "\x7b\"b\":2\x7d".toList])
      "see \x7b\"a\":1\x7d then ".toList " ".toList "\x7b\"b\":2\x7d\n".toList
      " or \x7b\"a\":1\x7d".toList (by decide) (by decide) (by decide) (by decide)
      (by decide)).2 (by decide)⟩

/-- C4 fails as stated: the text `x {"a":1} ` followed by a `json` fenced
block whose body is the valid document `{"c":"`"}` (a backtick inside a JSON
string) holds a fenced block with a valid body and a loose valid span, and
`extractJSON` returns the loose span. -/
theorem C4_fenced_body_with_backtick_not_preferred :
    acceptOnly ["\x7b\"a\":1\x7d".toList, "\x7b\"c\":\"`\"\x7d".toList]
        (TrimSpace "\x7b\"c\":\"`\"\x7d\n".toList) = none ∧
    acceptOnly ["\x7b\"a\":1\x7d".toList, "\x7b\"c\":\"`\"\x7d".toList]
        "\x7b\"a\":1\x7d".toList = none ∧
    extractJSON (acceptOnly ["\x7b\"a\":1\x7d".toList, "\x7b\"c\":\"`\"\x7d".toList])
        ("x \x7b\"a\":1\x7d ".toList ++ fenced "json".toList [] "\x7b\"c\":\"`\"\x7d\n".toList)
      = "\x7b\"a\":1\x7d".toList ∧
    "\x7b\"a\":1\x7d".toList ≠ TrimSpace "\x7b\"c\":\"`\"\x7d\n".toList := by
  refine ⟨?_, ?_, ?_, ?_⟩ <;> decide

/-! ## The retry policy -/

/-- The state after one more call. -/
theorem stateAfter_succ_eq {σ : Type} (fn : σ → σ × Option GoError) (j : Nat) :
    ∀ s : σ, stateAfter fn (j + 1) s = (fn (stateAfter fn j s)).1 := by
  induction j with
  | zero => intro s; rfl
  | succ j ih =>
    intro s
    have := ih (fn s).1
    simpa [stateAfter] using this


/-- The calls in `j` failed rounds. -/
theorem callCount_failedRounds (r : Retrier) (j : Nat) :
    ∀ (a : Nat) (d : Int), callCount (failedRounds r j a d) = j := by
  induction j with
  | zero => intro a d; rfl
  | succ j ih =>
    intro a d
    have := ih (a + 1) (r.nextDelay d)
    simp only [callCount] at this ⊢
    simp [failedRounds, this]

/-- The waits in `j` failed rounds. -/
theorem waitsOf_failedRounds_length (r : Retrier) (j : Nat) :
    ∀ (a : Nat) (d : Int), (waitsOf (failedRounds r j a d)).length = j := by
  induction j with
  | zero => intro a d; rfl
  | succ j ih =>
    intro a d
    have := ih (a + 1) (r.nextDelay d)
    simp only [waitsOf] at this ⊢
    simp [failedRounds, this]

/-- While calls fail, attempts remain and the context lets the waits run,
the loop of `Do` goes through failed rounds: after `j` of them it stands at
attempt `attempt + j` with the delay of that round. -/
theorem Retrier.loop_failedRounds {σ : Type} (r : Retrier) (ctxWait : Nat → Option GoError)
    (fn : σ → σ × Option GoError) (j : Nat) :
    ∀ (rem attempt : Nat) (delay : Int) (lastErr : Option GoError) (s : σ)
      (ev : List RetryEvent),
      j < rem → (attempt : Int) + rem = r.maxAttempts + 1 →
      (∀ i, i < j → outcomeAt fn i s ≠ none) →
      (∀ i, i < j → ctxWait (attempt + i) = none) →
      ∃ lastErr1,
        Retrier.loop r ctxWait fn rem attempt delay lastErr s ev
          = Retrier.loop r ctxWait fn (rem - j) (attempt + j) (r.delayAt j delay) lastErr1
              (stateAfter fn j s) (ev ++ failedRounds r j attempt delay) := by
  induction j with
  | zero =>
    intro rem attempt delay lastErr s ev _ _ _ _
    exact ⟨lastErr, by simp [failedRounds, Retrier.delayAt, stateAfter]⟩
  | succ j ih =>
    intro rem attempt delay lastErr s ev hrem hinv hfail hctx
    obtain ⟨rem1, rfl⟩ : ∃ rem1, rem = rem1 + 1 := ⟨rem - 1, by omega⟩
    have h0 : outcomeAt fn 0 s ≠ none := hfail 0 (by omega)
    have hc0 : ctxWait attempt = none := by simpa using hctx 0 (by omega)
    simp only [outcomeAt, stateAfter] at h0
    rcases hf : fn s with ⟨s1, o⟩
    rw [hf] at h0
    cases o with
    | none => exact absurd rfl h0
    | some err =>
      have hlt : ¬ ((attempt : Int) ≥ r.maxAttempts) := by omega
      obtain ⟨le1, hrec⟩ := ih rem1 (attempt + 1) (r.nextDelay delay) (some err) s1
        (ev ++ [.call attempt, .wait delay]) (by omega) (by push_cast; omega)
        (fun i hi => by
          have := hfail (i + 1) (by omega)
          simpa [outcomeAt, stateAfter, hf] using this)
        (fun i hi => by
          have := hctx (i + 1) (by omega)
          rw [← this]; congr 1; omega)
      refine ⟨le1, ?_⟩
      rw [Retrier.loop, hf]
      simp only [Retrier.shouldRetry, Bool.not_true, Bool.false_eq_true, if_false, hlt, hc0]
      rw [hrec]
      have e1 : rem1 + 1 - (j + 1) = rem1 - j := by omega
      have e2 : attempt + 1 + j = attempt + (j + 1) := by omega
      simp only [e1, e2, Retrier.delayAt, stateAfter, hf, failedRounds, List.append_assoc,
        List.cons_append, List.nil_append]

/-- The run of `Do` when call `j + 1` is the first to succeed, within the budget. -/
theorem Retrier.Do_success {σ : Type} (r : Retrier) (ctxWait : Nat → Option GoError)
    (fn : σ → σ × Option GoError) (s : σ) (N j : Nat) (hr : r.maxAttempts = N) (hj : j < N)
    (hfail : ∀ i, i < j → outcomeAt fn i s ≠ none)
    (hctx : ∀ i, i < j → ctxWait (1 + i) = none)
    (hok : outcomeAt fn j s = none) :
    r.Do ctxWait fn s
      = ⟨none, stateAfter fn (j + 1) s, failedRounds r j 1 r.initialDelay ++ [.call (j + 1)]⟩ := by
  obtain ⟨le1, h⟩ := Retrier.loop_failedRounds r ctxWait fn j N 1 r.initialDelay none s []
    hj (by rw [hr]; push_cast; omega) hfail hctx
  obtain ⟨m, hm⟩ : ∃ m, N - j = m + 1 := ⟨N - j - 1, by omega⟩
  simp only [Retrier.Do, hr, Int.toNat_ofNat]
  rw [h, hm, Retrier.loop]
  simp only [outcomeAt] at hok
  rcases hf : fn (stateAfter fn j s) with ⟨s1, o⟩
  rw [hf] at hok
  simp only at hok
  subst hok
  simp [stateAfter_succ_eq, hf, Nat.add_comm]

/-- The run of `Do` when all the `N` calls of its budget fail. -/
theorem Retrier.Do_exhausted {σ : Type} (r : Retrier) (ctxWait : Nat → Option GoError)
    (fn : σ → σ × Option GoError) (s : σ) (N : Nat) (hr : r.maxAttempts = N) (hN : 1 ≤ N)
    (hfail : ∀ i, i < N → outcomeAt fn i s ≠ none)
    (hctx : ∀ i, i < N - 1 → ctxWait (1 + i) = none) :
    ∃ e, outcomeAt fn (N - 1) s = some e ∧
      r.Do ctxWait fn s
        = ⟨some (r.exceeded (some e)), stateAfter fn N s,
            failedRounds r (N - 1) 1 r.initialDelay ++ [.call N]⟩ := by
  obtain ⟨le1, h⟩ := Retrier.loop_failedRounds r ctxWait fn (N - 1) N 1 r.initialDelay none s []
    (by omega) (by rw [hr]; push_cast; omega) (fun i hi => hfail i (by omega)) hctx
  have hm : N - (N - 1) = 0 + 1 := by omega
  have hlast := hfail (N - 1) (by omega)
  simp only [outcomeAt] at hlast ⊢
  rcases hf : fn (stateAfter fn (N - 1) s) with ⟨s1, o⟩
  rw [hf] at hlast
  cases o with
  | none => exact absurd rfl hlast
  | some e =>
    refine ⟨e, rfl, ?_⟩
    simp only [Retrier.Do, hr, Int.toNat_ofNat]
    rw [h, hm, Retrier.loop, hf]
    have hN' : 1 + (N - 1) = N := by omega
    have hst : stateAfter fn N s = s1 := by
      have := stateAfter_succ_eq fn (N - 1) s
      rw [hf] at this
      have hN2 : N - 1 + 1 = N := by omega
      rw [hN2] at this
      exact this
    have hge' : (N : Int) ≥ r.maxAttempts := by rw [hr]
    simp only [Retrier.shouldRetry, Bool.not_true, Bool.false_eq_true, if_false,
      hN', hst, List.nil_append]
    rw [if_pos hge']

/-- The run of `Do` when the context is done during the wait that follows failed call
`j + 1`. -/
theorem Retrier.Do_cancelled {σ : Type} (r : Retrier) (ctxWait : Nat → Option GoError)
    (fn : σ → σ × Option GoError) (s : σ) (N j : Nat) (hr : r.maxAttempts = N) (hj : j + 1 < N)
    (hfail : ∀ i, i ≤ j → outcomeAt fn i s ≠ none)
    (hctx : ∀ i, i < j → ctxWait (1 + i) = none)
    (ctxErr : GoError) (hcancel : ctxWait (1 + j) = some ctxErr) :
    r.Do ctxWait fn s
      = ⟨some ctxErr, stateAfter fn (j + 1) s,
          failedRounds r j 1 r.initialDelay ++
            [.call (j + 1), .interrupted (r.delayAt j r.initialDelay)]⟩ := by
  obtain ⟨le1, h⟩ := Retrier.loop_failedRounds r ctxWait fn j N 1 r.initialDelay none s []
    (by omega) (by rw [hr]; push_cast; omega) (fun i hi => hfail i (by omega)) hctx
  obtain ⟨m, hm⟩ : ∃ m, N - j = m + 1 := ⟨N - j - 1, by omega⟩
  have hlast := hfail j (le_refl j)
  simp only [outcomeAt] at hlast
  rcases hf : fn (stateAfter fn j s) with ⟨s1, o⟩
  rw [hf] at hlast
  cases o with
  | none => exact absurd rfl hlast
  | some e =>
    simp only [Retrier.Do, hr, Int.toNat_ofNat]
    rw [h, hm, Retrier.loop, hf]
    have hlt : ¬ (((j + 1 : Nat) : Int) ≥ r.maxAttempts) := by rw [hr]; omega
    have hcancel' : ctxWait (j + 1) = some ctxErr := by rw [Nat.add_comm]; exact hcancel
    simp only [Retrier.shouldRetry, Bool.not_true, Bool.false_eq_true, if_false,
      List.nil_append, stateAfter_succ_eq, hf, Nat.add_comm 1 j]
    rw [if_neg hlt, hcancel']

/-- C7 (as amended): with initial delay 1s, multiplier 2.0, ceiling 10s and an
operation that fails on every attempt, `Do` with 5 attempts waits exactly 1s,
2s, 4s, 8s, four times and not after the fifth attempt; the capped wait of
10s is the fifth wait, which takes a sixth attempt, and every later wait is
10s as well. -/
theorem C7_backoff_waits {σ : Type} (fn : σ → σ × Option GoError) (s : σ)
    (hfail : ∀ i, outcomeAt fn i s ≠ none) :
    waitsOf ((backoffRetrier 5).Do (fun _ => none) fn s).events
      = [1 * second, 2 * second, 4 * second, 8 * second] ∧
    waitsOf ((backoffRetrier 6).Do (fun _ => none) fn s).events
      = [1 * second, 2 * second, 4 * second, 8 * second, 10 * second] ∧
    waitsOf ((backoffRetrier 7).Do (fun _ => none) fn s).events
      = [1 * second, 2 * second, 4 * second, 8 * second, 10 * second, 10 * second] := by
  refine ⟨?_, ?_, ?_⟩
  · obtain ⟨e, _, h⟩ := Retrier.Do_exhausted (backoffRetrier 5) (fun _ => none) fn s 5 rfl
      (by omega) (fun i _ => hfail i) (fun _ _ => rfl)
    rw [h]
    dsimp only
    decide
  · obtain ⟨e, _, h⟩ := Retrier.Do_exhausted (backoffRetrier 6) (fun _ => none) fn s 6 rfl
      (by omega) (fun i _ => hfail i) (fun _ _ => rfl)
    rw [h]
    dsimp only
    decide
  · obtain ⟨e, _, h⟩ := Retrier.Do_exhausted (backoffRetrier 7) (fun _ => none) fn s 7 rfl
      (by omega) (fun i _ => hfail i) (fun _ _ => rfl)
    rw [h]
    dsimp only
    decide

/-- C7 at a concrete operation that always fails. -/
theorem C7_backoff_waits_witness :
    (∀ i, outcomeAt alwaysFail i () ≠ none) ∧
    waitsOf ((backoffRetrier 5).Do (fun _ => none) alwaysFail ()).events
      = [1 * second, 2 * second, 4 * second, 8 * second] :=
  ⟨fun i => by simp [outcomeAt, alwaysFail],
   (C7_backoff_waits alwaysFail () (fun i => by simp [outcomeAt, alwaysFail])).1⟩

/-- C7 fails as stated: with 5 attempts and an operation that always fails,
`Do` calls the operation five times and waits four times, 1s, 2s, 4s and 8s;
there is no fifth wait of 10s. -/
theorem C7_no_fifth_wait :
    waitsOf ((backoffRetrier 5).Do (fun _ => none) alwaysFail ()).events
      = [1 * second, 2 * second, 4 * second, 8 * second] ∧
    callCount ((backoffRetrier 5).Do (fun _ => none) alwaysFail ()).events = 5 ∧
    waitsOf ((backoffRetrier 5).Do (fun _ => none) alwaysFail ()).events
      ≠ [1 * second, 2 * second, 4 * second, 8 * second, 10 * second] := by
  decide

/-- C8: with `maxAttempts = N ≥ 1` and a context that is never cancelled, (1)
when call `k ≤ N` is the first to succeed, `Do` returns nil after exactly `k`
calls and `k - 1` waits, the successful call being the last thing it does; (2)
when all of the first `N` calls fail, whatever their errors, `Do` makes
exactly `N` calls and returns the error "max retry attempts (N) exceeded: "
wrapping the error of call `N`; (3) so `Do` returns nil iff some call
`k ≤ N` succeeds. -/
theorem C8_retry_until_first_success {σ : Type} (r : Retrier) (N : Nat) (hN : 1 ≤ N)
    (hr : r.maxAttempts = N) (fn : σ → σ × Option GoError) (s : σ) :
    (∀ k, 1 ≤ k → k ≤ N → (∀ i, i < k - 1 → outcomeAt fn i s ≠ none) →
      outcomeAt fn (k - 1) s = none →
        (r.Do (fun _ => none) fn s).err = none ∧
        (r.Do (fun _ => none) fn s).events
          = failedRounds r (k - 1) 1 r.initialDelay ++ [.call k] ∧
        callCount (r.Do (fun _ => none) fn s).events = k ∧
        (waitsOf (r.Do (fun _ => none) fn s).events).length = k - 1) ∧
    ((∀ i, i < N → outcomeAt fn i s ≠ none) →
      ∃ e, outcomeAt fn (N - 1) s = some e ∧
        (r.Do (fun _ => none) fn s).err
          = some (.wrap ("max retry attempts (".toList ++ fmtInt N ++ ") exceeded: ".toList) e) ∧
        callCount (r.Do (fun _ => none) fn s).events = N ∧
        (waitsOf (r.Do (fun _ => none) fn s).events).length = N - 1) ∧
    ((r.Do (fun _ => none) fn s).err = none ↔
      ∃ k, 1 ≤ k ∧ k ≤ N ∧ outcomeAt fn (k - 1) s = none) := by
  have part1 : ∀ k, 1 ≤ k → k ≤ N → (∀ i, i < k - 1 → outcomeAt fn i s ≠ none) →
      outcomeAt fn (k - 1) s = none →
        (r.Do (fun _ => none) fn s).err = none ∧
        (r.Do (fun _ => none) fn s).events
          = failedRounds r (k - 1) 1 r.initialDelay ++ [.call k] ∧
        callCount (r.Do (fun _ => none) fn s).events = k ∧
        (waitsOf (r.Do (fun _ => none) fn s).events).length = k - 1 := by
    intro k hk1 hkN hfail hok
    have h := Retrier.Do_success r (fun _ => none) fn s N (k - 1) hr (by omega) hfail
      (fun _ _ => rfl) hok
    have hk : k - 1 + 1 = k := by omega
    rw [hk] at h
    rw [h]
    refine ⟨rfl, rfl, ?_, ?_⟩
    · have := callCount_failedRounds r (k - 1) 1 r.initialDelay
      simp only [callCount] at this ⊢
      simp [this]
      omega
    · have := waitsOf_failedRounds_length r (k - 1) 1 r.initialDelay
      simp only [waitsOf] at this ⊢
      simp [this]
  have part2 : (∀ i, i < N → outcomeAt fn i s ≠ none) →
      ∃ e, outcomeAt fn (N - 1) s = some e ∧
        (r.Do (fun _ => none) fn s).err
          = some (.wrap ("max retry attempts (".toList ++ fmtInt N ++ ") exceeded: ".toList) e) ∧
        callCount (r.Do (fun _ => none) fn s).events = N ∧
        (waitsOf (r.Do (fun _ => none) fn s).events).length = N - 1 := by
    intro hfail
    obtain ⟨e, he, h⟩ := Retrier.Do_exhausted r (fun _ => none) fn s N hr hN hfail
      (fun _ _ => rfl)
    refine ⟨e, he, ?_, ?_, ?_⟩
    · rw [h]; simp [Retrier.exceeded, errorfW, hr]
    · rw [h]
      have := callCount_failedRounds r (N - 1) 1 r.initialDelay
      simp only [callCount] at this ⊢
      simp [this]
      omega
    · rw [h]
      have := waitsOf_failedRounds_length r (N - 1) 1 r.initialDelay
      simp only [waitsOf] at this ⊢
      simp [this]
  refine ⟨part1, part2, ?_, ?_⟩
  · intro hnil
    by_contra hno
    have hall : ∀ i, i < N → outcomeAt fn i s ≠ none := by
      intro i hi hnone
      exact hno ⟨i + 1, by omega, by omega, by simpa using hnone⟩
    obtain ⟨e, _, herr, _⟩ := part2 hall
    rw [herr] at hnil
    cases hnil
  · rintro ⟨k, hk1, hkN, hok⟩
    classical
    have hex : ∃ j, outcomeAt fn j s = none := ⟨k - 1, hok⟩
    have hle : Nat.find hex ≤ k - 1 := Nat.find_min' hex hok
    have := part1 (Nat.find hex + 1) (by omega) (by omega)
      (fun i hi => Nat.find_min hex (by simpa using hi))
      (by simpa using Nat.find_spec hex)
    exact this.1

/-- C8 at a concrete operation that succeeds on its third call, with five
attempts: three calls, two waits, nil. -/
theorem C8_retry_until_first_success_witness :
    (1 ≤ 5 ∧ (backoffRetrier 5).maxAttempts = ((5 : Nat) : Int)) ∧
    (backoffRetrier 5).Do (fun _ => none) succeedOnThird 0
      = ⟨none, 3, [.call 1, .wait (1 * second), .call 2, .wait (2 * second), .call 3]⟩ ∧
    ((backoffRetrier 5).Do (fun _ => none) succeedOnThird 0).err = none ∧
    callCount ((backoffRetrier 5).Do (fun _ => none) succeedOnThird 0).events = 3 ∧
    (waitsOf ((backoffRetrier 5).Do (fun _ => none) succeedOnThird 0).events).length = 3 - 1 :=
  have h := (C8_retry_until_first_success (backoffRetrier 5) 5 (by omega) rfl succeedOnThird 0).1
    3 (by omega) (by omega) (by decide) (by decide)
  ⟨⟨by omega, rfl⟩, by rfl, h.1, h.2.2.1, h.2.2.2⟩

/-- C9: when the context is done during the wait that follows failed call
`j + 1` (earlier waits having run their course, attempts remaining), `Do`
returns the context's error itself, and the interrupted wait is the last thing
it does: the operation was called `j + 1` times and is not called again. -/
theorem C9_cancel_during_wait {σ : Type} (r : Retrier) (N j : Nat) (hr : r.maxAttempts = N)
    (hj : j + 1 < N) (ctxWait : Nat → Option GoError) (fn : σ → σ × Option GoError) (s : σ)
    (hfail : ∀ i, i ≤ j → outcomeAt fn i s ≠ none)
    (hctx : ∀ i, i < j → ctxWait (1 + i) = none)
    (ctxErr : GoError) (hcancel : ctxWait (1 + j) = some ctxErr) :
    (r.Do ctxWait fn s).err = some ctxErr ∧
    (r.Do ctxWait fn s).events
      = failedRounds r j 1 r.initialDelay ++
          [.call (j + 1), .interrupted (r.delayAt j r.initialDelay)] ∧
    callCount (r.Do ctxWait fn s).events = j + 1 ∧
    (r.Do ctxWait fn s).state = stateAfter fn (j + 1) s := by
  rw [Retrier.Do_cancelled r ctxWait fn s N j hr hj hfail hctx ctxErr hcancel]
  refine ⟨rfl, rfl, ?_, rfl⟩
  have := callCount_failedRounds r j 1 r.initialDelay
  simp only [callCount] at this ⊢
  simp [this]

/-- C9 at a concrete run: five attempts, an operation that always fails, and
a context cancelled during the second wait. -/
theorem C9_cancel_during_wait_witness :
    ((backoffRetrier 5).maxAttempts = ((5 : Nat) : Int) ∧ 1 + 1 < 5 ∧
      (∀ i, i ≤ 1 → outcomeAt alwaysFail i () ≠ none) ∧
      (∀ i, i < 1 →
        (fun a => if a = 2 then some (GoError.leaf "context canceled".toList) else none) (1 + i)
          = none) ∧
      (fun a => if a = 2 then some (GoError.leaf "context canceled".toList) else none) (1 + 1)
        = some (GoError.leaf "context canceled".toList)) ∧
    ((backoffRetrier 5).Do
        (fun a => if a = 2 then some (GoError.leaf "context canceled".toList) else none)
        alwaysFail ()).err = some (GoError.leaf "context canceled".toList) ∧
    ((backoffRetrier 5).Do
        (fun a => if a = 2 then some (GoError.leaf "context canceled".toList) else none)
        alwaysFail ()).events
      = [.call 1, .wait (1 * second), .call 2, .interrupted (2 * second)] :=
  have h := C9_cancel_during_wait (backoffRetrier 5) 5 1 rfl (by omega)
    (fun a => if a = 2 then some (GoError.leaf "context canceled".toList) else none)
    alwaysFail () (by decide) (by decide) (GoError.leaf "context canceled".toList) (by decide)
  ⟨⟨rfl, by omega, by decide, by decide, by decide⟩, h.1, by decide⟩

/-! ## Runs of the iterator -/

/-- The state after one more call of the iteration function. -/
theorem iterState_succ_eq {σ : Type} (fn : Nat → σ → σ × CallResult) (j : Nat) :
    ∀ (a : Nat) (s : σ),
      iterState fn (j + 1) a s = (fn (a + j) (iterState fn j a s)).1 := by
  induction j with
  | zero => intro a s; rfl
  | succ j ih =>
    intro a s
    have := ih (a + 1) (fn a s).1
    have e : a + 1 + j = a + (j + 1) := by omega
    rw [e] at this
    simpa [iterState] using this

/-- While the iteration function returns errors, attempts remain and the
context is not done, the loop of `Iterate` goes on: after `j` failed calls it
stands at attempt `attempt + j`. -/
theorem Iterator.loop_failed {σ : Type} (it : Iterator) (ctxErr : Nat → Option GoError)
    (fn : Nat → σ → σ × CallResult) (j : Nat) :
    ∀ (rem attempt : Nat) (lastErr : Option GoError) (s : σ) (calls : List Nat),
      j < rem → (attempt : Int) + rem = it.maxIterations + 1 →
      (∀ i, i < j → (iterOutcome fn i attempt s).isErr = true) →
      (∀ i, i < j → ctxErr (attempt + i) = none) →
      ∃ lastErr1,
        Iterator.loop it ctxErr fn rem attempt lastErr s calls
          = Iterator.loop it ctxErr fn (rem - j) (attempt + j) lastErr1
              (iterState fn j attempt s) (calls ++ List.range' attempt j) := by
  induction j with
  | zero =>
    intro rem attempt lastErr s calls _ _ _ _
    exact ⟨lastErr, by simp [iterState]⟩
  | succ j ih =>
    intro rem attempt lastErr s calls hrem hinv hfail hctx
    obtain ⟨rem1, rfl⟩ : ∃ rem1, rem = rem1 + 1 := ⟨rem - 1, by omega⟩
    have h0 := hfail 0 (by omega)
    have hc0 : ctxErr attempt = none := by simpa using hctx 0 (by omega)
    simp only [iterOutcome, iterState, Nat.add_zero] at h0
    rcases hf : fn attempt s with ⟨s1, o⟩
    rw [hf] at h0
    cases o with
    | nil => simp [CallResult.isErr] at h0
    | panic msg => simp [CallResult.isErr] at h0
    | err e =>
      have hlt : ¬ ((attempt : Int) ≥ it.maxIterations) := by omega
      obtain ⟨le1, hrec⟩ := ih rem1 (attempt + 1) (some e) s1 (calls ++ [attempt]) (by omega)
        (by push_cast; omega)
        (fun i hi => by
          have := hfail (i + 1) (by omega)
          have e1 : attempt + (i + 1) = attempt + 1 + i := by omega
          simpa [iterOutcome, iterState, hf, e1] using this)
        (fun i hi => by
          have := hctx (i + 1) (by omega)
          rw [← this]; congr 1; omega)
      refine ⟨le1, ?_⟩
      rw [Iterator.loop, hc0, hf]
      simp only [hlt, if_false]
      rw [hrec]
      have e1 : rem1 + 1 - (j + 1) = rem1 - j := by omega
      have e2 : attempt + 1 + j = attempt + (j + 1) := by omega
      simp only [e1, e2, iterState, hf, List.range'_succ, List.append_assoc, List.cons_append,
        List.nil_append]

/-- The run of `Iterate` when call `j + 1` is the first that does not return an error,
within the budget: it stops there with what the call returned. -/
theorem Iterator.Iterate_stops {σ : Type} (it : Iterator) (ctxErr : Nat → Option GoError)
    (fn : Nat → σ → σ × CallResult) (s : σ) (N j : Nat) (hit : it.maxIterations = N)
    (hj : j < N)
    (hfail : ∀ i, i < j → (iterOutcome fn i 1 s).isErr = true)
    (hctx : ∀ i, i ≤ j → ctxErr (1 + i) = none)
    (hstop : (iterOutcome fn j 1 s).isErr = false) :
    it.Iterate ctxErr fn s
      = ⟨iterOutcome fn j 1 s, iterState fn (j + 1) 1 s, List.range' 1 (j + 1)⟩ := by
  obtain ⟨le1, h⟩ := Iterator.loop_failed it ctxErr fn j N 1 none s [] hj
    (by rw [hit]; push_cast; omega) hfail (fun i hi => hctx i (by omega))
  obtain ⟨m, hm⟩ : ∃ m, N - j = m + 1 := ⟨N - j - 1, by omega⟩
  simp only [Iterator.Iterate, hit, Int.toNat_ofNat]
  rw [h, hm, Iterator.loop, hctx j (le_refl j)]
  have hst := iterState_succ_eq fn j 1 s
  simp only [iterOutcome] at hstop ⊢
  rcases hf : fn (1 + j) (iterState fn j 1 s) with ⟨s1, o⟩
  rw [hf] at hstop hst
  cases o with
  | err e => simp [CallResult.isErr] at hstop
  | nil => simp [hst, List.range'_concat]
  | panic msg => simp [hst, List.range'_concat]

/-! ## The closure of `Generate`, step by step -/

/-- Building the request changes nothing but the trace, to which it adds
events of the current attempt only. -/
theorem Generator.buildRequest_frame (g : Generator) (req : GenerateRequest) (prompt : Str)
    (attempt : Nat) (v : GenVars) :
    (g.buildRequest req prompt attempt v).1.graphJSON = v.graphJSON ∧
    (g.buildRequest req prompt attempt v).1.reasoning = v.reasoning ∧
    (g.buildRequest req prompt attempt v).1.iteration = v.iteration ∧
    (g.buildRequest req prompt attempt v).1.client = v.client ∧
    ∃ evs, (g.buildRequest req prompt attempt v).1.trace = v.trace ++ evs ∧
      ∀ ev ∈ evs, ev.attempt = attempt := by
  unfold Generator.buildRequest
  split
  · exact ⟨rfl, rfl, rfl, rfl, [], by simp, by simp⟩
  · split
    · exact ⟨rfl, rfl, rfl, rfl, [], by simp, by simp⟩
    · split <;> exact ⟨rfl, rfl, rfl, rfl, [_], rfl, by simp [GenEvent.attempt]⟩

/-- Handling a response: what the closure returns and leaves behind. -/
theorem Generator.handleResponse_spec (env : Env) (attempt : Nat) (v : GenVars) (content : Str) :
    (∃ evs, (Generator.handleResponse env attempt v content).1.trace
        = v.trace ++ GenEvent.response attempt content :: evs ∧
      ∀ ev ∈ evs, ev.attempt = attempt) ∧
    (Generator.handleResponse env attempt v content).1.iteration = v.iteration ∧
    (∀ msg, (Generator.handleResponse env attempt v content).2 ≠ .panic msg) ∧
    ((Generator.handleResponse env attempt v content).2 = .nil →
      ∃ json reasoning, Extract env.unmarshal content = .ok (json, reasoning) ∧
        env.ValidateGraph json = none ∧
        (Generator.handleResponse env attempt v content).1.graphJSON = json ∧
        (Generator.handleResponse env attempt v content).1.reasoning = reasoning ∧
        (Generator.handleResponse env attempt v content).1.validationLogs
          = v.validationLogs ++ ["Validation successful".toList]) := by
  unfold Generator.handleResponse
  dsimp only
  split
  · refine ⟨⟨[], by simp, by simp⟩, rfl, by simp, by simp⟩
  · rename_i json reasoning hex
    split
    · refine ⟨⟨[GenEvent.validate attempt json], by simp, by simp [GenEvent.attempt]⟩, rfl,
        by simp, by simp⟩
    · rename_i hval
      refine ⟨⟨[GenEvent.validate attempt json], by simp, by simp [GenEvent.attempt]⟩, rfl,
        by simp, ?_⟩
      intro _
      exact ⟨json, reasoning, hex, hval, rfl, rfl, rfl⟩

/-- Calling the model: what the closure returns and leaves behind. -/
theorem Generator.callModel_spec (env : Env) (attempt : Nat) (v : GenVars)
    (creq : CompletionRequest) :
    (∃ evs, (Generator.callModel env attempt v creq).1.trace
        = v.trace ++ GenEvent.complete attempt creq :: evs ∧
      ∀ ev ∈ evs, ev.attempt = attempt) ∧
    (Generator.callModel env attempt v creq).1.iteration = v.iteration ∧
    ((Generator.callModel env attempt v creq).2 = .nil →
      ∃ content json reasoning,
        GenEvent.response attempt content ∈ (Generator.callModel env attempt v creq).1.trace ∧
        Extract env.unmarshal content = .ok (json, reasoning) ∧
        env.ValidateGraph json = none ∧
        (Generator.callModel env attempt v creq).1.graphJSON = json ∧
        (Generator.callModel env attempt v creq).1.reasoning = reasoning) := by
  unfold Generator.callModel
  dsimp only
  split
  · exact ⟨⟨[], by simp, by simp⟩, rfl, by simp⟩
  · exact ⟨⟨[], by simp, by simp⟩, rfl, by simp⟩
  · rename_i llmResp _
    obtain ⟨⟨evs, htr, hat⟩, hit, _, hnil⟩ := Generator.handleResponse_spec env attempt
      { v with client := (v.client.Complete env creq).1,
               trace := v.trace ++ [GenEvent.complete attempt creq],
               retries := v.retries ++ (v.client.Complete env creq).2.2 } llmResp.Content
    refine ⟨⟨GenEvent.response attempt llmResp.Content :: evs, by rw [htr]; simp, ?_⟩, hit, ?_⟩
    · intro ev hev
      rcases List.mem_cons.mp hev with rfl | hev
      · rfl
      · exact hat ev hev
    · intro h
      obtain ⟨json, reasoning, hex, hval, hj, hr, _⟩ := hnil h
      exact ⟨llmResp.Content, json, reasoning, by rw [htr]; simp, hex, hval, hj, hr⟩

/-- One run of the closure: the events it adds belong to its attempt, it sets
`iteration` to its attempt, and when it returns nil the graph and the
reasoning it leaves are those extracted from the response of this attempt,
which the validator accepted. -/
theorem Generator.attemptFn_spec (g : Generator) (env : Env) (req : GenerateRequest)
    (prompt : Str) (attempt : Nat) (v : GenVars) :
    (∃ evs, (g.attemptFn env req prompt attempt v).1.trace = v.trace ++ evs ∧
      ∀ ev ∈ evs, ev.attempt = attempt) ∧
    (g.attemptFn env req prompt attempt v).1.iteration = attempt ∧
    ((g.attemptFn env req prompt attempt v).2 = .nil →
      ∃ content json reasoning,
        GenEvent.response attempt content ∈ (g.attemptFn env req prompt attempt v).1.trace ∧
        Extract env.unmarshal content = .ok (json, reasoning) ∧
        env.ValidateGraph json = none ∧
        (g.attemptFn env req prompt attempt v).1.graphJSON = json ∧
        (g.attemptFn env req prompt attempt v).1.reasoning = reasoning) := by
  obtain ⟨_, _, hit, _, evs0, htr0, hat0⟩ :=
    g.buildRequest_frame req prompt attempt { v with iteration := attempt }
  unfold Generator.attemptFn
  dsimp only
  split
  next v1 msg h =>
    rw [h] at htr0 hit
    exact ⟨⟨evs0, htr0, hat0⟩, hit, by simp⟩
  next v1 err h =>
    rw [h] at htr0 hit
    exact ⟨⟨evs0, htr0, hat0⟩, hit, by simp⟩
  next v1 creq h =>
    rw [h] at htr0 hit
    obtain ⟨⟨evs, htr, hat⟩, hit1, hnil⟩ := Generator.callModel_spec env attempt v1 creq
    refine ⟨⟨evs0 ++ GenEvent.complete attempt creq :: evs, ?_, ?_⟩, by rw [hit1]; exact hit,
      hnil⟩
    · rw [htr]
      simp only at htr0
      rw [htr0]
      simp
    · intro ev hev
      simp only [List.mem_append, List.mem_cons] at hev
      rcases hev with hev | rfl | hev
      · exact hat0 ev hev
      · rfl
      · exact hat ev hev

/-- After `j` runs of the closure from attempt `a` on, the trace is the old
one followed by events of the attempts `a`, ..., `a + j - 1`. -/
theorem Generator.iterState_trace (g : Generator) (env : Env) (req : GenerateRequest)
    (prompt : Str) (j : Nat) :
    ∀ (a : Nat) (v : GenVars),
      ∃ evs, (iterState (g.attemptFn env req prompt) j a v).trace = v.trace ++ evs ∧
        ∀ ev ∈ evs, a ≤ ev.attempt ∧ ev.attempt < a + j := by
  induction j with
  | zero => intro a v; exact ⟨[], by simp [iterState], by simp⟩
  | succ j ih =>
    intro a v
    obtain ⟨⟨evs0, h0, hat0⟩, _, _⟩ := g.attemptFn_spec env req prompt a v
    obtain ⟨evs1, h1, hat1⟩ := ih (a + 1) (g.attemptFn env req prompt a v).1
    refine ⟨evs0 ++ evs1, ?_, ?_⟩
    · simp only [iterState]
      rw [h1, h0, List.append_assoc]
    · intro ev hev
      rcases List.mem_append.mp hev with hev | hev
      · have := hat0 ev hev
        omega
      · have := hat1 ev hev
        omega

/-- What `Generate` returns, by what its iterator returns. -/
theorem Generator.Generate_result (g : Generator) (env : Env) (client : Client)
    (req : GenerateRequest) :
    (g.Generate env client req).result
      = match (g.iterator.Iterate env.ctxErr
            (g.attemptFn env req (g.prompter.BuildPlanningPrompt req.Task req.Analysis
              req.Constraints).1) (GenVars.init client)).result with
        | .panic msg => .panic msg
        | .err err =>
          .error (.wrap ("graph generation failed after ".toList ++
            fmtInt (g.Generate env client req).vars.iteration ++ " iterations: ".toList) err)
        | .nil =>
          match ParseGraph env.unmarshalMap (g.Generate env client req).vars.graphJSON with
          | some err => .error (.wrap "failed to parse final graph: ".toList err)
          | none =>
            .ok { GraphJSON := (g.Generate env client req).vars.graphJSON,
                  Reasoning := (g.Generate env client req).vars.reasoning,
                  Iterations := (g.Generate env client req).vars.iteration,
                  ValidationLogs := (g.Generate env client req).vars.validationLogs } := by
  rw [(g.Generate_vars env client req).1]
  unfold Generator.Generate
  simp only [Prompter.BuildPlanningPrompt]
  split
  · rfl
  · rfl
  · split <;> rfl

/-- C5: when the closure of `Generate` first returns nil, which it does only
when validation passes, at attempt `k ≤ maxIterations` (the earlier attempts
having returned errors, the context not being done, and the validator
accepting only what parses as a JSON object), `Generate` returns a response
whose `GraphJSON` and `Reasoning` are those `Extract` gives on the content of
the model's response of attempt `k`, with `Iterations = k`; the iterator ran
the attempts `1..k` only, and no model call and no validation belongs to an
attempt after `k`. -/
theorem C5_success_at_first_pass (g : Generator) (env : Env) (client : Client)
    (req : GenerateRequest) (N k : Nat)
    (hN : g.iterator.maxIterations = N) (hk : 1 ≤ k) (hkN : k ≤ N)
    (hctx : ∀ i, i < k → env.ctxErr (1 + i) = none)
    (hfail : ∀ i, i < k - 1 →
      (iterOutcome (g.attemptFn env req (g.prompter.BuildPlanningPrompt req.Task req.Analysis
        req.Constraints).1) i 1 (GenVars.init client)).isErr = true)
    (hpass : iterOutcome (g.attemptFn env req (g.prompter.BuildPlanningPrompt req.Task
        req.Analysis req.Constraints).1) (k - 1) 1 (GenVars.init client) = .nil)
    (hobj : ∀ j, env.ValidateGraph j = none → env.unmarshalMap j = none) :
    ∃ content json reasoning,
      GenEvent.response k content ∈ (g.Generate env client req).vars.trace ∧
      Extract env.unmarshal content = .ok (json, reasoning) ∧
      env.ValidateGraph json = none ∧
      (g.Generate env client req).result
        = .ok { GraphJSON := json, Reasoning := reasoning, Iterations := k,
                ValidationLogs := (g.Generate env client req).vars.validationLogs } ∧
      (g.Generate env client req).calls = List.range' 1 k ∧
      ∀ ev ∈ (g.Generate env client req).vars.trace, ev.attempt ≤ k := by
  have hk1 : k - 1 + 1 = k := by omega
  have hk2 : 1 + (k - 1) = k := by omega
  have hiter := Iterator.Iterate_stops g.iterator env.ctxErr
    (g.attemptFn env req (g.prompter.BuildPlanningPrompt req.Task req.Analysis
      req.Constraints).1) (GenVars.init client) N (k - 1) hN (by omega) hfail
    (fun i hi => hctx i (by omega)) (by rw [hpass]; rfl)
  rw [hpass, hk1] at hiter
  have hst := iterState_succ_eq (g.attemptFn env req (g.prompter.BuildPlanningPrompt req.Task
    req.Analysis req.Constraints).1) (k - 1) 1 (GenVars.init client)
  rw [hk1, hk2] at hst
  obtain ⟨_, hit, hnil⟩ := g.attemptFn_spec env req (g.prompter.BuildPlanningPrompt req.Task
    req.Analysis req.Constraints).1 k (iterState (g.attemptFn env req
      (g.prompter.BuildPlanningPrompt req.Task req.Analysis req.Constraints).1) (k - 1) 1
      (GenVars.init client))
  have hpass' := hpass
  simp only [iterOutcome, hk2] at hpass'
  obtain ⟨content, json, reasoning, hmem, hex, hval, hj, hr⟩ := hnil hpass'
  rw [← hst] at hmem hj hr hit
  have hvars := (g.Generate_vars env client req).1
  have hcalls := (g.Generate_vars env client req).2
  rw [hiter] at hvars hcalls
  simp only at hvars hcalls
  refine ⟨content, json, reasoning, by rw [hvars]; exact hmem, hex, hval, ?_, hcalls, ?_⟩
  · rw [g.Generate_result env client req, hiter]
    simp only [hvars, hj, hr, hit, ParseGraph, hobj json hval]
  · intro ev hev
    rw [hvars] at hev
    obtain ⟨evs, htr, hat⟩ := g.iterState_trace env req (g.prompter.BuildPlanningPrompt req.Task
      req.Analysis req.Constraints).1 k 1 (GenVars.init client)
    rw [htr] at hev
    simp only [GenVars.init, List.nil_append] at hev
    have := hat ev hev
    omega

/-- The result of `Client.Complete` when the port answers the first call: one call, no
wait, and the response handed back. -/
theorem Client.Complete_first_try (c : Client) (env : Env) (creq : CompletionRequest)
    (r : PortResponse) (hretry : 1 ≤ c.retrier.maxAttempts)
    (hllm : ∀ rq, env.llm (c.portCalls + 1) rq = .ok r) :
    (c.Complete env creq).2.1
        = .ok { Content := r.Content, Model := r.Model, TokensUsed := r.TotalTokens,
                FinishReason := r.FinishReason } ∧
    (c.Complete env creq).1.portCalls = c.portCalls + 1 ∧
    (c.Complete env creq).1.retrier = c.retrier ∧
    (c.Complete env creq).2.2 = [.call 1] := by
  obtain ⟨m, hm⟩ : ∃ m, c.retrier.maxAttempts.toNat = m + 1 :=
    ⟨c.retrier.maxAttempts.toNat - 1, by omega⟩
  have hfn : c.completeFn env creq ⟨none, c.portCalls⟩
      = (⟨some { Content := r.Content, Model := r.Model, TokensUsed := r.TotalTokens,
                 FinishReason := r.FinishReason }, c.portCalls + 1⟩, none) := by
    simp [Client.completeFn, Client.doComplete, hllm]
  simp [Client.Complete, Retrier.Do, hm, Retrier.loop, hfn]

/-- One run of the closure of `Generate` when the port answers the first
call with `r`, on attempt 1 or with a log that is not empty: the outcome by
what `Extract` and the validator say of the content of `r`. -/
theorem Generator.attemptFn_response (g : Generator) (env : Env) (req : GenerateRequest)
    (prompt : Str) (a : Nat) (v : GenVars) (r : PortResponse)
    (hlog : a = 1 ∨ v.validationLogs ≠ [])
    (hretry : 1 ≤ v.client.retrier.maxAttempts)
    (hllm : ∀ rq, env.llm (v.client.portCalls + 1) rq = .ok r) :
    (g.attemptFn env req prompt a v).1.client.portCalls = v.client.portCalls + 1 ∧
    (g.attemptFn env req prompt a v).1.client.retrier = v.client.retrier ∧
    (∀ e, Extract env.unmarshal r.Content = .error e →
      (g.attemptFn env req prompt a v).2 = .err e ∧
      (g.attemptFn env req prompt a v).1.validationLogs
        = v.validationLogs ++ ["Extraction error: ".toList ++ e.Error] ∧
      (g.attemptFn env req prompt a v).1.graphJSON = v.graphJSON ∧
      (g.attemptFn env req prompt a v).1.reasoning = v.reasoning) ∧
    (∀ j t, Extract env.unmarshal r.Content = .ok (j, t) →
      (g.attemptFn env req prompt a v).1.graphJSON = j ∧
      (g.attemptFn env req prompt a v).1.reasoning = t ∧
      (∀ e, env.ValidateGraph j = some e →
        (g.attemptFn env req prompt a v).2 = .err e ∧
        (g.attemptFn env req prompt a v).1.validationLogs
          = v.validationLogs ++ ["Validation failed: ".toList ++ e.Error]) ∧
      (env.ValidateGraph j = none →
        (g.attemptFn env req prompt a v).2 = .nil ∧
        (g.attemptFn env req prompt a v).1.validationLogs
          = v.validationLogs ++ ["Validation successful".toList])) := by
  have hb : ∃ v1 creq, g.buildRequest req prompt a { v with iteration := a } = (v1, .ok creq) ∧
      v1.client = v.client ∧ v1.validationLogs = v.validationLogs ∧
      v1.graphJSON = v.graphJSON ∧ v1.reasoning = v.reasoning := by
    unfold Generator.buildRequest
    by_cases ha : a = 1
    · simp [ha]
    · have hne : v.validationLogs ≠ [] := hlog.resolve_left ha
      obtain ⟨last, hlast⟩ : ∃ last, v.validationLogs.getLast? = some last := by
        cases hl : v.validationLogs.getLast? with
        | none => exact absurd (List.getLast?_eq_none_iff.mp hl) hne
        | some last => exact ⟨last, rfl⟩
      simp [ha, hlast, Prompter.BuildErrorFixingPrompt]
  obtain ⟨v1, creq, hbuild, hc, hl, hg, hr⟩ := hb
  obtain ⟨hres, hpc, hret, _⟩ := Client.Complete_first_try v1.client env creq r
    (by rw [hc]; exact hretry) (by rw [hc]; exact hllm)
  have hfn : g.attemptFn env req prompt a v = Generator.callModel env a v1 creq := by
    simp only [Generator.attemptFn, hbuild]
  rw [hfn]
  unfold Generator.callModel
  dsimp only
  rw [hres]
  rw [hc] at hpc hret
  dsimp only
  unfold Generator.handleResponse
  dsimp only
  refine ⟨?_, ?_, ?_, ?_⟩
  · split
    · simp [hpc, hc]
    · split <;> simp [hpc, hc]
  · split
    · simp [hret, hc]
    · split <;> simp [hret, hc]
  · intro e he
    rw [he]
    simp [hl, hg, hr]
  · intro j t hjt
    rw [hjt]
    dsimp only
    refine ⟨?_, ?_, ?_, ?_⟩
    · split <;> rfl
    · split <;> rfl
    · intro e he
      rw [he]
      simp [hl]
    · intro hnone
      rw [hnone]
      simp [hl]

/-- C6: with a budget of at least 3 iterations, a retrier that makes at
least one attempt and a context that is not done, when the model's first
response has no extractable JSON, its second has JSON that the validator
rejects with "edges is required", and its third has JSON that the validator
accepts (and that parses as a JSON object), `Generate` succeeds with
`Iterations = 3`, the graph and reasoning of the third response, and the log
"Extraction error: ...", "Validation failed: edges is required", "Validation
successful". -/
theorem C6_end_to_end (g : Generator) (env : Env) (client : Client) (req : GenerateRequest)
    (N : Nat) (hN : g.iterator.maxIterations = N) (h3 : 3 ≤ N)
    (hretry : 1 ≤ client.retrier.maxAttempts)
    (hctx : ∀ a, a ≤ 3 → env.ctxErr a = none)
    (r1 r2 r3 : PortResponse)
    (hr1 : ∀ rq, env.llm (client.portCalls + 1) rq = .ok r1)
    (hr2 : ∀ rq, env.llm (client.portCalls + 2) rq = .ok r2)
    (hr3 : ∀ rq, env.llm (client.portCalls + 3) rq = .ok r3)
    (e1 : GoError) (hx1 : Extract env.unmarshal r1.Content = .error e1)
    (j2 t2 : Str) (hx2 : Extract env.unmarshal r2.Content = .ok (j2, t2))
    (e2 : GoError) (hv2 : env.ValidateGraph j2 = some e2)
    (he2 : e2.Error = "edges is required".toList)
    (j3 t3 : Str) (hx3 : Extract env.unmarshal r3.Content = .ok (j3, t3))
    (hv3 : env.ValidateGraph j3 = none) (hparse : env.unmarshalMap j3 = none) :
    (g.Generate env client req).result
      = .ok { GraphJSON := j3, Reasoning := t3, Iterations := 3,
              ValidationLogs := ["Extraction error: ".toList ++ e1.Error,
                "Validation failed: edges is required".toList,
                "Validation successful".toList] } ∧
    (g.Generate env client req).calls = [1, 2, 3] := by
  generalize hP : (g.prompter.BuildPlanningPrompt req.Task req.Analysis req.Constraints).1 = P
  have hvars := (g.Generate_vars env client req).1
  have hcalls := (g.Generate_vars env client req).2
  have hres := g.Generate_result env client req
  rw [hP] at hvars hcalls hres
  -- attempt 1
  obtain ⟨hp1, hq1, hE1, _⟩ := g.attemptFn_response env req P 1 (GenVars.init client) r1
    (Or.inl rfl) hretry hr1
  obtain ⟨ho1, hl1, _, _⟩ := hE1 e1 hx1
  -- attempt 2
  obtain ⟨hp2, hq2, _, hO2⟩ := g.attemptFn_response env req P 2
    (g.attemptFn env req P 1 (GenVars.init client)).1 r2
    (Or.inr (by rw [hl1]; simp)) (by rw [hq1]; exact hretry)
    (by rw [hp1]; exact hr2)
  obtain ⟨_, _, hV2, _⟩ := hO2 j2 t2 hx2
  obtain ⟨ho2, hl2⟩ := hV2 e2 hv2
  -- attempt 3
  obtain ⟨_, _, _, hO3⟩ := g.attemptFn_response env req P 3
    (g.attemptFn env req P 2 (g.attemptFn env req P 1 (GenVars.init client)).1).1 r3
    (Or.inr (by rw [hl2]; simp)) (by rw [hq2, hq1]; exact hretry)
    (by rw [hp2, hp1]; exact hr3)
  obtain ⟨hj3, ht3, _, hS3⟩ := hO3 j3 t3 hx3
  obtain ⟨ho3, hl3⟩ := hS3 hv3
  obtain ⟨_, hi3, _⟩ := g.attemptFn_spec env req P 3
    (g.attemptFn env req P 2 (g.attemptFn env req P 1 (GenVars.init client)).1).1
  have hiter := Iterator.Iterate_stops g.iterator env.ctxErr (g.attemptFn env req P)
    (GenVars.init client) N 2 hN (by omega)
    (by
      intro i hi
      interval_cases i
      · simp [iterOutcome, iterState, ho1, CallResult.isErr]
      · simp [iterOutcome, iterState, ho2, CallResult.isErr])
    (fun i hi => hctx (1 + i) (by omega))
    (by simp [iterOutcome, iterState, ho3, CallResult.isErr])
  simp only [iterOutcome, iterState, Nat.reduceAdd, ho3] at hiter
  rw [hiter] at hvars hcalls hres
  simp only at hvars hcalls hres
  refine ⟨?_, by rw [hcalls]; rfl⟩
  rw [hres, hvars]
  simp only [hj3, ht3, hi3, hl3, hl2, hl1, he2, ParseGraph, hparse]
  rfl

/-- C6 at the concrete session of the scenario. -/
theorem C6_end_to_end_witness :
    (Extract scenarioEnv.unmarshal scenarioReply1.Content
        = .error (.leaf "no JSON found in response".toList) ∧
      Extract scenarioEnv.unmarshal scenarioReply2.Content = .ok (scenarioGraph2, []) ∧
      scenarioEnv.ValidateGraph scenarioGraph2 = some (.leaf "edges is required".toList) ∧
      Extract scenarioEnv.unmarshal scenarioReply3.Content = .ok (scenarioGraph3, []) ∧
      scenarioEnv.ValidateGraph scenarioGraph3 = none) ∧
    (scenarioGenerator.Generate scenarioEnv scenarioClient scenarioRequest).result
      = .ok { GraphJSON := scenarioGraph3, Reasoning := [], Iterations := 3,
              ValidationLogs := ["Extraction error: no JSON found in response".toList,
                "Validation failed: edges is required".toList,
                "Validation successful".toList] } ∧
    (scenarioGenerator.Generate scenarioEnv scenarioClient scenarioRequest).calls = [1, 2, 3] :=
  ⟨⟨by rfl, by rfl, by rfl, by rfl, by rfl⟩,
   C6_end_to_end scenarioGenerator scenarioEnv scenarioClient scenarioRequest 3 rfl (by omega)
    (by decide) (fun _ _ => rfl) scenarioReply1 scenarioReply2 scenarioReply3
    (fun _ => rfl) (fun _ => rfl) (fun _ => rfl)
    (.leaf "no JSON found in response".toList) (by rfl)
    scenarioGraph2 [] (by rfl) (.leaf "edges is required".toList) (by rfl) (by rfl)
    scenarioGraph3 [] (by rfl) (by rfl) (by rfl)⟩

/-- C5 at the concrete session of the scenario, where validation first passes
at attempt 3. -/
theorem C5_success_at_first_pass_witness :
    ((∀ i, i < 3 - 1 →
        (iterOutcome (scenarioGenerator.attemptFn scenarioEnv scenarioRequest
          (scenarioGenerator.prompter.BuildPlanningPrompt scenarioRequest.Task
            scenarioRequest.Analysis scenarioRequest.Constraints).1) i 1
          (GenVars.init scenarioClient)).isErr = true) ∧
      iterOutcome (scenarioGenerator.attemptFn scenarioEnv scenarioRequest
          (scenarioGenerator.prompter.BuildPlanningPrompt scenarioRequest.Task
            scenarioRequest.Analysis scenarioRequest.Constraints).1) (3 - 1) 1
          (GenVars.init scenarioClient) = .nil) ∧
    ∃ content json reasoning,
      GenEvent.response 3 content
        ∈ (scenarioGenerator.Generate scenarioEnv scenarioClient scenarioRequest).vars.trace ∧
      Extract scenarioEnv.unmarshal content = .ok (json, reasoning) ∧
      scenarioEnv.ValidateGraph json = none ∧
      (scenarioGenerator.Generate scenarioEnv scenarioClient scenarioRequest).result
        = .ok { GraphJSON := json, Reasoning := reasoning, Iterations := 3,
                ValidationLogs := (scenarioGenerator.Generate scenarioEnv scenarioClient
                  scenarioRequest).vars.validationLogs } ∧
      (scenarioGenerator.Generate scenarioEnv scenarioClient scenarioRequest).calls
        = List.range' 1 3 ∧
      ∀ ev ∈ (scenarioGenerator.Generate scenarioEnv scenarioClient scenarioRequest).vars.trace,
        ev.attempt ≤ 3 :=
  ⟨⟨by decide, by rfl⟩,
   C5_success_at_first_pass scenarioGenerator scenarioEnv scenarioClient scenarioRequest 3 3
    rfl (by omega) (by omega) (fun _ _ => rfl) (by decide) (by rfl)
    (fun j hj => by
      by_cases h : j = scenarioGraph3
      · subst h; rfl
      · simp [scenarioEnv, h] at hj)⟩

/-- A relation that every call of the iteration function respects, and that
is reflexive and transitive, holds between the state `Iterator.loop` starts
from and the state it ends in. -/
theorem Iterator.loop_preserves {σ : Type} (it : Iterator) (ctxErr : Nat → Option GoError)
    (fn : Nat → σ → σ × CallResult) (R : σ → σ → Prop) (hrefl : ∀ s, R s s)
    (htrans : ∀ a b c, R a b → R b c → R a c) (hstep : ∀ a s, R s (fn a s).1) (rem : Nat) :
    ∀ (attempt : Nat) (lastErr : Option GoError) (s : σ) (calls : List Nat),
      R s (Iterator.loop it ctxErr fn rem attempt lastErr s calls).state := by
  induction rem with
  | zero => intro attempt lastErr s calls; exact hrefl s
  | succ rem ih =>
    intro attempt lastErr s calls
    unfold Iterator.loop
    cases hc : ctxErr attempt with
    | some e => exact hrefl s
    | none =>
      have h1 := hstep attempt s
      rcases hf : fn attempt s with ⟨s1, o⟩
      rw [hf] at h1
      cases o with
      | nil => exact h1
      | panic msg => exact h1
      | err e =>
        by_cases hge : (attempt : Int) ≥ it.maxIterations
        · simp only [hge, if_true]; exact h1
        · simp only [hge, if_false]
          exact htrans _ _ _ h1 (ih (attempt + 1) (some e) s1 (calls ++ [attempt]))

/-- The request of an attempt after the first, when the log is not empty. -/
theorem Generator.buildRequest_fix (g : Generator) (req : GenerateRequest) (prompt : Str)
    (a : Nat) (v : GenVars) (ha : a ≠ 1) (hlog : v.validationLogs ≠ []) :
    ∃ v1 creq, g.buildRequest req prompt a v = (v1, .ok creq) := by
  obtain ⟨last, hlast⟩ : ∃ last, v.validationLogs.getLast? = some last := by
    cases hl : v.validationLogs.getLast? with
    | none => exact absurd (List.getLast?_eq_none_iff.mp hl) hlog
    | some last => exact ⟨last, rfl⟩
  simp [Generator.buildRequest, ha, hlast, Prompter.BuildErrorFixingPrompt]

/-- The closure of `Generate` when `Client.Complete` fails: it returns the
error wrapped as "LLM request failed: ", and logs nothing. -/
theorem Generator.attemptFn_model_failure (g : Generator) (env : Env) (req : GenerateRequest)
    (prompt : Str) (a : Nat) (v v1 : GenVars) (creq : CompletionRequest) (llmErr : GoError)
    (hbuild : g.buildRequest req prompt a { v with iteration := a } = (v1, .ok creq))
    (hcomplete : (v1.client.Complete env creq).2.1 = .error llmErr) :
    (g.attemptFn env req prompt a v).2 = .err (.wrap "LLM request failed: ".toList llmErr) ∧
    (g.attemptFn env req prompt a v).1.validationLogs = v.validationLogs := by
  have hl := g.buildRequest_log req prompt a { v with iteration := a }
  rw [hbuild] at hl
  simp only [Generator.attemptFn, hbuild, Generator.callModel, hcomplete]
  exact ⟨trivial, hl⟩

/-- C10 (as amended): a model-call failure at attempt `n` does not end the
session.  The closure returns it as an ordinary error, "LLM request failed:
..." around the error of `Client.Complete`, and logs nothing; `Iterate`
treats it like any other error, so for `n < maxIterations` (the earlier
attempts having returned errors and the context not being done) attempt
`n + 1` is started, and when the log is not empty the model is called again
in that attempt. -/
theorem C10_model_failure_is_retried (g : Generator) (env : Env) (client : Client)
    (req : GenerateRequest) (N n : Nat)
    (hN : g.iterator.maxIterations = N) (hn1 : 1 ≤ n) (hnN : n < N)
    (hctx : ∀ i, i ≤ n → env.ctxErr (1 + i) = none)
    (hprev : ∀ i, i < n - 1 →
      (iterOutcome (g.attemptFn env req (g.prompter.BuildPlanningPrompt req.Task req.Analysis
        req.Constraints).1) i 1 (GenVars.init client)).isErr = true)
    (llmErr : GoError)
    (hmodel : ∃ v1 creq, g.buildRequest req (g.prompter.BuildPlanningPrompt req.Task
        req.Analysis req.Constraints).1 n
        { iterState (g.attemptFn env req (g.prompter.BuildPlanningPrompt req.Task req.Analysis
            req.Constraints).1) (n - 1) 1 (GenVars.init client) with iteration := n }
      = (v1, .ok creq) ∧ (v1.client.Complete env creq).2.1 = .error llmErr) :
    iterOutcome (g.attemptFn env req (g.prompter.BuildPlanningPrompt req.Task req.Analysis
        req.Constraints).1) (n - 1) 1 (GenVars.init client)
      = .err (.wrap "LLM request failed: ".toList llmErr) ∧
    (iterState (g.attemptFn env req (g.prompter.BuildPlanningPrompt req.Task req.Analysis
        req.Constraints).1) n 1 (GenVars.init client)).validationLogs
      = (iterState (g.attemptFn env req (g.prompter.BuildPlanningPrompt req.Task req.Analysis
          req.Constraints).1) (n - 1) 1 (GenVars.init client)).validationLogs ∧
    (n + 1) ∈ (g.Generate env client req).calls ∧
    ((iterState (g.attemptFn env req (g.prompter.BuildPlanningPrompt req.Task req.Analysis
        req.Constraints).1) (n - 1) 1 (GenVars.init client)).validationLogs ≠ [] →
      ∃ creq1, GenEvent.complete (n + 1) creq1 ∈ (g.Generate env client req).vars.trace) := by
  obtain ⟨v1, creq, hbuild, hcomplete⟩ := hmodel
  generalize hP : (g.prompter.BuildPlanningPrompt req.Task req.Analysis req.Constraints).1 = P
    at hprev hbuild ⊢
  have hvars := (g.Generate_vars env client req).1
  have hcalls := (g.Generate_vars env client req).2
  rw [hP] at hvars hcalls
  have hn2 : 1 + (n - 1) = n := by omega
  have hn3 : n - 1 + 1 = n := by omega
  obtain ⟨hout, hlogs⟩ := g.attemptFn_model_failure env req P n
    (iterState (g.attemptFn env req P) (n - 1) 1 (GenVars.init client)) v1 creq llmErr
    hbuild hcomplete
  have hst := iterState_succ_eq (g.attemptFn env req P) (n - 1) 1 (GenVars.init client)
  rw [hn2, hn3] at hst
  have hout' : iterOutcome (g.attemptFn env req P) (n - 1) 1 (GenVars.init client)
      = .err (.wrap "LLM request failed: ".toList llmErr) := by
    simp only [iterOutcome, hn2]; exact hout
  have hfail : ∀ i, i < n →
      (iterOutcome (g.attemptFn env req P) i 1 (GenVars.init client)).isErr = true := by
    intro i hi
    by_cases h : i < n - 1
    · exact hprev i h
    · have : i = n - 1 := by omega
      rw [this, hout']; rfl
  obtain ⟨le1, hloop⟩ := Iterator.loop_failed g.iterator env.ctxErr (g.attemptFn env req P) n N 1
    none (GenVars.init client) [] hnN (by rw [hN]; push_cast; omega) hfail
    (fun i hi => hctx i (by omega))
  obtain ⟨m, hm⟩ : ∃ m, N - n = m + 1 := ⟨N - n - 1, by omega⟩
  have hrun : g.iterator.Iterate env.ctxErr (g.attemptFn env req P) (GenVars.init client)
      = Iterator.loop g.iterator env.ctxErr (g.attemptFn env req P) (m + 1) (1 + n) le1
          (iterState (g.attemptFn env req P) n 1 (GenVars.init client))
          ([] ++ List.range' 1 n) := by
    simp only [Iterator.Iterate, hN, Int.toNat_ofNat]
    rw [hloop, hm]
  have hcn : env.ctxErr (1 + n) = none := hctx n (le_refl n)
  refine ⟨hout', by rw [hst]; exact hlogs, ?_, ?_⟩
  · rw [hcalls, hrun, Iterator.loop, hcn]
    rcases hf : g.attemptFn env req P (1 + n)
      (iterState (g.attemptFn env req P) n 1 (GenVars.init client)) with ⟨s1, o⟩
    cases o with
    | nil => simp [Nat.add_comm]
    | panic msg => simp [Nat.add_comm]
    | err e =>
      dsimp only
      split
      · simp [Nat.add_comm]
      · obtain ⟨k, _, hk⟩ := Iterator.loop_calls g.iterator env.ctxErr (g.attemptFn env req P) m
          (1 + n + 1) (some e) s1 ([] ++ List.range' 1 n ++ [1 + n])
        rw [hk]
        simp [Nat.add_comm]
  · intro hne
    rw [← hlogs, ← hst] at hne
    obtain ⟨w1, creq1, hb1⟩ := g.buildRequest_fix req P (1 + n)
      { iterState (g.attemptFn env req P) n 1 (GenVars.init client) with
        iteration := ((1 + n : Nat) : Int) } (by omega) hne
    obtain ⟨⟨evs, htr, _⟩, _, _⟩ := Generator.callModel_spec env (1 + n) w1 creq1
    have hfn : g.attemptFn env req P (1 + n)
        (iterState (g.attemptFn env req P) n 1 (GenVars.init client))
        = Generator.callModel env (1 + n) w1 creq1 := by
      simp only [Generator.attemptFn, hb1]
    have hpre : ∀ (rem a : Nat) (le2 : Option GoError) (s : GenVars) (cs : List Nat),
        s.trace <+: (Iterator.loop g.iterator env.ctxErr (g.attemptFn env req P) rem a le2 s
          cs).state.trace :=
      Iterator.loop_preserves g.iterator env.ctxErr (g.attemptFn env req P)
        (fun s t => s.trace <+: t.trace) (fun s => List.prefix_refl _)
        (fun a b c hab hbc => List.IsPrefix.trans hab hbc)
        (fun a s => by
          obtain ⟨⟨evs2, h2, _⟩, _, _⟩ := g.attemptFn_spec env req P a s
          exact ⟨evs2, h2.symm⟩)
    refine ⟨creq1, ?_⟩
    rw [hvars, hrun, Iterator.loop, hcn, hfn]
    have hmem : GenEvent.complete (n + 1) creq1
        ∈ (Generator.callModel env (1 + n) w1 creq1).1.trace := by
      rw [htr, Nat.add_comm]; simp
    rcases hcm : Generator.callModel env (1 + n) w1 creq1 with ⟨s1, o⟩
    rw [hcm] at hmem
    cases o with
    | nil => exact hmem
    | panic msg => exact hmem
    | err e =>
      dsimp only
      split
      · exact hmem
      · exact (hpre m (1 + n + 1) (some e) s1 _).subset hmem

/-- C10 at the concrete session of the outage, where the model call of
attempt 2 fails. -/
theorem C10_model_failure_is_retried_witness :
    (iterOutcome (scenarioGenerator.attemptFn outageEnv scenarioRequest
        (scenarioGenerator.prompter.BuildPlanningPrompt scenarioRequest.Task
          scenarioRequest.Analysis scenarioRequest.Constraints).1) 0 1
        (GenVars.init outageClient)).isErr = true ∧
    iterOutcome (scenarioGenerator.attemptFn outageEnv scenarioRequest
        (scenarioGenerator.prompter.BuildPlanningPrompt scenarioRequest.Task
          scenarioRequest.Analysis scenarioRequest.Constraints).1) (2 - 1) 1
        (GenVars.init outageClient)
      = .err (.wrap "LLM request failed: ".toList outageError) ∧
    (2 + 1) ∈ (scenarioGenerator.Generate outageEnv outageClient scenarioRequest).calls :=
  have h := C10_model_failure_is_retried scenarioGenerator outageEnv outageClient
    scenarioRequest 3 2 rfl (by omega) (by omega) (fun _ _ => rfl) (by decide) outageError
    ⟨_, _, rfl, rfl⟩
  ⟨by decide, h.1, h.2.2.1⟩

/-- C10 fails as stated: in the session of the outage, with a budget of 3
iterations, the model call of attempt 2 fails by retry exhaustion, yet attempt
3 is started, the model is called again (a fourth call of the port), and the
session ends in success with `Iterations = 3`. -/
theorem C10_session_survives_model_failure :
    iterOutcome (scenarioGenerator.attemptFn outageEnv scenarioRequest
        (scenarioGenerator.prompter.BuildPlanningPrompt scenarioRequest.Task
          scenarioRequest.Analysis scenarioRequest.Constraints).1) 1 1
        (GenVars.init outageClient)
      = .err (.wrap "LLM request failed: ".toList outageError) ∧
    (scenarioGenerator.Generate outageEnv outageClient scenarioRequest).calls = [1, 2, 3] ∧
    (scenarioGenerator.Generate outageEnv outageClient scenarioRequest).vars.client.portCalls
      = 4 ∧
    (scenarioGenerator.Generate outageEnv outageClient scenarioRequest).result
      = .ok { GraphJSON := scenarioGraph3, Reasoning := [], Iterations := 3,
              ValidationLogs := ["Validation failed: edges is required".toList,
                "Validation successful".toList] } := by
  refine ⟨?_, ?_, ?_, ?_⟩ <;> rfl

/-! ## Exhaustion of the budget -/

/-- The run of `Iterate` when every one of its `N ≥ 1` calls returns an
error and the context is not done: it returns "max iterations (N) exceeded"
around the error of call `N`. -/
theorem Iterator.Iterate_exhausted {σ : Type} (it : Iterator) (ctxErr : Nat → Option GoError)
    (fn : Nat → σ → σ × CallResult) (s : σ) (N : Nat) (hit : it.maxIterations = N)
    (hN : 1 ≤ N)
    (hfail : ∀ i, i < N → (iterOutcome fn i 1 s).isErr = true)
    (hctx : ∀ i, i < N → ctxErr (1 + i) = none) :
    ∃ e, iterOutcome fn (N - 1) 1 s = .err e ∧
      it.Iterate ctxErr fn s
        = ⟨.err (it.exceeded (some e)), iterState fn N 1 s, List.range' 1 N⟩ := by
  obtain ⟨j, rfl⟩ : ∃ j, N = j + 1 := ⟨N - 1, by omega⟩
  obtain ⟨le1, h⟩ := Iterator.loop_failed it ctxErr fn j (j + 1) 1 none s [] (by omega)
    (by rw [hit]; push_cast; omega) (fun i hi => hfail i (by omega))
    (fun i hi => hctx i (by omega))
  have hlast := hfail j (by omega)
  have hst := iterState_succ_eq fn j 1 s
  simp only [Iterator.Iterate, hit, Int.toNat_ofNat, Nat.add_sub_cancel]
  have e1 : j + 1 - j = 1 := by omega
  rw [h, e1, Iterator.loop, hctx j (by omega)]
  simp only [iterOutcome] at hlast ⊢
  rcases hf : fn (1 + j) (iterState fn j 1 s) with ⟨s1, o⟩
  rw [hf] at hlast hst
  cases o with
  | nil => simp [CallResult.isErr] at hlast
  | panic msg => simp [CallResult.isErr] at hlast
  | err e =>
    have hge : ((1 + j : Nat) : Int) ≥ it.maxIterations := by rw [hit]; push_cast; omega
    refine ⟨e, rfl, ?_⟩
    simp only [hge, if_true]
    simp [hst, List.range'_concat]
/-- The variable `iteration` after `j + 1` runs of the closure of `Generate`
is the number of the last attempt. -/
theorem Generator.iterState_iteration (g : Generator) (env : Env) (req : GenerateRequest)
    (prompt : Str) (j a : Nat) (v : GenVars) :
    (iterState (g.attemptFn env req prompt) (j + 1) a v).iteration = ((a + j : Nat) : Int) := by
  rw [iterState_succ_eq]
  exact (g.attemptFn_spec env req prompt (a + j) _).2.1

/-- C12: for every budget `N ≥ 1`, when all `N` calls of the iteration
function return errors and the context is never done, `Iterate` makes the
calls `1..N` and returns the error "max iterations (N) exceeded: " wrapping
exactly the error of call `N`; and when the closure of `Generate` fails so,
`Generate` returns "graph generation failed after N iterations: " wrapping
that same error of `Iterate`. -/
theorem C12_exhaustion_wraps_last_error {σ : Type} (N : Nat) (hN : 1 ≤ N)
    (it : Iterator) (hit : it.maxIterations = N) (ctxErr : Nat → Option GoError)
    (hctx : ∀ a, ctxErr a = none) (fn : Nat → σ → σ × CallResult) (s : σ)
    (hfail : ∀ i, i < N → (iterOutcome fn i 1 s).isErr = true)
    (g : Generator) (env : Env) (client : Client) (req : GenerateRequest)
    (hg : g.iterator.maxIterations = N) (henv : ∀ a, env.ctxErr a = none)
    (hfailG : ∀ i, i < N →
      (iterOutcome (g.attemptFn env req (g.prompter.BuildPlanningPrompt req.Task req.Analysis
        req.Constraints).1) i 1 (GenVars.init client)).isErr = true) :
    (∃ e, iterOutcome fn (N - 1) 1 s = .err e ∧
      (it.Iterate ctxErr fn s).result
        = .err (.wrap ("max iterations (".toList ++ fmtInt N ++ ") exceeded: ".toList) e) ∧
      (it.Iterate ctxErr fn s).calls = List.range' 1 N) ∧
    (∃ e, iterOutcome (g.attemptFn env req (g.prompter.BuildPlanningPrompt req.Task
          req.Analysis req.Constraints).1) (N - 1) 1 (GenVars.init client) = .err e ∧
      (g.Generate env client req).result
        = .error (.wrap ("graph generation failed after ".toList ++ fmtInt N ++
            " iterations: ".toList)
          (.wrap ("max iterations (".toList ++ fmtInt N ++ ") exceeded: ".toList) e))) := by
  constructor
  · obtain ⟨e, he, hrun⟩ := Iterator.Iterate_exhausted it ctxErr fn s N hit hN hfail
      (fun i _ => hctx (1 + i))
    refine ⟨e, he, ?_, ?_⟩
    · rw [hrun]; simp [Iterator.exceeded, errorfW, hit]
    · rw [hrun]
  · obtain ⟨e, he, hrun⟩ := Iterator.Iterate_exhausted g.iterator env.ctxErr
      (g.attemptFn env req (g.prompter.BuildPlanningPrompt req.Task req.Analysis
        req.Constraints).1) (GenVars.init client) N hg hN hfailG (fun i _ => henv (1 + i))
    refine ⟨e, he, ?_⟩
    obtain ⟨j, rfl⟩ : ∃ j, N = j + 1 := ⟨N - 1, by omega⟩
    have hv := (g.Generate_vars env client req).1
    rw [hrun] at hv
    have hiter : (g.Generate env client req).vars.iteration = ((j + 1 : Nat) : Int) := by
      rw [hv]
      have := g.iterState_iteration env req (g.prompter.BuildPlanningPrompt req.Task
        req.Analysis req.Constraints).1 j 1 (GenVars.init client)
      rw [this]; congr 1; omega
    rw [g.Generate_result env client req, hrun, hiter]
    simp [Iterator.exceeded, errorfW, hg]

/-- A witness of C12: a budget of two, a function that fails with the number
of its attempt, and the scenario with a budget of two iterations. -/
theorem C12_exhaustion_wraps_last_error_witness :
    (∃ e, iterOutcome failWithAttempt (2 - 1) 1 0 = .err e ∧
      (Iterator.Iterate ⟨2⟩ (fun _ => none) failWithAttempt 0).result
        = .err (.wrap ("max iterations (".toList ++ fmtInt (2 : Nat) ++ ") exceeded: ".toList) e) ∧
      (Iterator.Iterate ⟨2⟩ (fun _ => none) failWithAttempt 0).calls = List.range' 1 2) ∧
    (∃ e, iterOutcome (shortGenerator.attemptFn scenarioEnv scenarioRequest
          (shortGenerator.prompter.BuildPlanningPrompt scenarioRequest.Task
            scenarioRequest.Analysis scenarioRequest.Constraints).1) (2 - 1) 1
          (GenVars.init scenarioClient) = .err e ∧
      (shortGenerator.Generate scenarioEnv scenarioClient scenarioRequest).result
        = .error (.wrap ("graph generation failed after ".toList ++ fmtInt (2 : Nat) ++
            " iterations: ".toList)
          (.wrap ("max iterations (".toList ++ fmtInt (2 : Nat) ++ ") exceeded: ".toList) e))) :=
  C12_exhaustion_wraps_last_error 2 (by decide) ⟨2⟩ rfl (fun _ => none) (fun _ => rfl)
    failWithAttempt 0 (by decide) shortGenerator scenarioEnv scenarioClient scenarioRequest rfl
    (fun _ => rfl) (by decide)

/-! ## What a failure of `Generate` carries -/

/-- The method `Service.Plan` when the analysis is skipped: it runs `Generate`
on the task and the constraints of the request with the client as it is, and
wraps the error of a failed run. -/
theorem Service.Plan_skip_error (s : Service) (env : Env)
    (unmarshalResult : Str → Except GoError AnalysisResult) (planID analysisID : Str)
    (client : Client) (preq : PlanRequest) (hskip : preq.SkipAnalysis = true) (E : GoError)
    (hE : (s.generator.Generate env client
      { Task := preq.Task, Analysis := none, Constraints := preq.Constraints }).result
        = .error E) :
    (s.Plan env unmarshalResult planID analysisID client preq).result
      = .error (.wrap "graph generation failed: ".toList E) := by
  simp only [Service.Plan, hskip, Bool.not_true, Bool.false_and, Bool.false_eq_true, if_false, hE]

/-- The failure of `Service.Plan` after a failed run of `Generate`: the error
of that run wrapped as "graph generation failed: ", whether or not the
analysis was made. -/
theorem Service.Plan_error (s : Service) (env : Env)
    (unmarshalResult : Str → Except GoError AnalysisResult) (planID analysisID : Str)
    (client : Client) (preq : PlanRequest) (run : GenerateRun) (E : GoError)
    (hrun : (s.Plan env unmarshalResult planID analysisID client preq).generate = some run)
    (hE : run.result = .error E) :
    (s.Plan env unmarshalResult planID analysisID client preq).result
      = .error (.wrap "graph generation failed: ".toList E) := by
  unfold Service.Plan at hrun ⊢
  dsimp only at hrun ⊢
  split at hrun
  · cases hrun
  · cases hrun
  · split at hrun
    · rename_i _ _ _ _ h2
      have h := Option.some.inj hrun
      rw [h, hE] at h2
      cases h2
    · rename_i _ _ _ err h2
      have h := Option.some.inj hrun
      rw [h, hE] at h2
      cases h2
      rfl
    · rename_i _ _ _ _ h2
      have h := Option.some.inj hrun
      rw [h, hE] at h2
      cases h2

/-- C11 (as amended): when the budget of `N ≥ 1` iterations is used up, every
attempt having failed and the context not being done, `Generate` returns no
response but an error, whose text is "graph generation failed after N
iterations: max iterations (N) exceeded: " followed by the text of the error
of the last attempt and nothing else; `Plan` (the analysis being skipped)
returns that error wrapped as "graph generation failed: ", as it does with
the error of any failed run of `Generate`, with or without analysis.  Of the
log, only what the last attempt's error says is in the returned value. -/
theorem C11_failure_carries_last_error_only (N : Nat) (hN : 1 ≤ N)
    (s : Service) (env : Env) (unmarshalResult : Str → Except GoError AnalysisResult)
    (planID analysisID : Str) (client : Client) (preq : PlanRequest)
    (hs : s.generator.iterator.maxIterations = N) (henv : ∀ a, env.ctxErr a = none)
    (hskip : preq.SkipAnalysis = true)
    (hfail : ∀ i, i < N →
      (iterOutcome (s.generator.attemptFn env
        { Task := preq.Task, Analysis := none, Constraints := preq.Constraints }
        (s.generator.prompter.BuildPlanningPrompt preq.Task none preq.Constraints).1) i 1
        (GenVars.init client)).isErr = true) :
    ∃ e E, iterOutcome (s.generator.attemptFn env
        { Task := preq.Task, Analysis := none, Constraints := preq.Constraints }
        (s.generator.prompter.BuildPlanningPrompt preq.Task none preq.Constraints).1) (N - 1) 1
        (GenVars.init client) = .err e ∧
      (s.generator.Generate env client
        { Task := preq.Task, Analysis := none, Constraints := preq.Constraints }).result
        = .error E ∧
      E.Error = "graph generation failed after ".toList ++ fmtInt N ++
        " iterations: max iterations (".toList ++ fmtInt N ++ ") exceeded: ".toList ++ e.Error ∧
      (s.Plan env unmarshalResult planID analysisID client preq).result
        = .error (.wrap "graph generation failed: ".toList E) ∧
      (GoError.wrap "graph generation failed: ".toList E).Error
        = "graph generation failed: graph generation failed after ".toList ++ fmtInt N ++
          " iterations: max iterations (".toList ++ fmtInt N ++ ") exceeded: ".toList ++
          e.Error ∧
      ∀ (c : Client) (preq2 : PlanRequest) (run : GenerateRun) (E2 : GoError),
        (s.Plan env unmarshalResult planID analysisID c preq2).generate = some run →
        run.result = .error E2 →
        (s.Plan env unmarshalResult planID analysisID c preq2).result
          = .error (.wrap "graph generation failed: ".toList E2) := by
  obtain ⟨e, he, hrun⟩ := Iterator.Iterate_exhausted s.generator.iterator env.ctxErr
    (s.generator.attemptFn env
      { Task := preq.Task, Analysis := none, Constraints := preq.Constraints }
      (s.generator.prompter.BuildPlanningPrompt preq.Task none preq.Constraints).1)
    (GenVars.init client) N hs hN hfail (fun i _ => henv (1 + i))
  obtain ⟨j, rfl⟩ : ∃ j, N = j + 1 := ⟨N - 1, by omega⟩
  have hv := (s.generator.Generate_vars env client
    { Task := preq.Task, Analysis := none, Constraints := preq.Constraints }).1
  rw [hrun] at hv
  have hiter : (s.generator.Generate env client
      { Task := preq.Task, Analysis := none, Constraints := preq.Constraints }).vars.iteration
        = ((j + 1 : Nat) : Int) := by
    rw [hv]
    have := s.generator.iterState_iteration env
      { Task := preq.Task, Analysis := none, Constraints := preq.Constraints }
      (s.generator.prompter.BuildPlanningPrompt preq.Task none preq.Constraints).1 j 1
      (GenVars.init client)
    rw [this]; congr 1; omega
  have hres := s.generator.Generate_result env client
    { Task := preq.Task, Analysis := none, Constraints := preq.Constraints }
  rw [hrun, hiter] at hres
  simp only at hres
  refine ⟨e, _, he, hres, ?_, Service.Plan_skip_error s env unmarshalResult planID analysisID
    client preq hskip _ hres, ?_, ?_⟩
  · simp [GoError.Error, Iterator.exceeded, errorfW, hs]
  · simp [GoError.Error, Iterator.exceeded, errorfW, hs]
  · intro c preq2 run E2 hrun hE2
    exact Service.Plan_error s env unmarshalResult planID analysisID c preq2 run E2 hrun hE2

/-- A witness of C11: the scenario with a budget of two iterations, through
`Plan`. -/
theorem C11_failure_carries_last_error_only_witness :
    ∃ e E, iterOutcome (scenarioService.generator.attemptFn scenarioEnv
        { Task := scenarioPlanRequest.Task, Analysis := none,
          Constraints := scenarioPlanRequest.Constraints }
        (scenarioService.generator.prompter.BuildPlanningPrompt scenarioPlanRequest.Task none
          scenarioPlanRequest.Constraints).1) (2 - 1) 1
        (GenVars.init scenarioClient) = .err e ∧
      (scenarioService.generator.Generate scenarioEnv scenarioClient
        { Task := scenarioPlanRequest.Task, Analysis := none,
          Constraints := scenarioPlanRequest.Constraints }).result
        = .error E ∧
      E.Error = "graph generation failed after ".toList ++ fmtInt (2 : Nat) ++
        " iterations: max iterations (".toList ++ fmtInt (2 : Nat) ++ ") exceeded: ".toList ++
        e.Error ∧
      (scenarioService.Plan scenarioEnv (decodeOnly []) "plan-1".toList "analysis-1".toList
          scenarioClient scenarioPlanRequest).result
        = .error (.wrap "graph generation failed: ".toList E) ∧
      (GoError.wrap "graph generation failed: ".toList E).Error
        = "graph generation failed: graph generation failed after ".toList ++
          fmtInt (2 : Nat) ++ " iterations: max iterations (".toList ++ fmtInt (2 : Nat) ++
          ") exceeded: ".toList ++ e.Error ∧
      ∀ (c : Client) (preq2 : PlanRequest) (run : GenerateRun) (E2 : GoError),
        (scenarioService.Plan scenarioEnv (decodeOnly []) "plan-1".toList "analysis-1".toList
          c preq2).generate = some run →
        run.result = .error E2 →
        (scenarioService.Plan scenarioEnv (decodeOnly []) "plan-1".toList "analysis-1".toList
          c preq2).result = .error (.wrap "graph generation failed: ".toList E2) :=
  C11_failure_carries_last_error_only 2 (by decide) scenarioService scenarioEnv (decodeOnly [])
    "plan-1".toList "analysis-1".toList scenarioClient scenarioPlanRequest rfl (fun _ => rfl) rfl
    (by decide)

set_option maxRecDepth 100000 in
/-- C11 refuted as stated: in the scenario with a budget of two iterations
the log has two messages, the first being the extraction failure of attempt
1, while the error that `Generate` returns, and the one `Plan` returns, say
only what failed in attempt 2: the message of attempt 1 is not in them. -/
theorem C11_first_message_not_in_failure :
    (shortGenerator.Generate scenarioEnv scenarioClient scenarioRequest).vars.validationLogs
      = ["Extraction error: no JSON found in response".toList,
         "Validation failed: edges is required".toList] ∧
    (∃ E, (shortGenerator.Generate scenarioEnv scenarioClient scenarioRequest).result = .error E ∧
      E.Error = ("graph generation failed after 2 iterations: " ++
        "max iterations (2) exceeded: edges is required").toList ∧
      E.Unwrap = some (.wrap "max iterations (2) exceeded: ".toList
        (.leaf "edges is required".toList)) ∧
      ¬ ("no JSON found in response".toList <:+: E.Error)) ∧
    (∃ E, (scenarioService.Plan scenarioEnv (decodeOnly []) "plan-1".toList "analysis-1".toList
        scenarioClient scenarioPlanRequest).result = .error E ∧
      E.Error = ("graph generation failed: graph generation failed after 2 iterations: " ++
        "max iterations (2) exceeded: edges is required").toList ∧
      ¬ ("no JSON found in response".toList <:+: E.Error)) := by
  refine ⟨by decide, ⟨_, rfl, rfl, rfl, by decide⟩, ⟨_, rfl, rfl, by decide⟩⟩

/-! ## Cancellation of a session -/

/-- An error that wraps another is not that other. -/
theorem GoError.wrap_ne (pre : Str) (e : GoError) : GoError.wrap pre e ≠ e := by
  intro h
  have := congrArg sizeOf h
  simp at this

/-- The run of `Iterate` when the check at the top of iteration `a` finds the
context done, the earlier calls having returned errors: it returns
`ctx.Err()` itself and does not call the function at iteration `a`. -/
theorem Iterator.Iterate_cancelled {σ : Type} (it : Iterator) (ctxErr : Nat → Option GoError)
    (fn : Nat → σ → σ × CallResult) (s : σ) (N a : Nat) (hit : it.maxIterations = N)
    (ha1 : 1 ≤ a) (haN : a ≤ N)
    (hfail : ∀ i, i < a - 1 → (iterOutcome fn i 1 s).isErr = true)
    (hctx : ∀ i, i < a - 1 → ctxErr (1 + i) = none)
    (e : GoError) (hdone : ctxErr a = some e) :
    it.Iterate ctxErr fn s = ⟨.err e, iterState fn (a - 1) 1 s, List.range' 1 (a - 1)⟩ := by
  obtain ⟨j, rfl⟩ : ∃ j, a = j + 1 := ⟨a - 1, by omega⟩
  simp only [Nat.add_sub_cancel] at hfail hctx ⊢
  obtain ⟨le1, h⟩ := Iterator.loop_failed it ctxErr fn j N 1 none s [] (by omega)
    (by rw [hit]; push_cast; omega) hfail hctx
  obtain ⟨m, hm⟩ : ∃ m, N - j = m + 1 := ⟨N - j - 1, by omega⟩
  have e1 : 1 + j = j + 1 := by omega
  simp only [Iterator.Iterate, hit, Int.toNat_ofNat]
  rw [h, hm, Iterator.loop, e1, hdone]
  simp

/-- C17 (as amended): when the check at the top of iteration `a ≤ N` finds
the context done (the earlier calls having returned errors of any kind, the
cancellation error included), `Iterate` returns `ctx.Err()` itself, not "max
iterations exceeded", and does not call the function at iteration `a`.  When
instead the function returns the cancellation error `c` at the last
iteration `N`, no check having found the context done, `Iterate` returns
"max iterations (N) exceeded: " wrapping `c`: an error that is not `c`, and
from which `c` is got by unwrapping. -/
theorem C17_cancellation_outcome {σ : Type} (N : Nat) (it : Iterator)
    (hit : it.maxIterations = N)
    (ctxErr : Nat → Option GoError) (fn : Nat → σ → σ × CallResult) (s : σ) (a : Nat)
    (ha1 : 1 ≤ a) (haN : a ≤ N)
    (hfail : ∀ i, i < a - 1 → (iterOutcome fn i 1 s).isErr = true)
    (hctx : ∀ i, i < a - 1 → ctxErr (1 + i) = none)
    (e : GoError) (hdone : ctxErr a = some e)
    (ctxErr2 : Nat → Option GoError) (fn2 : Nat → σ → σ × CallResult) (s2 : σ) (c : GoError)
    (hN : 1 ≤ N)
    (hfail2 : ∀ i, i < N → (iterOutcome fn2 i 1 s2).isErr = true)
    (hctx2 : ∀ i, i < N → ctxErr2 (1 + i) = none)
    (hlast : iterOutcome fn2 (N - 1) 1 s2 = .err c) :
    ((it.Iterate ctxErr fn s).result = .err e ∧
      (it.Iterate ctxErr fn s).calls = List.range' 1 (a - 1) ∧
      a ∉ (it.Iterate ctxErr fn s).calls) ∧
    ((it.Iterate ctxErr2 fn2 s2).result
        = .err (.wrap ("max iterations (".toList ++ fmtInt N ++ ") exceeded: ".toList) c) ∧
      GoError.wrap ("max iterations (".toList ++ fmtInt N ++ ") exceeded: ".toList) c ≠ c ∧
      (GoError.wrap ("max iterations (".toList ++ fmtInt N ++ ") exceeded: ".toList) c).Unwrap
        = some c) := by
  constructor
  · rw [Iterator.Iterate_cancelled it ctxErr fn s N a hit ha1 haN hfail hctx e hdone]
    refine ⟨rfl, rfl, ?_⟩
    simp only [List.mem_range'_1]
    omega
  · obtain ⟨e2, he2, hrun⟩ := Iterator.Iterate_exhausted it ctxErr2 fn2 s2 N hit hN hfail2 hctx2
    rw [hlast] at he2
    cases he2
    refine ⟨?_, GoError.wrap_ne _ _, rfl⟩
    rw [hrun]
    simp [Iterator.exceeded, errorfW, hit]

/-- A witness of C17: with a budget of two, a context found done at the top
of iteration 2, and a function that returns the cancellation error in
iteration 2. -/
theorem C17_cancellation_outcome_witness :
    ((Iterator.Iterate ⟨2⟩ (doneFrom 2) failWithAttempt 0).result = .err contextCanceled ∧
      (Iterator.Iterate ⟨2⟩ (doneFrom 2) failWithAttempt 0).calls = List.range' 1 (2 - 1) ∧
      2 ∉ (Iterator.Iterate ⟨2⟩ (doneFrom 2) failWithAttempt 0).calls) ∧
    ((Iterator.Iterate ⟨2⟩ (fun _ => none) cancelledInSecond 0).result
        = .err (.wrap ("max iterations (".toList ++ fmtInt (2 : Nat) ++ ") exceeded: ".toList)
            contextCanceled) ∧
      GoError.wrap ("max iterations (".toList ++ fmtInt (2 : Nat) ++ ") exceeded: ".toList)
        contextCanceled ≠ contextCanceled ∧
      (GoError.wrap ("max iterations (".toList ++ fmtInt (2 : Nat) ++ ") exceeded: ".toList)
        contextCanceled).Unwrap = some contextCanceled) :=
  C17_cancellation_outcome 2 ⟨2⟩ rfl (doneFrom 2) failWithAttempt 0 2 (by decide) (by decide)
    (by decide) (by decide) contextCanceled rfl (fun _ => none) cancelledInSecond 0
    contextCanceled (by decide) (by decide) (by decide) rfl

/-- C17 refuted as stated: with a budget of two and a context that no check
finds done, a function that returns the cancellation error in the last
iteration makes `Iterate` return "max iterations (2) exceeded: context
canceled", which is not the cancellation outcome. -/
theorem C17_cancelled_in_last_iteration :
    (cancelledInSecond 2 1).2 = .err contextCanceled ∧
    (Iterator.Iterate ⟨2⟩ (fun _ => none) cancelledInSecond 0).calls = [1, 2] ∧
    (Iterator.Iterate ⟨2⟩ (fun _ => none) cancelledInSecond 0).result
      = .err (.wrap "max iterations (2) exceeded: ".toList contextCanceled) ∧
    (Iterator.Iterate ⟨2⟩ (fun _ => none) cancelledInSecond 0).result ≠ .err contextCanceled ∧
    (GoError.wrap "max iterations (2) exceeded: ".toList contextCanceled).Error
      = "max iterations (2) exceeded: context canceled".toList := by
  refine ⟨rfl, rfl, rfl, by decide, rfl⟩

/-! ## The failures of `Extract` -/

/-- What the loop over the fence patterns returns is valid JSON. -/
theorem tryCodeBlocks_valid (u : Str → Option GoError) (content : Str)
    (ps : List (List Atom)) (j : Str) (h : tryCodeBlocks u content ps = some j) :
    u j = none := by
  induction ps with
  | nil => simp [tryCodeBlocks] at h
  | cons p rest ih =>
    unfold tryCodeBlocks at h
    split at h
    · dsimp only at h
      split at h
      · rename_i hv
        cases h
        simpa [isValidJSON] using hv
      · exact ih h
    · exact ih h

/-- What the "nodes" pattern step returns is valid JSON. -/
theorem tryNodes_valid (u : Str → Option GoError) (content j : Str)
    (h : tryNodes u content = some j) : u j = none := by
  unfold tryNodes at h
  split at h
  · split at h
    · rename_i hv
      cases h
      simpa [isValidJSON] using hv
    · cases h
  · cases h

/-- What the brace scan returns is empty or valid JSON. -/
theorem scanLoop_valid (u : Str → Option GoError) (content : Str) (rest : Str) :
    ∀ (i : Nat) (st : ScanState),
      scanLoop u content rest i st = [] ∨ u (scanLoop u content rest i st) = none := by
  induction rest with
  | nil => intro i st; left; rfl
  | cons ch rest ih =>
    intro i st
    unfold scanLoop
    dsimp only
    split
    · exact ih _ _
    · split
      · exact ih _ _
      · split
        · exact ih _ _
        · split
          · exact ih _ _
          · split
            · exact ih _ _
            · split
              · split
                · split
                  · rename_i hv
                    right
                    simpa [isValidJSON] using hv
                  · exact ih _ _
                · exact ih _ _
              · exact ih _ _

/-- What `extractJSON` returns is empty or valid JSON. -/
theorem extractJSON_valid (u : Str → Option GoError) (content : Str) :
    extractJSON u content = [] ∨ u (extractJSON u content) = none := by
  unfold extractJSON
  split
  · rename_i j h
    exact Or.inr (tryCodeBlocks_valid u content _ j h)
  · split
    · rename_i j h
      exact Or.inr (tryNodes_valid u content j h)
    · exact scanLoop_valid u content content 0 _

/-- The only error `Extract` returns is "no JSON found in response". -/
theorem Extract_error (u : Str → Option GoError) (content : Str) (e : GoError)
    (h : Extract u content = .error e) : e = .leaf "no JSON found in response".toList := by
  unfold Extract at h
  dsimp only at h
  split at h
  · cases h; rfl
  · rename_i hne
    rcases extractJSON_valid u content with h0 | h0
    · simp [h0] at hne
    · rw [h0] at h
      cases h

/-- C15, the divergence: whatever `json.Unmarshal` answers, an error of
`Extract` is "no JSON found in response" and never "invalid JSON: ..."; on
the response `Result: {"nodes": [}`, where the "nodes" pattern finds the
span `{"nodes": [}` and the parser rejects it, `Extract` fails with "no JSON
found in response". -/
theorem C15_invalid_span_reported_as_no_json :
    (∀ (u : Str → Option GoError) (content : Str) (e : GoError),
      Extract u content = .error e → e = .leaf "no JSON found in response".toList) ∧
    FindStringSubmatch reNodes brokenSpanReply = some ("\x7b\"nodes\": [\x7d".toList, []) ∧
    scenarioEnv.unmarshal "\x7b\"nodes\": [\x7d".toList
      = some (.leaf "invalid character".toList) ∧
    Extract scenarioEnv.unmarshal brokenSpanReply
      = .error (.leaf "no JSON found in response".toList) := by
  refine ⟨Extract_error, by decide, by decide, rfl⟩

/-! ## The log of a session that succeeds -/

/-- Handling a response appends one entry to the log: the success record
when it returns nil, and another text when it returns an error. -/
theorem Generator.handleResponse_logs (env : Env) (attempt : Nat) (v : GenVars) (content : Str) :
    ((Generator.handleResponse env attempt v content).2 = .nil →
      (Generator.handleResponse env attempt v content).1.validationLogs
        = v.validationLogs ++ ["Validation successful".toList]) ∧
    (∀ e, (Generator.handleResponse env attempt v content).2 = .err e →
      ∃ m, (Generator.handleResponse env attempt v content).1.validationLogs
          = v.validationLogs ++ [m] ∧ m ≠ "Validation successful".toList) := by
  unfold Generator.handleResponse
  dsimp only
  split
  · exact ⟨by simp, fun e _ => ⟨_, rfl, by simp⟩⟩
  · split
    · exact ⟨by simp, fun e _ => ⟨_, rfl, by simp⟩⟩
    · exact ⟨fun _ => rfl, by simp⟩

/-- One run of the closure of `Generate`: when it returns nil it has
appended the success record to the log, and when it returns an error it has
left the log as it was or appended a text that is not the success record. -/
theorem Generator.attemptFn_logs (g : Generator) (env : Env) (req : GenerateRequest)
    (prompt : Str) (attempt : Nat) (v : GenVars) :
    ((g.attemptFn env req prompt attempt v).2 = .nil →
      (g.attemptFn env req prompt attempt v).1.validationLogs
        = v.validationLogs ++ ["Validation successful".toList]) ∧
    (∀ e, (g.attemptFn env req prompt attempt v).2 = .err e →
      (g.attemptFn env req prompt attempt v).1.validationLogs = v.validationLogs ∨
      ∃ m, (g.attemptFn env req prompt attempt v).1.validationLogs
          = v.validationLogs ++ [m] ∧ m ≠ "Validation successful".toList) := by
  have hb := g.buildRequest_log req prompt attempt { v with iteration := attempt }
  unfold Generator.attemptFn
  dsimp only
  split
  next v1 msg h => exact ⟨by simp, by simp⟩
  next v1 err h =>
    rw [h] at hb
    exact ⟨by simp, fun e _ => Or.inl hb⟩
  next v1 creq h =>
    rw [h] at hb
    simp only at hb
    unfold Generator.callModel
    dsimp only
    split
    · exact ⟨by simp, by simp⟩
    · exact ⟨by simp, fun e _ => Or.inl hb⟩
    · rename_i llmResp _
      have hh := Generator.handleResponse_logs env attempt
        { v1 with client := (v1.client.Complete env creq).1,
                  trace := v1.trace ++ [GenEvent.complete attempt creq],
                  retries := v1.retries ++ (v1.client.Complete env creq).2.2 } llmResp.Content
      refine ⟨fun hn => (hh.1 hn).trans ?_, fun e he => Or.inr ?_⟩
      · show v1.validationLogs ++ _ = _
        rw [hb]
      · obtain ⟨m, hm, hne⟩ := hh.2 e he
        refine ⟨m, hm.trans ?_, hne⟩
        show v1.validationLogs ++ _ = _
        rw [hb]

/-- When `Iterator.loop` returns nil, the state it ends in is the one left by
a call of the iteration function that returned nil, made in a state that
keeps every property the failing calls preserve. -/
theorem Iterator.loop_nil {σ : Type} (it : Iterator) (ctxErr : Nat → Option GoError)
    (fn : Nat → σ → σ × CallResult) (Inv : σ → Prop)
    (hstep : ∀ a s e, Inv s → (fn a s).2 = .err e → Inv (fn a s).1) (rem : Nat) :
    ∀ (attempt : Nat) (lastErr : Option GoError) (s : σ) (calls : List Nat),
      Inv s → (Iterator.loop it ctxErr fn rem attempt lastErr s calls).result = .nil →
      ∃ a s0, Inv s0 ∧ (fn a s0).2 = .nil ∧
        (Iterator.loop it ctxErr fn rem attempt lastErr s calls).state = (fn a s0).1 := by
  induction rem with
  | zero => intro attempt lastErr s calls _ h; simp [Iterator.loop] at h
  | succ rem ih =>
    intro attempt lastErr s calls hinv
    unfold Iterator.loop
    cases hc : ctxErr attempt with
    | some e => intro h; simp at h
    | none =>
      have h1 := hstep attempt s
      rcases hf : fn attempt s with ⟨s1, o⟩
      rw [hf] at h1
      cases o with
      | nil => intro _; exact ⟨attempt, s, hinv, by rw [hf], by rw [hf]⟩
      | panic msg => intro h; simp at h
      | err e =>
        by_cases hge : (attempt : Int) ≥ it.maxIterations
        · simp only [hge, if_true]; intro h; simp at h
        · simp only [hge, if_false]
          exact ih (attempt + 1) (some e) s1 (calls ++ [attempt]) (h1 e hinv rfl)

/-- C20: when `Generate` returns a response, its `ValidationLogs` is not
empty, its last entry is "Validation successful", and no entry before the
last is that success record. -/
theorem C20_success_record_is_last_and_only (g : Generator) (env : Env) (client : Client)
    (req : GenerateRequest) (r : GenerateResponse)
    (h : (g.Generate env client req).result = .ok r) :
    r.ValidationLogs ≠ [] ∧
    r.ValidationLogs.getLast? = some "Validation successful".toList ∧
    ∀ m ∈ r.ValidationLogs.dropLast, m ≠ "Validation successful".toList := by
  have hr := g.Generate_ok env client req r h
  have hv := (g.Generate_vars env client req).1
  have hres := g.Generate_result env client req
  rw [h] at hres
  have hnil : (g.iterator.Iterate env.ctxErr
      (g.attemptFn env req (g.prompter.BuildPlanningPrompt req.Task req.Analysis
        req.Constraints).1) (GenVars.init client)).result = .nil := by
    revert hres
    cases (g.iterator.Iterate env.ctxErr
      (g.attemptFn env req (g.prompter.BuildPlanningPrompt req.Task req.Analysis
        req.Constraints).1) (GenVars.init client)).result with
    | nil => intro _; rfl
    | err e => intro hres; simp at hres
    | panic msg => intro hres; simp at hres
  obtain ⟨a, s0, hinv, hfn, hst⟩ := Iterator.loop_nil g.iterator env.ctxErr
    (g.attemptFn env req (g.prompter.BuildPlanningPrompt req.Task req.Analysis
      req.Constraints).1)
    (fun v => ∀ m ∈ v.validationLogs, m ≠ "Validation successful".toList)
    (by
      intro a s e hinv he m hm
      rcases (g.attemptFn_logs env req _ a s).2 e he with hl | ⟨m1, hl, hne⟩
      · rw [hl] at hm; exact hinv m hm
      · rw [hl] at hm
        rcases List.mem_append.mp hm with hm | hm
        · exact hinv m hm
        · rw [List.mem_singleton.mp hm]; exact hne)
    g.iterator.maxIterations.toNat 1 none (GenVars.init client) []
    (by simp [GenVars.init]) hnil
  have hlogs : r.ValidationLogs = s0.validationLogs ++ ["Validation successful".toList] := by
    rw [hr, hv]
    simp only
    have := (g.attemptFn_logs env req _ a s0).1 hfn
    rw [← this]
    exact congrArg GenVars.validationLogs hst
  rw [hlogs]
  refine ⟨by simp, by simp, ?_⟩
  intro m hm
  rw [List.dropLast_concat] at hm
  exact hinv m hm

/-- A witness of C20: the session of the scenario, whose third attempt
succeeds. -/
theorem C20_success_record_is_last_and_only_witness :
    (scenarioGenerator.Generate scenarioEnv scenarioClient scenarioRequest).result
      = .ok { GraphJSON := scenarioGraph3, Reasoning := [], Iterations := 3,
              ValidationLogs := ["Extraction error: no JSON found in response".toList,
                "Validation failed: edges is required".toList,
                "Validation successful".toList] } ∧
    ["Extraction error: no JSON found in response".toList,
      "Validation failed: edges is required".toList,
      "Validation successful".toList] ≠ [] ∧
    ["Extraction error: no JSON found in response".toList,
      "Validation failed: edges is required".toList,
      "Validation successful".toList].getLast? = some "Validation successful".toList ∧
    ∀ m ∈ ["Extraction error: no JSON found in response".toList,
      "Validation failed: edges is required".toList,
      "Validation successful".toList].dropLast, m ≠ "Validation successful".toList :=
  ⟨rfl, C20_success_record_is_last_and_only scenarioGenerator scenarioEnv scenarioClient
    scenarioRequest _ rfl⟩

/-! ## The arguments of the corrective prompt -/

/-- A replacement through a block of text that no occurrence of `old` can
reach into, overlap or start in: the block is kept, and the texts before and
after it are rewritten on their own. -/
theorem replaceAux_inert (old new P : Str)
    (hS : ∀ X Z, X ≠ [] → old <+: X ++ (P ++ Z) → old <+: X)
    (hI : ∀ u v Z, P = u ++ v → v ≠ [] → ¬ old <+: v ++ Z) (Y : Str) :
    ∀ (X : Str) (k : Nat), k ≤ X.length →
      replaceAux old new k (X ++ (P ++ Y))
        = replaceAux old new k X ++ (P ++ replaceAux old new 0 Y) := by
  have hblock : ∀ (v u : Str), P = u ++ v →
      replaceAux old new 0 (v ++ Y) = v ++ replaceAux old new 0 Y := by
    intro v
    induction v with
    | nil => intro u _; rfl
    | cons c v ih =>
      intro u hu
      have hnp : old.isPrefixOf (c :: (v ++ Y)) = false := by
        rw [Bool.eq_false_iff]
        intro h
        exact hI u (c :: v) Y hu (by simp) (List.isPrefixOf_iff_prefix.mp h)
      rw [List.cons_append, replaceAux, hnp, ih (u ++ [c]) (by simp [hu])]
      simp
  intro X
  induction X with
  | nil =>
    intro k hk
    have : k = 0 := by simpa using hk
    subst this
    simpa [replaceAux] using hblock P [] rfl
  | cons c X ih =>
    intro k hk
    cases k with
    | succ k =>
      simp only [List.cons_append, replaceAux]
      exact ih k (by simpa using hk)
    | zero =>
      by_cases hp : old.isPrefixOf (c :: (X ++ (P ++ Y))) = true
      · have hpx : old <+: c :: X :=
          hS (c :: X) Y (by simp) (List.isPrefixOf_iff_prefix.mp hp)
        have hpx1 : old.isPrefixOf (c :: X) = true := List.isPrefixOf_iff_prefix.mpr hpx
        have hlen : old.length ≤ X.length + 1 := by simpa using hpx.length_le
        rw [List.cons_append, replaceAux, replaceAux, hp, hpx1, ih (old.length - 1) (by omega)]
        simp
      · have hpx1 : ¬ old.isPrefixOf (c :: X) = true := by
          intro h
          apply hp
          have h1 : old <+: c :: X := List.isPrefixOf_iff_prefix.mp h
          exact List.isPrefixOf_iff_prefix.mpr
            (h1.trans (List.prefix_append (c :: X) (P ++ Y)))
        rw [List.cons_append, replaceAux, replaceAux, ih 0 (Nat.zero_le _)]
        simp [hp, hpx1]

/-- A text without the rune `x` that is a prefix of a text continued by `x`
is a prefix of the text itself. -/
theorem prefix_of_prefix_append_cons (x : Char) :
    ∀ (w X Z : Str), x ∉ w → w <+: X ++ x :: Z → w <+: X := by
  intro w
  induction w with
  | nil => intro X Z _ _; exact List.nil_prefix
  | cons a w ih =>
    intro X Z hw h
    cases X with
    | nil =>
      simp only [List.nil_append, List.cons_prefix_cons] at h
      exact absurd (List.mem_cons_self a w) (h.1 ▸ hw)
    | cons b X =>
      simp only [List.cons_append, List.cons_prefix_cons] at h ⊢
      exact ⟨h.1, ih X Z (fun hm => hw (List.mem_cons_of_mem _ hm)) h.2⟩

/-- No occurrence of a placeholder reaches into, overlaps or starts in an
occurrence of a placeholder of another name. -/
theorem placeholder_inert (n1 n2 : Str) (h1 : braceFree n1) (h2 : braceFree n2)
    (hne : n1 ≠ n2) :
    (∀ X Z, X ≠ [] → placeholder n1 <+: X ++ (placeholder n2 ++ Z) → placeholder n1 <+: X) ∧
    (∀ u v Z, placeholder n2 = u ++ v → v ≠ [] → ¬ placeholder n1 <+: v ++ Z) := by
  have hw : '{' ∉ n1 ++ ['}', '}'] := by
    intro hmem
    rcases List.mem_append.mp hmem with hm | hm
    · exact (h1 _ hm).1 rfl
    · simp at hm
  have hstart2 : ∀ (n T : Str) (W : Str), braceFree n → ¬ (n ++ ('}' :: T) <+: '{' :: W) := by
    intro n T W hn h
    cases n with
    | nil => simp at h
    | cons a n =>
      simp only [List.cons_append, List.cons_prefix_cons] at h
      exact (hn a (by simp)).1 h.1
  have hstart : ∀ (n T : Str) (W : Str), braceFree n → ¬ ('{' :: W <+: n ++ ('}' :: T)) := by
    intro n T W hn h
    cases n with
    | nil => simp at h
    | cons a n =>
      simp only [List.cons_append, List.cons_prefix_cons] at h
      exact (hn a (by simp)).1 h.1.symm
  constructor
  · intro X Z hX h
    unfold placeholder at h ⊢
    cases X with
    | nil => exact absurd rfl hX
    | cons x X =>
      simp only [List.cons_append, List.cons_prefix_cons] at h ⊢
      refine ⟨h.1, ?_⟩
      cases X with
      | nil =>
        exfalso
        have h3 := h.2
        simp only [List.nil_append, List.cons_prefix_cons] at h3
        exact hstart2 n1 ['}'] _ h1 (by simpa using h3.2)
      | cons y X =>
        have h3 := h.2
        simp only [List.cons_append, List.cons_prefix_cons] at h3 ⊢
        exact ⟨h3.1, prefix_of_prefix_append_cons '{' _ X _ hw h3.2⟩
  · intro u v Z hu hv h
    unfold placeholder at hu h
    cases u with
    | nil =>
      simp only [List.nil_append] at hu
      rw [← hu] at h
      simp only [List.cons_append, List.cons_prefix_cons, true_and] at h
      obtain ⟨t, ht⟩ := h
      have := append_cons_inj_of_not_mem '}' n1 n2 ('}' :: t) ('}' :: Z)
        (fun hm => (h1 _ hm).2 rfl) (fun hm => (h2 _ hm).2 rfl) (by simpa using ht)
      exact hne this.1
    | cons a u =>
      cases u with
      | nil =>
        simp only [List.cons_append, List.nil_append, List.cons.injEq] at hu
        rw [← hu.2] at h
        simp only [List.cons_append, List.cons_prefix_cons, true_and] at h
        exact hstart n2 ('}' :: Z) _ h2 (by simpa using h)
      | cons b u =>
        simp only [List.cons_append, List.cons.injEq] at hu
        cases v with
        | nil => exact hv rfl
        | cons c v =>
          simp only [List.cons_append, List.cons_prefix_cons] at h
          have hc : c ∈ n2 ++ ['}', '}'] := by rw [hu.2.2]; simp
          rcases List.mem_append.mp hc with hm | hm
          · exact (h2 _ hm).1 h.1.symm
          · simp at hm
            rw [hm] at h
            simp at h

/-- Replacing a placeholder in a text that holds a placeholder of another
name: that occurrence is kept, and the texts before and after it are
rewritten on their own. -/
theorem ReplaceAll_inert (n1 n2 : Str) (h1 : braceFree n1) (h2 : braceFree n2) (hne : n1 ≠ n2)
    (X Y new : Str) :
    ReplaceAll (X ++ (placeholder n2 ++ Y)) (placeholder n1) new
      = ReplaceAll X (placeholder n1) new ++
          (placeholder n2 ++ ReplaceAll Y (placeholder n1) new) := by
  obtain ⟨hS, hI⟩ := placeholder_inert n1 n2 h1 h2 hne
  exact replaceAux_inert (placeholder n1) new (placeholder n2) hS hI Y X 0 (Nat.zero_le _)

/-- A replacement in a text that holds `old` puts `new` into the result. -/
theorem ReplaceAll_infix (old new : Str) (hold : old ≠ []) :
    ∀ s : Str, old <:+: s → new <:+: ReplaceAll s old new := by
  intro s
  unfold ReplaceAll
  induction s with
  | nil =>
    intro h
    exact absurd (List.eq_nil_of_infix_nil h) hold
  | cons c s ih =>
    intro h
    by_cases hp : old.isPrefixOf (c :: s) = true
    · simp only [replaceAux, hp, if_true]
      exact List.infix_append' [] new _
    · simp only [replaceAux, hp, if_false]
      rcases List.infix_cons_iff.mp h with h | h
      · exact absurd (List.isPrefixOf_iff_prefix.mpr h) hp
      · exact (ih h).trans (List.infix_cons (List.infix_refl _))

/-! ## The prompts -/

/-- The loop that numbers the messages gives the enumeration. -/
theorem errorsStr_eq_numbered (msgs : List Str) : errorsStr 0 msgs = numbered msgs := by
  have h : ∀ (msgs : List Str) (i : Nat),
      errorsStr i msgs
        = ((msgs.enumFrom i).map
            (fun im => fmtInt ((im.1 + 1 : Nat) : Int) ++ ". ".toList ++ im.2 ++
              "\n".toList)).flatten := by
    intro msgs
    induction msgs with
    | nil => intro i; rfl
    | cons m msgs ih =>
      intro i
      simp only [errorsStr, List.enumFrom_cons, List.map_cons, List.flatten_cons, ih (i + 1)]
      simp
  exact h msgs 0

/-- The default error-fixing template holds the placeholder of the
validation errors. -/
theorem defaultErrorFixingTemplate_split :
    ∃ A B, defaultErrorFixingTemplate
      = A ++ (placeholder "VALIDATION_ERRORS".toList ++ B) :=
  ⟨("The previous graph had validation errors. Please fix them.\n\n" ++
     "Original Task: \x7b\x7bTASK\x7d\x7d\n\n" ++
     "Previous Graph (attempt \x7b\x7bATTEMPT\x7d\x7d):\n" ++
     "\x7b\x7bPREVIOUS_GRAPH\x7d\x7d\n\n" ++
     "Validation Errors:\n").toList,
   ("\n\n" ++
     "Generate a corrected graph that fixes these validation errors while maintaining the intent of the original task.\n\n" ++
     "Respond with:\n" ++
     "1. A \"reasoning\" section explaining your fixes\n" ++
     "2. A \"graph\" section containing the corrected JSON graph").toList, rfl⟩

/-- C13: for every task, previous graph, attempt number and list of
violation messages `m1, ..., mk`, the prompt that `BuildErrorFixingPrompt`
builds from the default error-fixing template contains the enumeration
"1. m1\n2. m2\n...k. mk\n", each message verbatim and in order; the error it
returns is nil. -/
theorem C13_errors_enumerated (p : Prompter) (task previousGraph : Str) (msgs : List Str)
    (attempt : Int) (hp : p.errorFixingTemplate = defaultErrorFixingTemplate) :
    numbered msgs <:+: (p.BuildErrorFixingPrompt task previousGraph msgs attempt).1 ∧
    (p.BuildErrorFixingPrompt task previousGraph msgs attempt).2 = none := by
  refine ⟨?_, rfl⟩
  obtain ⟨A, B, hAB⟩ := defaultErrorFixingTemplate_split
  have hV : braceFree "VALIDATION_ERRORS".toList := by simp [braceFree]
  have e1 : "\x7b\x7bTASK\x7d\x7d".toList = placeholder "TASK".toList := by decide
  have e2 : "\x7b\x7bPREVIOUS_GRAPH\x7d\x7d".toList = placeholder "PREVIOUS_GRAPH".toList := by
    decide
  have e3 : "\x7b\x7bATTEMPT\x7d\x7d".toList = placeholder "ATTEMPT".toList := by decide
  have e4 : "\x7b\x7bVALIDATION_ERRORS\x7d\x7d".toList = placeholder "VALIDATION_ERRORS".toList := by
    decide
  simp only [Prompter.BuildErrorFixingPrompt, hp, hAB, e1, e2, e3, e4]
  rw [ReplaceAll_inert _ _ (by simp [braceFree]) hV (by decide),
    ReplaceAll_inert _ _ (by simp [braceFree]) hV (by decide),
    ReplaceAll_inert _ _ (by simp [braceFree]) hV (by decide),
    ← errorsStr_eq_numbered]
  apply ReplaceAll_infix _ _ (by simp [placeholder])
  exact ⟨_, _, by rw [List.append_assoc]⟩

/-- A witness of C13: the default prompter and two messages. -/
theorem C13_errors_enumerated_witness :
    numbered ["edges is required".toList, "node n1 has no type".toList]
      = "1. edges is required\n2. node n1 has no type\n".toList ∧
    numbered ["edges is required".toList, "node n1 has no type".toList]
      <:+: (scenarioGenerator.prompter.BuildErrorFixingPrompt scenarioRequest.Task
        scenarioGraph2 ["edges is required".toList, "node n1 has no type".toList] 2).1 ∧
    (scenarioGenerator.prompter.BuildErrorFixingPrompt scenarioRequest.Task
        scenarioGraph2 ["edges is required".toList, "node n1 has no type".toList] 2).2 = none :=
  ⟨rfl, C13_errors_enumerated scenarioGenerator.prompter scenarioRequest.Task scenarioGraph2
    ["edges is required".toList, "node n1 has no type".toList] 2 rfl⟩

/-- C16: both prompt builders return a nil error whatever the template and
the values; and a placeholder `{{NAME}}` of the template whose name has no
brace in it and is not one the builder substitutes is kept as it is: the
prompt is the rendering of the text before it, the placeholder unchanged, and
the rendering of the text after it. -/
theorem C16_rendering_total_and_keeps_unknown (p : Prompter) (task previousGraph : Str)
    (analysis : Option TaskAnalysis) (constraints : Option Constraints) (msgs : List Str)
    (attempt : Int) (name X Y name2 X2 Y2 : Str)
    (hname : braceFree name) (hunknown : name ∉ planningNames)
    (hP : p.planningTemplate = X ++ (placeholder name ++ Y))
    (hname2 : braceFree name2) (hunknown2 : name2 ∉ fixingNames)
    (hE : p.errorFixingTemplate = X2 ++ (placeholder name2 ++ Y2)) :
    (∀ (q : Prompter) (t : Str) (a : Option TaskAnalysis) (c : Option Constraints),
      (q.BuildPlanningPrompt t a c).2 = none) ∧
    (∀ (q : Prompter) (t g : Str) (ms : List Str) (n : Int),
      (q.BuildErrorFixingPrompt t g ms n).2 = none) ∧
    (p.BuildPlanningPrompt task analysis constraints).1
      = ({ p with planningTemplate := X }.BuildPlanningPrompt task analysis constraints).1 ++
        (placeholder name ++
          ({ p with planningTemplate := Y }.BuildPlanningPrompt task analysis constraints).1) ∧
    (p.BuildErrorFixingPrompt task previousGraph msgs attempt).1
      = ({ p with errorFixingTemplate := X2 }.BuildErrorFixingPrompt task previousGraph msgs
            attempt).1 ++
        (placeholder name2 ++
          ({ p with errorFixingTemplate := Y2 }.BuildErrorFixingPrompt task previousGraph msgs
            attempt).1) := by
  have e1 : "\x7b\x7bTASK\x7d\x7d".toList = placeholder "TASK".toList := by decide
  have e2 : "\x7b\x7bPREVIOUS_GRAPH\x7d\x7d".toList = placeholder "PREVIOUS_GRAPH".toList := by
    decide
  have e3 : "\x7b\x7bATTEMPT\x7d\x7d".toList = placeholder "ATTEMPT".toList := by decide
  have e4 : "\x7b\x7bVALIDATION_ERRORS\x7d\x7d".toList = placeholder "VALIDATION_ERRORS".toList := by
    decide
  have e5 : "\x7b\x7bANALYSIS\x7d\x7d".toList = placeholder "ANALYSIS".toList := by decide
  have e6 : "\x7b\x7bCONSTRAINTS\x7d\x7d".toList = placeholder "CONSTRAINTS".toList := by decide
  have e7 : "\x7b\x7bSCHEMAS\x7d\x7d".toList = placeholder "SCHEMAS".toList := by decide
  simp only [planningNames, fixingNames, List.mem_cons, List.mem_singleton, not_or,
    List.not_mem_nil, not_false_eq_true, and_true] at hunknown hunknown2
  refine ⟨fun _ _ _ _ => rfl, fun _ _ _ _ _ => rfl, ?_, ?_⟩
  · simp only [Prompter.BuildPlanningPrompt, hP, e1, e5, e6, e7]
    rw [ReplaceAll_inert _ _ (by simp [braceFree]) hname (Ne.symm hunknown.1),
      ReplaceAll_inert _ _ (by simp [braceFree]) hname (Ne.symm hunknown.2.1),
      ReplaceAll_inert _ _ (by simp [braceFree]) hname (Ne.symm hunknown.2.2.1),
      ReplaceAll_inert _ _ (by simp [braceFree]) hname (Ne.symm hunknown.2.2.2)]
  · simp only [Prompter.BuildErrorFixingPrompt, hE, e1, e2, e3, e4]
    rw [ReplaceAll_inert _ _ (by simp [braceFree]) hname2 (Ne.symm hunknown2.1),
      ReplaceAll_inert _ _ (by simp [braceFree]) hname2 (Ne.symm hunknown2.2.1),
      ReplaceAll_inert _ _ (by simp [braceFree]) hname2 (Ne.symm hunknown2.2.2.1),
      ReplaceAll_inert _ _ (by simp [braceFree]) hname2 (Ne.symm hunknown2.2.2.2)]

/-- A witness of C16: templates with the placeholders `{{OWNER}}` and
`{{HINT}}`, which no builder substitutes. -/
theorem C16_rendering_total_and_keeps_unknown_witness :
    ((customPrompter.BuildPlanningPrompt "route tickets".toList none none).1
        = "Plan route tickets for \x7b\x7bOWNER\x7d\x7d.".toList ∧
      (customPrompter.BuildErrorFixingPrompt "route tickets".toList scenarioGraph2
          ["edges is required".toList] 2).1
        = "Fix \x7b\"nodes\": []\x7d (\x7b\x7bHINT\x7d\x7d)".toList) ∧
    (∀ (q : Prompter) (t : Str) (a : Option TaskAnalysis) (c : Option Constraints),
      (q.BuildPlanningPrompt t a c).2 = none) ∧
    (∀ (q : Prompter) (t g : Str) (ms : List Str) (n : Int),
      (q.BuildErrorFixingPrompt t g ms n).2 = none) ∧
    (customPrompter.BuildPlanningPrompt "route tickets".toList none none).1
      = ({ customPrompter with
            planningTemplate := "Plan \x7b\x7bTASK\x7d\x7d for ".toList }.BuildPlanningPrompt
          "route tickets".toList none none).1 ++
        (placeholder "OWNER".toList ++
          ({ customPrompter with planningTemplate := ".".toList }.BuildPlanningPrompt
            "route tickets".toList none none).1) ∧
    (customPrompter.BuildErrorFixingPrompt "route tickets".toList scenarioGraph2
        ["edges is required".toList] 2).1
      = ({ customPrompter with
            errorFixingTemplate :=
              "Fix \x7b\x7bPREVIOUS_GRAPH\x7d\x7d (".toList }.BuildErrorFixingPrompt
          "route tickets".toList scenarioGraph2 ["edges is required".toList] 2).1 ++
        (placeholder "HINT".toList ++
          ({ customPrompter with errorFixingTemplate := ")".toList }.BuildErrorFixingPrompt
            "route tickets".toList scenarioGraph2 ["edges is required".toList] 2).1) :=
  ⟨⟨rfl, rfl⟩,
   C16_rendering_total_and_keeps_unknown customPrompter "route tickets".toList scenarioGraph2
    none none ["edges is required".toList] 2 "OWNER".toList
    "Plan \x7b\x7bTASK\x7d\x7d for ".toList ".".toList "HINT".toList
    "Fix \x7b\x7bPREVIOUS_GRAPH\x7d\x7d (".toList ")".toList
    (by simp [braceFree]) (by decide) rfl (by simp [braceFree]) (by decide) rfl⟩

/-! ## The analyzer -/

set_option maxRecDepth 100000 in
/-- C18, the divergence: on the response `analysisObject`, which is exactly
a JSON object in the format the analyzer asks for, `parseAnalysis` fails
with "no JSON found in response", whatever the parsers and the task: the
object starts at offset 0, where the brace scan of `extractJSON` tests no
span.  The same object after one space is parsed into its values. -/
theorem C18_exact_object_not_parsed :
    (∀ (u : Str → Option GoError) (ur : Str → Except GoError AnalysisResult) (id task : Str),
      Analyzer.parseAnalysis u ur id analysisObject task
        = .error (.leaf "no JSON found in response".toList)) ∧
    Analyzer.parseAnalysis (acceptOnly [analysisObject])
        (decodeOnly [(analysisObject, analysisFields)]) "id-1".toList (' ' :: analysisObject)
        "route tickets".toList
      = .ok { TaskID := "id-1".toList, Complexity := "simple".toList, RequiresTools := false,
              RequiresRouting := true,
              SuggestedNodeTypes := ["executor".toList, "router".toList],
              KeyEntities := ["ticket".toList], Intent := "route tickets".toList,
              Reasoning := "one decision".toList } := by
  refine ⟨fun u ur id task => ?_, rfl⟩
  have h : extractJSON u analysisObject = [] := rfl
  simp [Analyzer.parseAnalysis, h]

/-- C19 (as amended): a `TaskAnalysis` that `parseAnalysis` returns without
error has the `Complexity` that `json.Unmarshal` decoded from the
`complexity` field of the extracted JSON, whatever string that is; its other
fields are the decoded values likewise, and its `TaskID` is the fresh UUID. -/
theorem C19_complexity_is_decoded_string (u : Str → Option GoError)
    (ur : Str → Except GoError AnalysisResult) (id content task : Str) (a : TaskAnalysis)
    (h : Analyzer.parseAnalysis u ur id content task = .ok a) :
    ∃ result, ur (extractJSON u content) = .ok result ∧
      a = { TaskID := id, Complexity := result.Complexity,
            RequiresTools := result.RequiresTools, RequiresRouting := result.RequiresRouting,
            SuggestedNodeTypes := result.SuggestedNodeTypes,
            KeyEntities := result.KeyEntities, Intent := result.Intent,
            Reasoning := result.Reasoning } := by
  unfold Analyzer.parseAnalysis at h
  dsimp only at h
  split at h
  · cases h
  · split at h
    · cases h
    · rename_i result hres
      cases h
      exact ⟨result, hres, rfl⟩

set_option maxRecDepth 100000 in
/-- A witness of C19: the object of the analyzer's format after one space. -/
theorem C19_complexity_is_decoded_string_witness :
    ∃ result, decodeOnly [(analysisObject, analysisFields)]
        (extractJSON (acceptOnly [analysisObject]) (' ' :: analysisObject)) = .ok result ∧
      (TaskAnalysis.mk "id-1".toList "simple".toList false true
        ["executor".toList, "router".toList] ["ticket".toList] "route tickets".toList
        "one decision".toList)
        = { TaskID := "id-1".toList, Complexity := result.Complexity,
            RequiresTools := result.RequiresTools, RequiresRouting := result.RequiresRouting,
            SuggestedNodeTypes := result.SuggestedNodeTypes,
            KeyEntities := result.KeyEntities, Intent := result.Intent,
            Reasoning := result.Reasoning } :=
  C19_complexity_is_decoded_string (acceptOnly [analysisObject])
    (decodeOnly [(analysisObject, analysisFields)]) "id-1".toList (' ' :: analysisObject)
    "route tickets".toList _ rfl

/-- C19 refuted as stated: on the response ` {"complexity": "banana"}`
`parseAnalysis` returns, without error, a `TaskAnalysis` whose `Complexity`
is "banana", none of the three levels. -/
theorem C19_complexity_outside_levels :
    (∃ a, Analyzer.parseAnalysis (acceptOnly [oddObject]) (decodeOnly [(oddObject, oddFields)])
        "id-1".toList (' ' :: oddObject) "order fruit".toList = .ok a ∧
      a.Complexity = "banana".toList ∧
      a.Complexity ∉ [ComplexitySimple, ComplexityModerate, ComplexityComplex]) := by
  refine ⟨_, rfl, rfl, by decide⟩

/-! ## A retrier without attempts -/

/-- C29: with `maxAttempts ≤ 0`, `Do` returns a non-nil error (the
"max retry attempts (n) exceeded: " text around a nil operand) without
calling the operation and without waiting; so `Client.Complete` returns that
error, counts a failed call, and the port receives no call. -/
theorem C29_no_attempts_no_call {σ : Type} (r : Retrier) (hr : r.maxAttempts ≤ 0)
    (ctxWait : Nat → Option GoError) (fn : σ → σ × Option GoError) (s : σ)
    (c : Client) (hc : c.retrier.maxAttempts ≤ 0) (env : Env) (creq : CompletionRequest) :
    ((r.Do ctxWait fn s).err
        = some (.wrapNil ("max retry attempts (".toList ++ fmtInt r.maxAttempts ++
            ") exceeded: ".toList)) ∧
      (r.Do ctxWait fn s).events = [] ∧ (r.Do ctxWait fn s).state = s) ∧
    ((c.Complete env creq).2.1
        = .error (.wrapNil ("max retry attempts (".toList ++ fmtInt c.retrier.maxAttempts ++
            ") exceeded: ".toList)) ∧
      (c.Complete env creq).2.2 = [] ∧
      (c.Complete env creq).1.portCalls = c.portCalls ∧
      (c.Complete env creq).1.stats = c.stats.AddCall 0 false) := by
  have h0 : r.maxAttempts.toNat = 0 := Int.toNat_eq_zero.mpr hr
  have h1 : c.retrier.maxAttempts.toNat = 0 := Int.toNat_eq_zero.mpr hc
  constructor
  · simp [Retrier.Do, h0, Retrier.loop, Retrier.exceeded, errorfW]
  · simp [Client.Complete, Retrier.Do, h1, Retrier.loop, Retrier.exceeded, errorfW]

/-- A witness of C29: a retrier configured for no attempt, and one configured
for a negative number of attempts. -/
theorem C29_no_attempts_no_call_witness :
    (((backoffRetrier (-1)).Do (fun _ => none) alwaysFail ()).err
        = some (.wrapNil ("max retry attempts (".toList ++
            fmtInt (backoffRetrier (-1)).maxAttempts ++ ") exceeded: ".toList)) ∧
      ((backoffRetrier (-1)).Do (fun _ => none) alwaysFail ()).events = [] ∧
      ((backoffRetrier (-1)).Do (fun _ => none) alwaysFail ()).state = ()) ∧
    ((idleClient.Complete scenarioEnv
          { SystemPrompt := [], UserPrompt := "plan".toList, MaxTokens := 16, Temperature := 0,
            StopSequences := [] }).2.1
        = .error (.wrapNil ("max retry attempts (".toList ++
            fmtInt idleClient.retrier.maxAttempts ++ ") exceeded: ".toList)) ∧
      (idleClient.Complete scenarioEnv
          { SystemPrompt := [], UserPrompt := "plan".toList, MaxTokens := 16, Temperature := 0,
            StopSequences := [] }).2.2 = [] ∧
      (idleClient.Complete scenarioEnv
          { SystemPrompt := [], UserPrompt := "plan".toList, MaxTokens := 16, Temperature := 0,
            StopSequences := [] }).1.portCalls = idleClient.portCalls ∧
      (idleClient.Complete scenarioEnv
          { SystemPrompt := [], UserPrompt := "plan".toList, MaxTokens := 16, Temperature := 0,
            StopSequences := [] }).1.stats = idleClient.stats.AddCall 0 false) :=
  C29_no_attempts_no_call (backoffRetrier (-1)) (by decide) (fun _ => none) alwaysFail ()
    idleClient (by decide) scenarioEnv _
/-! ## The validation of the configuration -/

/-- C30: `Config.Validate` returns nil exactly when the port is within
1..65535, the provider, the API key and the model are not empty, the maximum
of iterations and of nodes are positive and the log level is one of debug,
info, warn, error; otherwise it returns the error of the first of these
conditions, in this order, that does not hold. -/
theorem C30_validate_first_violation (c : Config) :
    (c.Validate = none ↔
      (1 ≤ c.Server.Port ∧ c.Server.Port ≤ 65535) ∧ c.LLM.Provider ≠ [] ∧ c.LLM.APIKey ≠ [] ∧
        c.LLM.Model ≠ [] ∧ c.Planning.MaxIterations > 0 ∧ c.Planning.MaxNodes > 0 ∧
        c.Logging.Level ∈ validLogLevels) ∧
    c.Validate = firstViolation c.conditions := by
  have hlvl : validLogLevels.contains c.Logging.Level = true ↔ c.Logging.Level ∈ validLogLevels :=
    by simp
  unfold Config.Validate firstViolation Config.conditions
  by_cases h1 : 1 ≤ c.Server.Port ∧ c.Server.Port ≤ 65535
  · have h1' : ¬ (c.Server.Port ≤ 0 ∨ c.Server.Port > 65535) := by omega
    by_cases h2 : c.LLM.Provider = []
    · simp [h1, h1', h2]
    · by_cases h3 : c.LLM.APIKey = []
      · simp [h1, h1', h2, h3]
      · by_cases h4 : c.LLM.Model = []
        · simp [h1, h1', h2, h3, h4]
        · by_cases h5 : c.Planning.MaxIterations > 0
          · have h5' : ¬ c.Planning.MaxIterations ≤ 0 := by omega
            by_cases h6 : c.Planning.MaxNodes > 0
            · have h6' : ¬ c.Planning.MaxNodes ≤ 0 := by omega
              by_cases h7 : c.Logging.Level ∈ validLogLevels
              · simp [h1, h1', h2, h3, h4, h5, h5', h6, h6', h7, hlvl.mpr h7]
              · have h7' : validLogLevels.contains c.Logging.Level = false := by
                  rw [Bool.eq_false_iff]; exact fun h => h7 (hlvl.mp h)
                simp [h1, h1', h2, h3, h4, h5, h5', h6, h6', h7, h7']
            · have h6' : c.Planning.MaxNodes ≤ 0 := by omega
              simp [h1, h1', h2, h3, h4, h5, h5', h6, h6']
          · have h5' : c.Planning.MaxIterations ≤ 0 := by omega
            simp [h1, h1', h2, h3, h4, h5, h5']
  · have h1' : c.Server.Port ≤ 0 ∨ c.Server.Port > 65535 := by omega
    simp [h1, h1']
/-! ## Defects found by evaluation -/

set_option maxRecDepth 100000 in
/-- C26, the divergence: when the model is down, attempt 1 of `Generate`
returns "LLM request failed: ..." without logging anything, `Iterate` starts
attempt 2, and the closure indexes the empty log: `Generate` panics with an
index out of range. -/
theorem C26_empty_log_indexed :
    iterOutcome (scenarioGenerator.attemptFn downEnv scenarioRequest
        (scenarioGenerator.prompter.BuildPlanningPrompt scenarioRequest.Task
          scenarioRequest.Analysis scenarioRequest.Constraints).1) 0 1
        (GenVars.init outageClient)
      = .err (.wrap "LLM request failed: ".toList outageError) ∧
    (scenarioGenerator.Generate downEnv outageClient scenarioRequest).calls = [1, 2] ∧
    (scenarioGenerator.Generate downEnv outageClient scenarioRequest).vars.validationLogs = [] ∧
    (scenarioGenerator.Generate downEnv outageClient scenarioRequest).result
      = .panic "index out of range [-1]".toList := by
  refine ⟨rfl, rfl, rfl, rfl⟩

/-- The first wait of `Do` lasts `initialDelay`, whatever the ceiling. -/
theorem Retrier.Do_first_wait {σ : Type} (r : Retrier) (ctxWait : Nat → Option GoError)
    (fn : σ → σ × Option GoError) (s : σ) (h2 : 2 ≤ r.maxAttempts)
    (hf : (fn s).2 ≠ none) (hc : ctxWait 1 = none) :
    ∃ rest, (r.Do ctxWait fn s).events = .call 1 :: .wait r.initialDelay :: rest := by
  obtain ⟨m, hm⟩ : ∃ m, r.maxAttempts.toNat = m + 1 := ⟨r.maxAttempts.toNat - 1, by omega⟩
  rcases hfs : fn s with ⟨s1, o⟩
  rw [hfs] at hf
  cases o with
  | none => exact absurd rfl hf
  | some e =>
    have hlt : ¬ (((1 : Nat) : Int) ≥ r.maxAttempts) := by omega
    have hev : ∀ (rem a : Nat) (d : Int) (le : Option GoError) (st : σ) (ev : List RetryEvent),
        ∃ rest, (Retrier.loop r ctxWait fn rem a d le st ev).events = ev ++ rest := by
      intro rem
      induction rem with
      | zero => intro a d le st ev; exact ⟨[], by simp [Retrier.loop]⟩
      | succ rem ih =>
        intro a d le st ev
        unfold Retrier.loop
        rcases fn st with ⟨st1, o⟩
        cases o with
        | none => exact ⟨[.call a], rfl⟩
        | some e1 =>
          dsimp only
          split
          · exact ⟨[.call a], rfl⟩
          · split
            · exact ⟨[.call a], rfl⟩
            · split
              · exact ⟨[.call a, .interrupted d], rfl⟩
              · obtain ⟨rest, hrest⟩ := ih (a + 1) (r.nextDelay d) (some e1) st1
                  (ev ++ [.call a, .wait d])
                exact ⟨[.call a, .wait d] ++ rest, by rw [hrest]; simp⟩
    obtain ⟨rest, hrest⟩ := hev m 2 (r.nextDelay r.initialDelay) (some e) s1
      ([] ++ [.call 1, .wait r.initialDelay])
    refine ⟨rest, ?_⟩
    simp only [Retrier.Do, hm, Retrier.loop, hfs, Retrier.shouldRetry, hlt, hc]
    simpa using hrest

/-- C25, the divergence: a wait lasts `delay`, which the ceiling bounds only
after it has been multiplied, so the first wait lasts `initialDelay` whatever
`maxDelay` is.  With initial delay 20s, multiplier 2.0, ceiling 10s and three
attempts that fail, the waits are 20s and 10s. -/
theorem C25_first_wait_above_ceiling :
    (∀ (σ : Type) (r : Retrier) (ctxWait : Nat → Option GoError) (fn : σ → σ × Option GoError)
        (s : σ),
      2 ≤ r.maxAttempts → (fn s).2 ≠ none → ctxWait 1 = none →
      ∃ rest, (r.Do ctxWait fn s).events = .call 1 :: .wait r.initialDelay :: rest) ∧
    waitsOf (steepRetrier.Do (fun _ => none) alwaysFail ()).events
      = [20 * second, 10 * second] ∧
    steepRetrier.maxDelay < 20 * second := by
  refine ⟨fun σ r ctxWait fn s h2 hf hc => Retrier.Do_first_wait r ctxWait fn s h2 hf hc,
    by decide, by decide⟩

/-- What `Plan` does is the same whatever `Constraints.MaxIterations` is. -/
theorem Service.Plan_ignores_MaxIterations (s : Service) (env : Env)
    (unmarshalResult : Str → Except GoError AnalysisResult) (planID analysisID : Str)
    (client : Client) (preq : PlanRequest) (c : Constraints) (m : Int) :
    s.Plan env unmarshalResult planID analysisID client
        { preq with Constraints := some { c with MaxIterations := m } }
      = s.Plan env unmarshalResult planID analysisID client
        { preq with Constraints := some c } := rfl

set_option maxRecDepth 100000 in
/-- C21, the divergence: `Plan` never reads `Constraints.MaxIterations`; the
budget is the configured `MaxIterations` alone.  With a configured budget of
3 and a request that limits the iterations to 1, the session of the scenario
runs the attempts 1, 2, 3 and returns `Iterations = 3`. -/
theorem C21_request_limit_ignored :
    (∀ (s : Service) (env : Env) (ur : Str → Except GoError AnalysisResult)
        (planID analysisID : Str) (client : Client) (preq : PlanRequest) (c : Constraints)
        (m : Int),
      s.Plan env ur planID analysisID client
          { preq with Constraints := some { c with MaxIterations := m } }
        = s.Plan env ur planID analysisID client { preq with Constraints := some c }) ∧
    (((NewService threeConfig (fun _ => none)).Plan scenarioEnv (decodeOnly [])
        "plan-1".toList "analysis-1".toList scenarioClient (limitedRequest 1)).generate.map
        (fun run => run.calls)) = some [1, 2, 3] ∧
    (∃ resp, ((NewService threeConfig (fun _ => none)).Plan scenarioEnv (decodeOnly [])
        "plan-1".toList "analysis-1".toList scenarioClient (limitedRequest 1)).result
        = .ok resp ∧ resp.Iterations = 3) := by
  refine ⟨Service.Plan_ignores_MaxIterations, rfl, ⟨_, rfl, rfl⟩⟩

/-- C23, the divergence: the brace scan tests a span only when `start > 0`,
so an object that begins the text is never returned: on `{"a": 1}`
`extractJSON` returns the empty string whatever the parser accepts, while
after one space it returns the object. -/
theorem C23_span_at_offset_zero_skipped :
    (∀ u : Str → Option GoError, extractJSON u "\x7b\"a\": 1\x7d".toList = []) ∧
    extractJSON (acceptOnly ["\x7b\"a\": 1\x7d".toList]) " \x7b\"a\": 1\x7d".toList
      = "\x7b\"a\": 1\x7d".toList := by
  refine ⟨fun u => rfl, by decide⟩
/-! ## The reasoning and the postcondition of `Extract` -/

/-- The method `Extract` fails exactly when `extractJSON` returns the empty
string. -/
theorem Extract_error_iff (u : Str → Option GoError) (content : Str) :
    (∃ e, Extract u content = .error e) ↔ extractJSON u content = [] := by
  constructor
  · rintro ⟨e, he⟩
    unfold Extract at he
    dsimp only at he
    split at he
    · rename_i h; simpa using h
    · rename_i hne
      rcases extractJSON_valid u content with h0 | h0
      · exact h0
      · rw [h0] at he; cases he
  · intro h
    exact ⟨.leaf "no JSON found in response".toList, by simp [Extract, h]⟩

/-- What `Extract` returns without error: the text `extractJSON` gives, which
is not empty, and the reasoning `extractReasoning` gives. -/
theorem Extract_ok (u : Str → Option GoError) (content j r : Str)
    (h : Extract u content = .ok (j, r)) :
    j = extractJSON u content ∧ r = extractReasoning content ∧ j ≠ [] ∧ u j = none := by
  unfold Extract at h
  dsimp only at h
  split at h
  · cases h
  · rename_i hne
    split at h
    · cases h
    · rename_i hv
      cases h
      exact ⟨rfl, rfl, by simpa using hne, hv⟩

/-- A text that a pattern starting with the literal runes `cs` matches
somewhere contains `cs`. -/
theorem infix_of_FindStringSubmatch_lits (cs : List Char) (r : List Atom) (s : Str)
    (h : FindStringSubmatch (cs.map lit ++ r) s ≠ none) : cs <:+: s := by
  cases hf : FindStringSubmatch (cs.map lit ++ r) s with
  | none => exact absurd hf h
  | some mg =>
    obtain ⟨hden, pre, rest, hs⟩ := FindStringSubmatch_sound _ s mg.1 mg.2 hf
    obtain ⟨m1, hm, _⟩ := (Den_lits_iff cs r mg.1 mg.2).mp hden
    exact ⟨pre, m1 ++ rest, by rw [hs, hm]; simp⟩

/-- No label pattern matches a text that contains neither "reasoning" nor
"Reasoning". -/
theorem reasoningPatterns_none (content : Str)
    (hl : ¬ "reasoning".toList <:+: content) (hu : ¬ "Reasoning".toList <:+: content) :
    ∀ p ∈ reasoningPatterns, FindStringSubmatch p content = none := by
  intro p hp
  simp only [reasoningPatterns, List.mem_cons, List.mem_singleton, List.not_mem_nil,
    or_false] at hp
  by_contra hne
  rcases hp with rfl | rfl | rfl
  · exact hl (infix_of_FindStringSubmatch_lits "reasoning".toList _ content hne)
  · exact hu (infix_of_FindStringSubmatch_lits "Reasoning".toList _ content hne)
  · have h := infix_of_FindStringSubmatch_lits "## Reasoning".toList _ content hne
    exact hu (List.IsInfix.trans ⟨"## ".toList, [], rfl⟩ h)

/-- When no label pattern matches, `extractReasoning` returns the empty
string. -/
theorem tryReasoning_none (content : Str) (ps : List (List Atom))
    (h : ∀ p ∈ ps, FindStringSubmatch p content = none) : tryReasoning content ps = [] := by
  induction ps with
  | nil => rfl
  | cons p ps ih =>
    simp only [tryReasoning, h p (List.mem_cons_self _ _)]
    exact ih (fun q hq => h q (List.mem_cons_of_mem _ hq))

/-- C24: reasoning extraction never causes a failure.  For every text and
parser, `Extract` fails exactly when `extractJSON` finds no JSON; whenever no
label pattern matches a text, the reasoning of a successful extraction is the
empty string; and no label pattern matches a text that contains neither
"reasoning" nor "Reasoning". -/
theorem C24_reasoning_never_fails (u : Str → Option GoError) (content : Str)
    (hl : ¬ "reasoning".toList <:+: content) (hu : ¬ "Reasoning".toList <:+: content) :
    (∀ (u1 : Str → Option GoError) (t : Str),
      (∃ e, Extract u1 t = .error e) ↔ extractJSON u1 t = []) ∧
    (∀ (u1 : Str → Option GoError) (t : Str),
      (∀ p ∈ reasoningPatterns, FindStringSubmatch p t = none) →
      ∀ j r, Extract u1 t = .ok (j, r) → r = []) ∧
    (∀ p ∈ reasoningPatterns, FindStringSubmatch p content = none) ∧
    (∀ j r, Extract u content = .ok (j, r) → r = []) ∧
    ((∃ j r, Extract u content = .ok (j, r)) ↔ extractJSON u content ≠ []) := by
  have hgen : ∀ (u1 : Str → Option GoError) (t : Str),
      (∀ p ∈ reasoningPatterns, FindStringSubmatch p t = none) →
      ∀ j r, Extract u1 t = .ok (j, r) → r = [] := by
    intro u1 t hnone j r hok
    rw [(Extract_ok u1 t j r hok).2.1]
    exact tryReasoning_none t _ hnone
  refine ⟨Extract_error_iff, hgen, reasoningPatterns_none content hl hu,
    hgen u content (reasoningPatterns_none content hl hu), ?_⟩
  constructor
  · rintro ⟨j, r, hok⟩ h0
    obtain ⟨e, he⟩ := (Extract_error_iff u content).mpr h0
    rw [he] at hok
    cases hok
  · intro hne
    cases hx : Extract u content with
    | error e => exact absurd ((Extract_error_iff u content).mp ⟨e, hx⟩) hne
    | ok jr => exact ⟨jr.1, jr.2, rfl⟩

/-- A witness of C24: the third response of the scenario, which has a graph
and no label. -/
theorem C24_reasoning_never_fails_witness :
    Extract scenarioEnv.unmarshal scenarioReply3.Content = .ok (scenarioGraph3, []) ∧
    (∀ p ∈ reasoningPatterns, FindStringSubmatch p scenarioReply3.Content = none) ∧
    (∀ j r, Extract scenarioEnv.unmarshal scenarioReply3.Content = .ok (j, r) → r = []) :=
  ⟨rfl,
   (C24_reasoning_never_fails scenarioEnv.unmarshal scenarioReply3.Content (by decide)
      (by decide)).2.2.1,
   (C24_reasoning_never_fails scenarioEnv.unmarshal scenarioReply3.Content (by decide)
      (by decide)).2.2.2.1⟩

/-- The text `strings.TrimSpace` returns is a part of its argument. -/
theorem TrimSpace_part (s : Str) : TrimSpace s <:+: s := by
  unfold TrimSpace trimRight
  have h1 : s.dropWhile isSpace <:+ s := List.dropWhile_suffix _
  have h2 : ((s.dropWhile isSpace).reverse.dropWhile isSpace).reverse
      <+: s.dropWhile isSpace := by
    have := List.dropWhile_suffix isSpace (l := (s.dropWhile isSpace).reverse)
    have h3 := List.reverse_prefix.mpr this
    simpa using h3
  exact h2.isInfix.trans h1.isInfix

/-- The slice `content[start : stop]` is a part of `content`. -/
theorem slice_part (content : Str) (start stop : Nat) : slice content start stop <:+: content :=
  (List.take_prefix _ _).isInfix.trans (List.drop_suffix _ _).isInfix

/-- What the loop over the fence patterns returns is a part of the text. -/
theorem tryCodeBlocks_part (u : Str → Option GoError) (content : Str)
    (ps : List (List Atom)) (hps : ∀ p ∈ ps, ∃ label, p = fencePattern label) (j : Str)
    (h : tryCodeBlocks u content ps = some j) : j <:+: content := by
  induction ps with
  | nil => simp [tryCodeBlocks] at h
  | cons p rest ih =>
    have ihr := ih (fun q hq => hps q (List.mem_cons_of_mem _ hq))
    unfold tryCodeBlocks at h
    split at h
    · rename_i mg hf
      dsimp only at h
      split at h
      · cases h
        obtain ⟨label, rfl⟩ := hps p (List.mem_cons_self _ _)
        obtain ⟨hden, pre, post, hs⟩ := FindStringSubmatch_sound _ content mg.1 mg.2 hf
        obtain ⟨w, hm, _, _, _⟩ := (Den_fencePattern label mg.1 mg.2).mp hden
        have hg : mg.2 <:+: content := by
          refine ⟨pre ++ ([backtick, backtick, backtick] ++ (label ++ (w ++ ['\n']))),
            [backtick, backtick, backtick] ++ post, ?_⟩
          rw [hs, hm]
          simp
        exact (TrimSpace_part mg.2).trans hg
      · exact ihr h
    · exact ihr h

/-- What the "nodes" pattern step returns is a part of the text. -/
theorem tryNodes_part (u : Str → Option GoError) (content j : Str)
    (h : tryNodes u content = some j) : j <:+: content := by
  unfold tryNodes at h
  split at h
  · rename_i mg hf
    split at h
    · cases h
      obtain ⟨_, pre, post, hs⟩ := FindStringSubmatch_sound _ content mg.1 mg.2 hf
      exact ⟨pre, post, hs.symm⟩
    · cases h
  · cases h

/-- What the brace scan returns is a part of the text. -/
theorem scanLoop_part (u : Str → Option GoError) (content : Str) (rest : Str) :
    ∀ (i : Nat) (st : ScanState), scanLoop u content rest i st <:+: content := by
  induction rest with
  | nil => intro i st; exact List.nil_infix
  | cons ch rest ih =>
    intro i st
    unfold scanLoop
    dsimp only
    split
    · exact ih _ _
    · split
      · exact ih _ _
      · split
        · exact ih _ _
        · split
          · exact ih _ _
          · split
            · exact ih _ _
            · split
              · split
                · split
                  · exact slice_part _ _ _
                  · exact ih _ _
                · exact ih _ _
              · exact ih _ _

/-- What `extractJSON` returns is a part of the text. -/
theorem extractJSON_part (u : Str → Option GoError) (content : Str) :
    extractJSON u content <:+: content := by
  unfold extractJSON
  split
  · rename_i j h
    refine tryCodeBlocks_part u content _ ?_ j h
    intro p hp
    simp only [codeBlockPatterns, List.mem_cons, List.mem_singleton, List.not_mem_nil,
      or_false] at hp
    rcases hp with rfl | rfl
    · exact ⟨"json".toList, rfl⟩
    · exact ⟨[], rfl⟩
  · split
    · rename_i j h
      exact tryNodes_part u content j h
    · exact scanLoop_part u content content 0 _

/-- C28: whenever `Extract` returns without error, the `graphJSON` it returns
is not empty, is valid JSON, and is a contiguous part of the input text. -/
theorem C28_extract_postcondition (u : Str → Option GoError) (content j r : Str)
    (h : Extract u content = .ok (j, r)) :
    j ≠ [] ∧ u j = none ∧ j <:+: content := by
  obtain ⟨hj, _, hne, hv⟩ := Extract_ok u content j r h
  exact ⟨hne, hv, hj ▸ extractJSON_part u content⟩

/-- A witness of C28: the third response of the scenario. -/
theorem C28_extract_postcondition_witness :
    scenarioGraph3 ≠ [] ∧ scenarioEnv.unmarshal scenarioGraph3 = none ∧
    scenarioGraph3 <:+: scenarioReply3.Content :=
  C28_extract_postcondition scenarioEnv.unmarshal scenarioReply3.Content scenarioGraph3 [] rfl

/-! ## The fenced-block scan -/

/-- C22 (as amended): the fenced-block scan tests one candidate per fence
pattern, the first match of the pattern.  For a text whose first json block
(no backtick before it) has the body `B`: when the trimmed `B` is valid JSON,
`extractJSON` returns it; when it is not, the json pattern gives nothing,
whatever follows the block, and the scan goes on with the first match of the
bare-fence pattern alone. -/
theorem C22_first_match_per_pattern (u : Str → Option GoError) (A W B Z : Str)
    (hA : ∀ c ∈ A, c ≠ backtick) (hW : ∀ c ∈ W, reSpace c = true)
    (hB : ∀ c ∈ B, c ≠ backtick) (hBne : B ≠ []) :
    (u (TrimSpace B) = none →
      extractJSON u (A ++ (fenced "json".toList W B ++ Z)) = TrimSpace B) ∧
    (u (TrimSpace B) ≠ none →
      tryCodeBlocks u (A ++ (fenced "json".toList W B ++ Z)) codeBlockPatterns
        = tryCodeBlocks u (A ++ (fenced "json".toList W B ++ Z)) [reFencePlain]) := by
  obtain ⟨mg, hf, htrim⟩ := FindStringSubmatch_fenced "json".toList A W B Z hA hW hB hBne
  have hstep : tryCodeBlocks u (A ++ (fenced "json".toList W B ++ Z)) codeBlockPatterns
      = if isValidJSON u (TrimSpace B) then some (TrimSpace B)
        else tryCodeBlocks u (A ++ (fenced "json".toList W B ++ Z)) [reFencePlain] := by
    have hf1 : FindStringSubmatch reFenceJson (A ++ (fenced "json".toList W B ++ Z)) = some mg := hf
    rw [codeBlockPatterns, tryCodeBlocks, hf1]
    simp only [htrim]
  constructor
  · intro hv
    have hval : isValidJSON u (TrimSpace B) = true := by simp [isValidJSON, hv]
    rw [extractJSON, hstep, hval]
    rfl
  · intro hv
    have hval : isValidJSON u (TrimSpace B) = false := by
      cases hx : u (TrimSpace B) with
      | none => exact absurd hx hv
      | some e => simp [isValidJSON, hx]
    rw [hstep, hval]
    rfl

set_option maxRecDepth 100000 in
/-- A witness of C22: the text with two json blocks, the first of which has
a body that is not JSON. -/
theorem C22_first_match_per_pattern_witness :
    acceptOnly ["[1, 2]".toList] (TrimSpace "\x7boops\x7d\n".toList) ≠ none ∧
    tryCodeBlocks (acceptOnly ["[1, 2]".toList])
        ([] ++ (fenced "json".toList [] "\x7boops\x7d\n".toList ++
          ('\n' :: fenced "json".toList [] "[1, 2]\n".toList))) codeBlockPatterns
      = tryCodeBlocks (acceptOnly ["[1, 2]".toList])
        ([] ++ (fenced "json".toList [] "\x7boops\x7d\n".toList ++
          ('\n' :: fenced "json".toList [] "[1, 2]\n".toList))) [reFencePlain] :=
  ⟨by decide,
   (C22_first_match_per_pattern (acceptOnly ["[1, 2]".toList]) [] [] "\x7boops\x7d\n".toList
    ('\n' :: fenced "json".toList [] "[1, 2]\n".toList) (by decide) (by decide) (by decide)
    (by decide)).2 (by decide)⟩

set_option maxRecDepth 100000 in
/-- C22 refuted as stated: in the text with two json blocks, the second block
has the valid body `[1, 2]` and the first a body that is not JSON;
`extractJSON` returns the empty string, while on the second block alone it
returns `[1, 2]`. -/
theorem C22_second_block_not_examined :
    acceptOnly ["[1, 2]".toList] (TrimSpace "\x7boops\x7d\n".toList) ≠ none ∧
    acceptOnly ["[1, 2]".toList] (TrimSpace "[1, 2]\n".toList) = none ∧
    FindStringSubmatch reFenceJson twoBlocks
      = some (fenced "json".toList [] "\x7boops\x7d\n".toList, "\x7boops\x7d\n".toList) ∧
    FindStringSubmatch reFencePlain twoBlocks = none ∧
    extractJSON (acceptOnly ["[1, 2]".toList]) twoBlocks = [] ∧
    extractJSON (acceptOnly ["[1, 2]".toList]) (fenced "json".toList [] "[1, 2]\n".toList)
      = "[1, 2]".toList := by
  refine ⟨by decide, by decide, by decide, by decide, by decide, by decide⟩
/-! ## Placeholders inside the substituted task -/

/-- A text that does not hold `old`, after a text without the first rune of
`old`, does not hold `old`. -/
theorem not_infix_append_of_head (h : Char) (tl : Str) (T : Str) (hT : ¬ (h :: tl) <:+: T) :
    ∀ A : Str, h ∉ A → ¬ (h :: tl) <:+: A ++ T := by
  intro A
  induction A with
  | nil => intro _; simpa using hT
  | cons a A ih =>
    intro hA hi
    rw [List.cons_append] at hi
    rcases List.infix_cons_iff.mp hi with hp | hi
    · simp only [List.cons_prefix_cons] at hp
      exact hA (hp.1 ▸ List.mem_cons_self _ _)
    · exact ih (fun hm => hA (List.mem_cons_of_mem _ hm)) hi

/-- The last loop of `extractJSON` passes over the runes of a string literal
without changing its variables, braces included. -/
theorem scanLoop_string (u : Str → Option GoError) (content : Str) (w rest : Str)
    (hw : ∀ c ∈ w, stringRune c = true) :
    ∀ (i : Nat) (depth : Int) (start : Nat),
      scanLoop u content (w ++ rest) i ⟨depth, start, true, false⟩
        = scanLoop u content rest (i + w.length) ⟨depth, start, true, false⟩ := by
  induction w with
  | nil => intro i depth start; rfl
  | cons c w ih =>
    intro i depth start
    have hc := hw c (List.mem_cons_self c w)
    simp only [stringRune, Bool.and_eq_true, bne_iff_ne, ne_eq] at hc
    obtain ⟨⟨h1, h2⟩, _⟩ := hc
    simp only [List.cons_append, scanLoop, Bool.false_eq_true, if_false, beq_iff_eq, h1, h2,
      if_true, List.append_eq]
    rw [ih (fun x hx => hw x (List.mem_cons_of_mem c hx))]
    simp only [List.length_cons]
    congr 1
    omega

/-- The last loop of `extractJSON` on an object `{"note": "w"}` met at depth
zero at a position `i > 0`, whatever braces `w` holds: the span tested is the
one that starts at `i` and ends with the object's last brace. -/
theorem scanLoop_noteWith (u : Str → Option GoError) (content w S : Str) (i : Nat) (hi : 0 < i)
    (hw : ∀ c ∈ w, stringRune c = true) :
    scanLoop u content (noteWith w ++ S) i ⟨0, 0, false, false⟩
      = if isValidJSON u (slice content i (i + (w.length + 12))) = true
        then slice content i (i + (w.length + 12))
        else scanLoop u content S (i + (w.length + 12)) ⟨0, i, false, false⟩ := by
  have h1 : scanLoop u content (noteWith w ++ S) i ⟨0, 0, false, false⟩
      = scanLoop u content (w ++ ('"' :: '}' :: S)) (i + 10) ⟨1, i, true, false⟩ := by
    simp [noteWith, scanLoop, Nat.add_assoc]
  rw [h1, scanLoop_string u content w _ hw]
  have e : i + 10 + w.length + 1 + 1 = i + (w.length + 12) := by omega
  simp [scanLoop, hi, e]

/-- A text between double quotes that is found in a text continued by a
double quote starts at that quote or lies after it. -/
theorem quoted_step (N a R : Str) (ha : '"' ∉ a)
    (h : ('"' :: (N ++ ['"'])) <:+: a ++ '"' :: R) :
    (N ++ ['"']) <+: R ∨ ('"' :: (N ++ ['"'])) <:+: R := by
  have h1 : ('"' :: (N ++ ['"'])) <:+: '"' :: R := by
    by_contra hn
    exact not_infix_append_of_head '"' _ _ hn a ha h
  rcases List.infix_cons_iff.mp h1 with hp | hi
  · exact Or.inl (List.cons_prefix_cons.mp hp).2
  · exact Or.inr hi

/-- A text without double quotes, followed by one, that starts a text of the
same kind is the part of that text before its first double quote. -/
theorem quoted_eq (N b R : Str) (hN : '"' ∉ N) (hb : '"' ∉ b)
    (h : (N ++ ['"']) <+: b ++ '"' :: R) : N = b := by
  obtain ⟨t, ht⟩ := h
  exact (append_cons_inj_of_not_mem '"' N b t R hN hb (by simpa using ht)).1

/-- The key "nodes" is not in a response made of prose and an object
`{"note": "w"}`, unless `w` is the word nodes. -/
theorem nodesKey_absent (P w S : Str) (hP : ∀ c ∈ P, plainRune c = true)
    (hw : ∀ c ∈ w, stringRune c = true) (hS : ∀ c ∈ S, plainRune c = true)
    (hne : w ≠ "nodes".toList) :
    ¬ "\"nodes\"".toList <:+: P ++ noteWith w ++ S := by
  have hPq : '"' ∉ P ++ ['{'] := by
    intro hm
    rcases List.mem_append.mp hm with hm | hm
    · have := hP _ hm
      simp [plainRune] at this
    · simp at hm
  have hwq : '"' ∉ w := by
    intro hm
    have := hw _ hm
    simp [stringRune] at this
  have hSq : '"' ∉ '}' :: S := by
    intro hm
    rcases List.mem_cons.mp hm with hm | hm
    · exact absurd hm (by decide)
    · have := hS _ hm
      simp [plainRune] at this
  have hshape : P ++ noteWith w ++ S
      = (P ++ ['{']) ++ '"' :: ("note".toList ++ '"' :: (": ".toList ++ '"' :: (w ++ '"' ::
          ('}' :: S)))) := by
    simp [noteWith]
  rw [hshape]
  intro h
  have hkey : "\"nodes\"".toList = '"' :: ("nodes".toList ++ ['"']) := rfl
  rw [hkey] at h
  have hmem : ∀ T : Str, '"' ∉ T → ¬ ("nodes".toList ++ ['"']) <+: T := by
    intro T hT hp
    exact hT (hp.subset (by simp))
  have hmem2 : ∀ T : Str, '"' ∉ T → ¬ ('"' :: ("nodes".toList ++ ['"'])) <:+: T := by
    intro T hT hp
    exact hT (hp.subset (by simp))
  rcases quoted_step _ _ _ hPq h with h | h
  · exact absurd (quoted_eq _ _ _ (by decide) (by decide) h) (by decide)
  · rcases quoted_step _ _ _ (by decide) h with h | h
    · exact absurd (quoted_eq _ _ _ (by decide) (by decide) h) (by decide)
    · rcases quoted_step _ _ _ (by decide) h with h | h
      · exact hne (quoted_eq _ _ _ (by decide) hwq h).symm
      · rcases quoted_step _ _ _ hwq h with h | h
        · exact hmem _ hSq h
        · exact hmem2 _ hSq h

/-- The "nodes" pattern matches nowhere in a text that does not hold the key
"nodes". -/
theorem tryNodes_none_of_no_key (u : Str → Option GoError) (content : Str)
    (h : ¬ "\"nodes\"".toList <:+: content) : tryNodes u content = none := by
  unfold tryNodes
  cases hf : FindStringSubmatch reNodes content with
  | none => rfl
  | some mg =>
    exfalso
    obtain ⟨hden, pre, rest, hs⟩ := FindStringSubmatch_sound _ content mg.1 mg.2 hf
    obtain ⟨w1, w2, hm, _⟩ := (Den_reNodes mg.1 mg.2).mp hden
    apply h
    refine ⟨pre ++ '{' :: w1, w2 ++ ['}'] ++ rest, ?_⟩
    rw [hs, hm]
    simp

/-- C3: extraction ignores braces inside string literals.  In a response made
of non-empty plain prose, an object `{"note": "w"}`, and more plain prose (no
brace, double quote, backslash or backtick in the prose), `Extract` returns
exactly that object, `json.Unmarshal` accepting it, whatever braces the
string `w` holds, balanced or not; `w` is any text without a double quote, a
backslash or a backtick, other than the word nodes.  The object
`{"note": "a { b } c"}` is the case `w = a { b } c`. -/
theorem C3_braces_in_string_ignored (u : Str → Option GoError) (P w S : Str)
    (hne : P ≠ [])
    (hP : ∀ c ∈ P, plainRune c = true) (hS : ∀ c ∈ S, plainRune c = true)
    (hw : ∀ c ∈ w, stringRune c = true) (hkey : w ≠ "nodes".toList)
    (hvalid : u (noteWith w) = none) :
    Extract u (P ++ noteWith w ++ S)
      = .ok (noteWith w, extractReasoning (P ++ noteWith w ++ S)) ∧
    noteWith "a \x7b b \x7d c".toList = noteObject := by
  refine ⟨?_, by decide⟩
  have hlen : 0 < P.length := List.length_pos.mpr hne
  have hfence : tryCodeBlocks u (P ++ noteWith w ++ S) codeBlockPatterns = none := by
    apply tryCodeBlocks_none_of_no_backtick
    intro c hc hb
    subst hb
    simp only [noteWith, List.mem_append] at hc
    rcases hc with ((hc | hc | hc | hc) | hc)
    · have := hP _ hc
      simp [plainRune] at this
    · revert hc; decide
    · have := hw _ hc
      simp [stringRune] at this
    · revert hc; decide
    · have := hS _ hc
      simp [plainRune] at this
  have hnodes : tryNodes u (P ++ noteWith w ++ S) = none :=
    tryNodes_none_of_no_key u _ (nodesKey_absent P w S hP hw hS hkey)
  have hv : isValidJSON u (noteWith w) = true := by simp [isValidJSON, hvalid]
  have hsl : slice (P ++ noteWith w ++ S) (0 + P.length) (0 + P.length + (w.length + 12))
      = noteWith w := by
    rw [Nat.zero_add]
    exact slice_middle P (noteWith w) S _ (by simp [noteWith])
  have hscan : scanLoop u (P ++ noteWith w ++ S) (P ++ noteWith w ++ S) 0 ⟨0, 0, false, false⟩
      = noteWith w := by
    conv_lhs => arg 3; rw [List.append_assoc]
    rw [scanLoop_plain u _ P (noteWith w ++ S) hP 0 0 0,
      scanLoop_noteWith u _ w S (0 + P.length) (by omega) hw, hsl, if_pos hv]
  have hjson : extractJSON u (P ++ noteWith w ++ S) = noteWith w := by
    simp only [extractJSON, hfence, hnodes, hscan]
  have hne' : (noteWith w == ([] : Str)) = false := by simp [noteWith]
  simp only [Extract, hjson, hne', hvalid]
  rfl

/-- C3 at two concrete responses: the object `{"note": "a { b } c"}`, and an
object whose string holds a lone closing brace, `{"note": "a } b"}`. -/
theorem C3_braces_in_string_ignored_witness :
    (Extract (acceptOnly [noteObject])
        ("Here it is: ".toList ++ noteWith "a \x7b b \x7d c".toList ++ " (done)".toList)
      = .ok (noteWith "a \x7b b \x7d c".toList,
          extractReasoning
            ("Here it is: ".toList ++ noteWith "a \x7b b \x7d c".toList ++ " (done)".toList)) ∧
      noteWith "a \x7b b \x7d c".toList = noteObject) ∧
    (Extract (acceptOnly [noteWith "a \x7d b".toList])
        ("Here it is: ".toList ++ noteWith "a \x7d b".toList ++ " (done)".toList)
      = .ok (noteWith "a \x7d b".toList,
          extractReasoning
            ("Here it is: ".toList ++ noteWith "a \x7d b".toList ++ " (done)".toList)) ∧
      noteWith "a \x7b b \x7d c".toList = noteObject) :=
  ⟨C3_braces_in_string_ignored (acceptOnly [noteObject]) "Here it is: ".toList
      "a \x7b b \x7d c".toList " (done)".toList (by decide) (by decide) (by decide) (by decide)
      (by decide) (by decide),
   C3_braces_in_string_ignored (acceptOnly [noteWith "a \x7d b".toList]) "Here it is: ".toList
      "a \x7d b".toList " (done)".toList (by decide) (by decide) (by decide) (by decide)
      (by decide) (by decide)⟩

end DagoPlanner
